import Mathlib

/-!
# fylay: style cascade, property-block grammar, colours, sizes and the build

A shallow embedding of `styles.go`, of `colors.go`, of `parseCSS`, `parseSize`
and the widget tree builder (`fylay.go`, `widgets.go`, `helpers.go`,
`binding.go`), together with the parts of the Go standard library they call.

Modelling conventions.

* A Go `string` holding valid UTF-8 (the only strings the XML decoder hands
  over) is the list of its code points, `Str`.  Where the source counts or
  slices bytes (`len(hex)`, `hex[0:2]`) the model goes through `utf8Bytes`.
* A Go `map[string]V` is a partial function `Str → Option V`.  Reading an
  absent key gives `none`; `m[k] = v` is `GoMap.set`; the loop
  `for k, v := range src { dst[k] = v }` is `GoMap.assignAll`.
* A Go result pair `(value, error)` is an `Option`: `none` stands for a
  non-nil error.
* A float of Go is its sign and its magnitude as a multiple of the least
  positive value of its format (`GoFloat`).
* The builder is passed and returned (`BuilderState`); an object of the
  toolkit is the value of the call and the assignments that made it, and what
  the toolkit and the file system decide is a parameter (`Toolkit`).
* A registered callback or handler is its identity; running a closure of the
  build gives the list of the calls it makes (`Invocation`).
* A binding cell is its index in the store of cells of the binding context.
-/

namespace Fylay

/-- A Go string of valid UTF-8, as the list of its code points. -/
abbrev Str := List Char

/-! ## Go maps -/

/-- A Go `map[string]V`. -/
abbrev GoMap (V : Type) := Str → Option V

/-- The result of `make(map[string]V)`. -/
def GoMap.empty {V : Type} : GoMap V := fun _ => none

/-- The assignment `m[k] = v`. -/
def GoMap.set {V : Type} (m : GoMap V) (k : Str) (v : V) : GoMap V :=
  fun k' => if k' = k then some v else m k'

/-- The loop `for k, v := range src { dst[k] = v }`: every key of `src` is
written into `dst`, all other keys of `dst` are left alone. -/
def GoMap.assignAll {V : Type} (dst src : GoMap V) : GoMap V :=
  fun k => match src k with
    | some v => some v
    | none => dst k

/-! ## Go standard library: `unicode`, `strings` -/

/-- The code points for which `unicode.IsSpace` holds. -/
def isSpaceRune (n : Nat) : Bool :=
  (0x09 ≤ n && n ≤ 0x0D) || n == 0x20 || n == 0x85 || n == 0xA0 || n == 0x1680 ||
  (0x2000 ≤ n && n ≤ 0x200A) || n == 0x2028 || n == 0x2029 || n == 0x202F ||
  n == 0x205F || n == 0x3000

/-- The predicate `unicode.IsSpace`. -/
def isSpace (c : Char) : Bool := isSpaceRune c.toNat

/-- The function `strings.TrimSpace`. -/
def TrimSpace (s : Str) : Str := (s.dropWhile isSpace).rdropWhile isSpace

/-- The function `strings.Trim(s, cutset)`. -/
def Trim (s cutset : Str) : Str :=
  (s.dropWhile (fun c => decide (c ∈ cutset))).rdropWhile (fun c => decide (c ∈ cutset))

/-- The function `strings.Split(s, sep)` for a one-character separator. -/
def Split (s : Str) (sep : Char) : List Str := s.splitOn sep

/-- The function `strings.SplitN(s, sep, 2)` for a one-character separator:
`[s]` when `sep` does not occur, else the text before the first `sep` and the
text after it. -/
def SplitN2 (s : Str) (sep : Char) : List Str :=
  if sep ∈ s then
    [s.takeWhile (fun c => c != sep), (s.dropWhile (fun c => c != sep)).tail]
  else [s]

/-- The function `strings.HasPrefix`. -/
def HasPrefix (s pre : Str) : Bool := pre.isPrefixOf s

/-- The function `strings.HasSuffix`. -/
def HasSuffix (s suf : Str) : Bool := suf.isSuffixOf s

/-- The function `strings.TrimPrefix`. -/
def TrimPrefix (s pre : Str) : Str := if HasPrefix s pre then s.drop pre.length else s

/-- The function `strings.TrimSuffix`. -/
def TrimSuffix (s suf : Str) : Str :=
  if HasSuffix s suf then s.take (s.length - suf.length) else s

/-- The function `unicode.ToLower`, exact wherever the result is an ASCII
letter: the letters `A`..`Z`, U+0130 (to `i`) and U+212A (to `k`) are the only
code points whose lower case is ASCII.  Every other code point is mapped by Go
to a non-ASCII code point or to itself, and is left alone here. -/
def toLowerRune (c : Char) : Char :=
  if 0x41 ≤ c.toNat ∧ c.toNat ≤ 0x5A then Char.ofNat (c.toNat + 32)
  else if c.toNat = 0x130 then 'i'
  else if c.toNat = 0x212A then 'k'
  else c

/-- The function `strings.ToLower`. -/
def ToLower (s : Str) : Str := s.map toLowerRune

/-! ## `parseCSS` (fylay.go) -/

/-- The body of the loop of `parseCSS`, run on one declaration. -/
def parseCSSDecl (props : GoMap Str) (decl : Str) : GoMap Str :=
  let decl := TrimSpace decl
  if decl = [] then props
  else
    match SplitN2 decl ':' with
    | [key, value] => props.set (TrimSpace key) (TrimSpace value)
    | _ => props

/-- The function `parseCSS`. -/
def parseCSS (css : Str) : GoMap Str :=
  let css := TrimSpace css
  let css := Trim css ['\x7b', '\x7d']
  (Split css ';').foldl parseCSSDecl GoMap.empty

/-! ## Data model (fylay.go) -/

/-- The struct `Style`. -/
structure Style where
  Selector : Str
  Properties : GoMap Str
  RawCSS : Str

/-- The struct `Element`; `tag` is `XMLName.Local`. -/
inductive Element where
  | mk (tag ID Class Style Text : Str) (Attributes : List (Str × Str))
      (Children : List Element) (Content : Str)

/-- Field `XMLName.Local`. -/
def Element.tag : Element → Str
  | .mk t _ _ _ _ _ _ _ => t

/-- Field `ID`. -/
def Element.ID : Element → Str
  | .mk _ i _ _ _ _ _ _ => i

/-- Field `Class`. -/
def Element.Class : Element → Str
  | .mk _ _ c _ _ _ _ _ => c

/-- Field `Style`. -/
def Element.Style : Element → Str
  | .mk _ _ _ s _ _ _ _ => s

/-- Field `Text`. -/
def Element.Text : Element → Str
  | .mk _ _ _ _ t _ _ _ => t

/-- Field `Attributes`. -/
def Element.Attributes : Element → List (Str × Str)
  | .mk _ _ _ _ _ a _ _ => a

/-- Field `Children`. -/
def Element.Children : Element → List Element
  | .mk _ _ _ _ _ _ c _ => c

/-- Field `Content`. -/
def Element.Content : Element → Str
  | .mk _ _ _ _ _ _ _ c => c

/-- The part of `Builder` the style cascade reads: the rule registry. -/
structure Builder where
  styles : GoMap Style

/-! ## Style cascade (styles.go) -/

/-- The body of the loop of `applyClassStyles`, run on one piece of the class
attribute. -/
def applyClassStep (b : Builder) (style : GoMap Str) (cls : Str) : GoMap Str :=
  let cls := TrimSpace cls
  if cls = [] then style
  else
    match b.styles ('.' :: cls) with
    | some s => style.assignAll s.Properties
    | none => style

/-- The method `applyClassStyles`. -/
def applyClassStyles (b : Builder) (style : GoMap Str) (classes : Str) : GoMap Str :=
  if classes = [] then style
  else (Split classes ' ').foldl (applyClassStep b) style

/-- The method `applyIDStyles`. -/
def applyIDStyles (b : Builder) (style : GoMap Str) (id : Str) : GoMap Str :=
  if id = [] then style
  else
    match b.styles ('#' :: id) with
    | some s => style.assignAll s.Properties
    | none => style

/-- The method `applyInlineStyles`. -/
def applyInlineStyles (style : GoMap Str) (inlineStyle : Str) : GoMap Str :=
  if inlineStyle = [] then style
  else style.assignAll (parseCSS inlineStyle)

/-- The method `computeStyle`. -/
def computeStyle (b : Builder) (elem : Element) : GoMap Str :=
  let style : GoMap Str := GoMap.empty
  let style := applyClassStyles b style elem.Class
  let style := applyIDStyles b style elem.ID
  let style := applyInlineStyles style elem.Style
  style

/-! ## Go standard library: `unicode/utf8`, `fmt`, `strconv` -/

/-- The UTF-8 encoding of one code point. -/
def utf8EncodeRune (c : Char) : List Nat :=
  let v := c.toNat
  if v < 0x80 then [v]
  else if v < 0x800 then [0xC0 + v / 64, 0x80 + v % 64]
  else if v < 0x10000 then [0xE0 + v / 4096, 0x80 + v / 64 % 64, 0x80 + v % 64]
  else [0xF0 + v / 262144, 0x80 + v / 4096 % 64, 0x80 + v / 64 % 64, 0x80 + v % 64]

/-- The bytes of a Go string. -/
def utf8Bytes (s : Str) : List Nat := s.flatMap utf8EncodeRune

/-- The code points a rune reader delivers from a byte string (as
`utf8.DecodeRune` does, an invalid or incomplete sequence giving U+FFFD for
one byte).  Exact for inputs of at most two bytes, the only ones scanned
here: a three- or four-byte sequence cannot be complete in them. -/
def decodeRunes : List Nat → List Nat
  | [] => []
  | b0 :: rest =>
    if b0 < 0x80 then b0 :: decodeRunes rest
    else
      match rest with
      | [] => [0xFFFD]
      | b1 :: rest1 =>
        if 0xC2 ≤ b0 ∧ b0 ≤ 0xDF ∧ 0x80 ≤ b1 ∧ b1 ≤ 0xBF then
          ((b0 - 0xC0) * 64 + (b1 - 0x80)) :: decodeRunes rest1
        else 0xFFFD :: decodeRunes (b1 :: rest1)

/-- The loop of `(*ss).SkipSpace` of package `fmt` with `nlIsSpace` false:
white space is consumed, a line feed is the error `unexpected newline`
(`none`), otherwise the unread rest is returned. -/
def skipSpace : List Nat → Option (List Nat)
  | [] => some []
  | r :: rest =>
    if r = 0x0A then none
    else if isSpaceRune r then skipSpace rest
    else some (r :: rest)

/-- Membership in `hexadecimalDigits` of package `fmt`. -/
def isHexDigitRune (r : Nat) : Bool :=
  (0x30 ≤ r && r ≤ 0x39) || (0x41 ≤ r && r ≤ 0x46) || (0x61 ≤ r && r ≤ 0x66)

/-- The value of one hexadecimal digit. -/
def hexDigitValue (r : Nat) : Nat :=
  if r ≤ 0x39 then r - 0x30 else if r ≤ 0x46 then r - 0x41 + 10 else r - 0x61 + 10

/-- The call `fmt.Sscanf(str, "%02x", &v)` with `v` a `uint8`, on the bytes of
`str`: leading white space is skipped, then at most two runes are read while
they are hexadecimal digits; at least one digit is needed, and what follows
the number is not looked at.  The result is the scanned value, `none` for an
error. -/
def Sscanf02x (str : List Nat) : Option Nat :=
  match skipSpace (decodeRunes str) with
  | none => none
  | some rest =>
    let tok := (rest.take 2).takeWhile isHexDigitRune
    if tok = [] then none
    else some (tok.foldl (fun acc d => acc * 16 + hexDigitValue d) 0)

/-- Whether a character is a decimal digit. -/
def isDecDigit (c : Char) : Bool := 0x30 ≤ c.toNat && c.toNat ≤ 0x39

/-- The function `strconv.Atoi` on a 64-bit platform: an optional sign and a
non-empty run of decimal digits, with the value inside the range of `int`. -/
def Atoi (s : Str) : Option Int :=
  let digits : Str :=
    match s with
    | '-' :: t => t
    | '+' :: t => t
    | _ => s
  if digits = [] ∨ ¬ digits.all isDecDigit then none
  else
    let n : Nat := digits.foldl (fun acc d => acc * 10 + (d.toNat - 0x30)) 0
    let v : Int := if s.head? = some '-' then -(n : Int) else (n : Int)
    if -(2 : Int) ^ 63 ≤ v ∧ v < (2 : Int) ^ 63 then some v else none

/-! ## Colours (colors.go) -/

/-- The values of `color.Color` that occur: `color.Gray16` and `color.RGBA`. -/
inductive Color where
  | Gray16 (Y : Nat)
  | RGBA (R G B A : Nat)
  deriving DecidableEq, Repr

/-- The variable `color.Black`. -/
def Color.Black : Color := Color.Gray16 0

/-- The variable `color.White`. -/
def Color.White : Color := Color.Gray16 0xffff

/-- The method `RGBA()` of `color.Color`: red, green, blue and alpha as
16-bit values. -/
def Color.rgba16 : Color → Nat × Nat × Nat × Nat
  | .Gray16 y => (y, y, y, 0xffff)
  | .RGBA r g b a => (r * 257, g * 257, b * 257, a * 257)

/-- The interface `ColorParser`. -/
structure ColorParser where
  CanParse : Str → Bool
  Parse : Str → Option Color

/-- The method `(*NamedColorParser).CanParse`. -/
def NamedColorParser.CanParse (colorStr : Str) : Bool :=
  let normalized := ToLower (TrimSpace colorStr)
  let namedColors : List Str :=
    ["black".toList, "white".toList, "red".toList, "green".toList, "blue".toList,
      "yellow".toList, "cyan".toList, "magenta".toList]
  namedColors.any (fun name => normalized == name)

/-- The method `(*NamedColorParser).Parse`. -/
def NamedColorParser.Parse (colorStr : Str) : Option Color :=
  let n := ToLower (TrimSpace colorStr)
  if n = "black".toList then some Color.Black
  else if n = "white".toList then some Color.White
  else if n = "red".toList then some (Color.RGBA 255 0 0 255)
  else if n = "green".toList then some (Color.RGBA 0 255 0 255)
  else if n = "blue".toList then some (Color.RGBA 0 0 255 255)
  else if n = "yellow".toList then some (Color.RGBA 255 255 0 255)
  else if n = "cyan".toList then some (Color.RGBA 0 255 255 255)
  else if n = "magenta".toList then some (Color.RGBA 255 0 255 255)
  else none

/-- The method `(*HexColorParser).CanParse`. -/
def HexColorParser.CanParse (colorStr : Str) : Bool :=
  let colorStr := TrimSpace colorStr
  if !HasPrefix colorStr ['#'] then false
  else
    let hex := (utf8Bytes colorStr).drop 1
    hex.length == 3 || hex.length == 6

/-- The byte slice `s[i:j]`. -/
def byteSlice (s : List Nat) (i j : Nat) : List Nat := (s.take j).drop i

/-- The method `(*HexColorParser).Parse`. -/
def HexColorParser.Parse (colorStr : Str) : Option Color :=
  let colorStr := TrimSpace colorStr
  if !HasPrefix colorStr ['#'] then none
  else
    let hex := (utf8Bytes colorStr).drop 1
    if hex.length = 3 then
      match Sscanf02x (byteSlice hex 0 1 ++ byteSlice hex 0 1) with
      | none => none
      | some r =>
        match Sscanf02x (byteSlice hex 1 2 ++ byteSlice hex 1 2) with
        | none => none
        | some g =>
          match Sscanf02x (byteSlice hex 2 3 ++ byteSlice hex 2 3) with
          | none => none
          | some b => some (Color.RGBA r g b 255)
    else if hex.length = 6 then
      match Sscanf02x (byteSlice hex 0 2) with
      | none => none
      | some r =>
        match Sscanf02x (byteSlice hex 2 4) with
        | none => none
        | some g =>
          match Sscanf02x (byteSlice hex 4 6) with
          | none => none
          | some b => some (Color.RGBA r g b 255)
    else none

/-- The method `(*RGBColorParser).CanParse`. -/
def RGBColorParser.CanParse (colorStr : Str) : Bool :=
  let colorStr := TrimSpace colorStr
  HasPrefix colorStr "rgb(".toList && HasSuffix colorStr [')']

/-- One component of `rgb(...)`: `strconv.Atoi` of the trimmed part, accepted
when `err == nil && v >= 0 && v <= 255`. -/
def rgbComponent (part : Str) : Option Nat :=
  match Atoi (TrimSpace part) with
  | some v => if 0 ≤ v ∧ v ≤ 255 then some v.toNat else none
  | none => none

/-- The method `(*RGBColorParser).Parse`. -/
def RGBColorParser.Parse (colorStr : Str) : Option Color :=
  let colorStr := TrimSpace colorStr
  if !HasPrefix colorStr "rgb(".toList || !HasSuffix colorStr [')'] then none
  else
    let values := TrimPrefix colorStr "rgb(".toList
    let values := TrimSuffix values [')']
    let parts := Split values ','
    match parts with
    | [p0, p1, p2] =>
      match rgbComponent p0 with
      | none => none
      | some r =>
        match rgbComponent p1 with
        | none => none
        | some g =>
          match rgbComponent p2 with
          | none => none
          | some b => some (Color.RGBA r g b 255)
    | _ => none

/-- The variable `colorParsers`. -/
def colorParsers : List ColorParser :=
  [⟨NamedColorParser.CanParse, NamedColorParser.Parse⟩,
   ⟨HexColorParser.CanParse, HexColorParser.Parse⟩,
   ⟨RGBColorParser.CanParse, RGBColorParser.Parse⟩]

/-- The loop of `parseColor` over the recognisers still to be tried: the
first one that both accepts and parses gives the result; `none` when the loop
runs out. -/
def parseColorLoop : List ColorParser → Str → Option Color
  | [], _ => none
  | parser :: rest, colorStr =>
    if parser.CanParse colorStr then
      match parser.Parse colorStr with
      | some c => some c
      | none => parseColorLoop rest colorStr
    else parseColorLoop rest colorStr

/-- The function `parseColor`. -/
def parseColor (colorStr : Str) : Color :=
  let colorStr := TrimSpace colorStr
  if colorStr = [] then Color.Black
  else
    match parseColorLoop colorParsers colorStr with
    | some c => c
    | none => Color.Black

/-! ## Auxiliary definitions for the statements, and the fixtures of the tests -/

/-- The pieces of a class attribute that `applyClassStyles` looks up: the
parts between single spaces, trimmed, the empty ones left out. -/
def classTokens (classes : Str) : List Str :=
  ((Split classes ' ').map TrimSpace).filter (fun t => decide (t ≠ []))

/-- What `applyClassStyles` does for one class token. -/
def applyToken (b : Builder) (style : GoMap Str) (t : Str) : GoMap Str :=
  match b.styles ('.' :: t) with
  | some s => style.assignAll s.Properties
  | none => style

/-- A rule as `LoadLayout` registers it. -/
def mkStyle (selector raw : String) : Style :=
  ⟨selector.toList, parseCSS raw.toList, raw.toList⟩

/-- The registry of `TestStyleCascade`. -/
def cascadeBuilder : Builder :=
  ⟨(GoMap.empty.set ".red-text".toList (mkStyle ".red-text" "color: red;")).set
    "#special".toList (mkStyle "#special" "color: blue;")⟩

/-- The root element of `TestStyleCascade`. -/
def cascadeElem : Element :=
  .mk "VBox".toList "special".toList "red-text".toList "color: green;".toList [] [] [] []

/-- The registry of `TestApplyStyleMethods`. -/
def methodsBuilder : Builder :=
  ⟨((GoMap.empty.set ".red".toList
        ⟨".red".toList,
          (GoMap.empty.set "color".toList "red".toList).set "font-size".toList "14".toList, []⟩).set
      ".large".toList
        ⟨".large".toList, GoMap.empty.set "font-size".toList "20".toList, []⟩).set
      "#unique".toList ⟨"#unique".toList, GoMap.empty.set "color".toList "blue".toList, []⟩⟩

/-- An element carrying both classes of `TestApplyStyleMethods`. -/
def methodsElem : Element :=
  .mk "Label".toList [] "red large".toList [] [] [] [] []

/-- The registry of `TestStylePrecedenceWithSizes`. -/
def sizesBuilder : Builder :=
  ⟨(GoMap.empty.set ".btn-class".toList
      (mkStyle ".btn-class" "\n\t\t\twidth: 100px;\n\t\t\theight: 40px;\n\t\t")).set
    "#btn1".toList (mkStyle "#btn1" "\n\t\t\twidth: 150px;\n\t\t")⟩

/-- The button of `TestStylePrecedenceWithSizes`. -/
def sizesElem : Element :=
  .mk "Button".toList "btn1".toList "btn-class".toList "width: 200px".toList [] [] []
    "Test".toList

/-- An element none of whose selectors is registered in `cascadeBuilder`. -/
def plainElem : Element :=
  .mk "Label".toList "other".toList "Red-Text blue".toList [] [] [] [] []

/-- Trimming by a predicate: the common shape of `strings.TrimSpace` and
`strings.Trim`. -/
def trimP (p : Char → Bool) (s : Str) : Str := (s.dropWhile p).rdropWhile p

/-- A string neither starts nor ends with a character satisfying `p`. -/
def NoEdge (p : Char → Bool) (s : Str) : Prop :=
  (∀ c, s.head? = some c → p c = false) ∧ (∀ c, s.getLast? = some c → p c = false)

/-- Membership in the cutset of `parseCSS`, the two braces. -/
def isBrace (c : Char) : Bool := decide (c ∈ ['\x7b', '\x7d'])

/-- The key and the value that the loop body of `parseCSS` assigns for one
declaration, `none` when it assigns nothing. -/
def declKV (decl : Str) : Option (Str × Str) :=
  let d := TrimSpace decl
  if ':' ∈ d then
    some (TrimSpace (d.takeWhile (fun c => c != ':')),
      TrimSpace ((d.dropWhile (fun c => c != ':')).tail))
  else none

/-- One entry written out as a `key: value;` declaration, the form the
round-trip property of the specification names (the source has no
serialiser). -/
def serializeDecl (kv : Str × Str) : Str := kv.1 ++ ':' :: ' ' :: (kv.2 ++ [';'])

/-- A mapping re-serialised as a property block, after the round-trip
property of the specification: its entries, taken in the order of the list,
each as `key: value;`. -/
def serializeCSS (entries : List (Str × Str)) : Str := entries.flatMap serializeDecl

/-- The list holds exactly the entries of the mapping (in some order). -/
def Enumerates (entries : List (Str × Str)) (m : GoMap Str) : Prop :=
  ∀ k v, (k, v) ∈ entries ↔ m k = some v

/-- The assignment `m[kv.1] = kv.2`. -/
def setKV (m : GoMap Str) (kv : Str × Str) : GoMap Str := m.set kv.1 kv.2

/-- The declarations `parseCSS` iterates over: the input trimmed of white
space, then of braces, and split at every `;`. -/
def cssDeclarations (css : Str) : List Str :=
  Split (Trim (TrimSpace css) ['\x7b', '\x7d']) ';'

/-- The text of one declaration without the closing `;`. -/
def declText (kv : Str × Str) : Str := kv.1 ++ ':' :: ' ' :: kv.2

/-! ## Statements about the colour recognisers -/

/-- The table of named colours of the specification: each name with its red,
green and blue components. -/
def namedColorTable : List (Str × (Nat × Nat × Nat)) :=
  [("black".toList, (0, 0, 0)), ("white".toList, (255, 255, 255)),
    ("red".toList, (255, 0, 0)), ("green".toList, (0, 255, 0)),
    ("blue".toList, (0, 0, 255)), ("yellow".toList, (255, 255, 0)),
    ("cyan".toList, (0, 255, 255)), ("magenta".toList, (255, 0, 255))]

/-- Whether a character is a hexadecimal digit `0`-`9`, `a`-`f` or `A`-`F`. -/
def isHexDigitChar (c : Char) : Bool := isHexDigitRune c.toNat

/-- The value of a hexadecimal digit character. -/
def hexVal (c : Char) : Nat := hexDigitValue c.toNat

/-- The procedure the specification describes for colours: after trimming,
the first recogniser whose `CanParse` accepts the text is the only one that is
tried, and when its `Parse` fails the result is black. -/
def parseColorFirstMatch (colorStr : Str) : Color :=
  let colorStr := TrimSpace colorStr
  if colorStr = [] then Color.Black
  else
    match colorParsers.find? (fun p => p.CanParse colorStr) with
    | none => Color.Black
    | some p => (p.Parse colorStr).getD Color.Black

/-! ## Go standard library: `strconv.ParseFloat` -/

/-- A binary floating-point format: the precision in bits, the binary exponent
of the least positive value (negated), and the binary exponent at which
magnitudes overflow. -/
structure FloatFormat where
  mantBits : Nat
  unitExp : Nat
  maxExp : Nat

/-- The format of `float32`: values are multiples of `2^-149`, with 24 bits of
precision, below `2^128`. -/
def float32 : FloatFormat := ⟨24, 149, 128⟩

/-- The format of `float64`: values are multiples of `2^-1074`, with 53 bits
of precision, below `2^1024`. -/
def float64 : FloatFormat := ⟨53, 1074, 1024⟩

/-- A floating-point value of a given format: a finite value is its sign and
its magnitude counted in units of the least positive value of the format
(`units * 2^-149` for `float32`). -/
inductive GoFloat where
  | finite (neg : Bool) (units : Nat)
  | inf (neg : Bool)
  | nan
  deriving DecidableEq, Repr

/-- The `float32` with the value of a natural number (exact below `2^24`). -/
def GoFloat.ofNat32 (n : Nat) : GoFloat := GoFloat.finite false (n * 2 ^ 149)

/-- The quotient `n / d` rounded to the nearest integer, a tie going to the
even neighbour. -/
def roundHalfEven (n d : Nat) : Nat :=
  let q := n / d
  let r := n % d
  if 2 * r < d then q else if d < 2 * r then q + 1 else if q % 2 = 0 then q else q + 1

/-- The number of binary digits of `n`, computed with `fuel` halvings at
most. -/
def bitLenAux : Nat → Nat → Nat
  | 0, _ => 0
  | fuel + 1, n => if n = 0 then 0 else bitLenAux fuel (n / 2) + 1

/-- The number of binary digits of `n` (0 for 0). -/
def bitLen (n : Nat) : Nat := bitLenAux n n

/-- The magnitude `num / den`, given in units, rounded to `mantBits` bits of
precision (to nearest, ties to even), again in units: below `2^mantBits` the
representable magnitudes are the whole numbers of units, above they are the
multiples of `2^s` for the `s` that leaves `mantBits` binary digits. -/
def roundUnits (mantBits num den : Nat) : Nat :=
  let s := bitLen (num / den) - mantBits
  roundHalfEven num (den * 2 ^ s) * 2 ^ s

/-- The byte-wise lower-casing of `A`-`Z` used by `strconv`. -/
def asciiLower (c : Char) : Char :=
  if 0x41 ≤ c.toNat ∧ c.toNat ≤ 0x5A then Char.ofNat (c.toNat + 32) else c

/-- The function `commonPrefixLenIgnoreCase` of `strconv`; the second argument
is in lower case. -/
def commonPrefixLenIgnoreCase : Str → Str → Nat
  | c :: s, p :: ps => if asciiLower c = p then commonPrefixLenIgnoreCase s ps + 1 else 0
  | _, _ => 0

/-- The `inf` and `infinity` branch of `special`, entered with the sign
already removed: the value and the number of bytes used. -/
def specialInf (neg : Bool) (nsign : Nat) (s : Str) : Option (GoFloat × Nat) :=
  let n := commonPrefixLenIgnoreCase s "infinity".toList
  let n := if 3 < n ∧ n < 8 then 3 else n
  if n = 3 ∨ n = 8 then some (GoFloat.inf neg, nsign + n) else none

/-- The function `special` of `strconv`: the words `inf`, `infinity`
(possibly signed) and `nan` at the start of the text, letter case ignored. -/
def special (s : Str) : Option (GoFloat × Nat) :=
  match s with
  | [] => none
  | c :: rest =>
    if c = '+' then specialInf false 1 rest
    else if c = '-' then specialInf true 1 rest
    else if c = 'i' ∨ c = 'I' then specialInf false 0 s
    else if c = 'n' ∨ c = 'N' then
      if commonPrefixLenIgnoreCase s "nan".toList = 3 then some (GoFloat.nan, 3) else none
    else none

/-- The state of the mantissa loop of `readFloat`: whether a point, a digit,
an underscore were seen, the digits read so far as one number, and how many
of them stand after the point. -/
structure MantState where
  sawdot : Bool
  sawdigits : Bool
  underscores : Bool
  mant : Nat
  frac : Nat

/-- Whether a character is one of the letters `a`-`f`, `A`-`F`. -/
def isHexLetter (c : Char) : Bool :=
  (0x41 ≤ c.toNat && c.toNat ≤ 0x46) || (0x61 ≤ c.toNat && c.toNat ≤ 0x66)

/-- The mantissa loop of `readFloat`: underscores are skipped, one point is
allowed, digits (and hexadecimal letters in base 16) are accumulated; the loop
stops at the first other character and returns the unread rest. -/
def readMantissa (base16 : Bool) : MantState → Str → MantState × Str
  | st, [] => (st, [])
  | st, c :: cs =>
    if c = '_' then readMantissa base16 { st with underscores := true } cs
    else if c = '.' then
      if st.sawdot then (st, c :: cs) else readMantissa base16 { st with sawdot := true } cs
    else if isDecDigit c then
      readMantissa base16
        { st with
          sawdigits := true
          mant := st.mant * (if base16 then 16 else 10) + (c.toNat - 0x30)
          frac := if st.sawdot then st.frac + 1 else st.frac } cs
    else if base16 && isHexLetter c then
      readMantissa base16
        { st with
          sawdigits := true
          mant := st.mant * 16 + ((asciiLower c).toNat - 0x61 + 10)
          frac := if st.sawdot then st.frac + 1 else st.frac } cs
    else (st, c :: cs)

/-- The digits of an exponent in `readFloat`: digits and underscores are
consumed, the value stops growing once it has reached 10000. -/
def readExpDigits : Nat → Bool → Str → Nat × Bool × Str
  | e, us, [] => (e, us, [])
  | e, us, c :: cs =>
    if c = '_' then readExpDigits e true cs
    else if isDecDigit c then
      readExpDigits (if e < 10000 then e * 10 + (c.toNat - 0x30) else e) us cs
    else (e, us, c :: cs)

/-- The text after the optional sign, as `readFloat` skips it. -/
def stripSign (s : Str) : Str :=
  match s with
  | '+' :: t => t
  | '-' :: t => t
  | _ => s

/-- The function `underscoreOK` of `strconv`, after the optional sign and
base prefix: `saw` is the kind of the last character (`0` digit, `_`
underscore, `!` other, `^` start). -/
def underscoreScan (hex : Bool) : Char → Str → Bool
  | saw, [] => saw != '_'
  | saw, c :: cs =>
    if isDecDigit c || (hex && isHexLetter c) then underscoreScan hex '0' cs
    else if c = '_' then
      if saw != '0' then false else underscoreScan hex '_' cs
    else if saw == '_' then false
    else underscoreScan hex '!' cs

/-- The function `underscoreOK` of `strconv`. -/
def underscoreOK (s : Str) : Bool :=
  match stripSign s with
  | '0' :: c :: t =>
    if c = 'b' ∨ c = 'B' ∨ c = 'o' ∨ c = 'O' ∨ c = 'x' ∨ c = 'X' then
      underscoreScan (c = 'x' ∨ c = 'X') '0' t
    else underscoreScan false '^' (stripSign s)
  | _ => underscoreScan false '^' (stripSign s)

/-- What `readFloat` extracts from a well-formed literal: the sign, the base,
the mantissa digits as one number, the count of digits after the point, and
the written exponent. -/
structure FloatLit where
  neg : Bool
  hex : Bool
  mant : Nat
  frac : Nat
  exp : Int
  deriving DecidableEq, Repr

/-- The exponent part of `readFloat`, entered after the exponent letter: an
optional sign and at least one digit; the result is the exponent, whether an
underscore was seen, and the unread rest. -/
def readExponent (s : Str) : Option (Int × Bool × Str) :=
  match s with
  | [] => none
  | c :: cs =>
    let ds := if c = '+' ∨ c = '-' then cs else c :: cs
    match ds with
    | [] => none
    | d :: _ =>
      if isDecDigit d then
        let r := readExpDigits 0 false ds
        some (if c = '-' then -(r.1 : Int) else (r.1 : Int), r.2.1, r.2.2)
      else none

/-- The test of `readFloat` for a base prefix: `0x` or `0X` with at least one
more byte after it. -/
def hasHexPrefix (s : Str) : Bool :=
  match s with
  | '0' :: x :: _ :: _ => x = 'x' ∨ x = 'X'
  | _ => false

/-- Whether the text starts with the exponent letter of the base: `p` or `P`
in base 16, `e` or `E` in base 10. -/
def atExpChar (hex : Bool) (s : Str) : Bool :=
  match s with
  | e :: _ => if hex then e = 'p' ∨ e = 'P' else e = 'e' ∨ e = 'E'
  | [] => false

/-- The function `readFloat` of `strconv`, the mantissa kept in full: the
literal read from the start of the text and the unread rest, `none` when the
text does not start with a well-formed literal. -/
def readFloat (s : Str) : Option (FloatLit × Str) :=
  if s = [] then none
  else
    let neg : Bool := s.head? = some '-'
    let s1 := stripSign s
    let hex := hasHexPrefix s1
    let s2 := if hex then s1.drop 2 else s1
    let r := readMantissa hex ⟨false, false, false, 0, 0⟩ s2
    if r.1.sawdigits then
      if atExpChar hex r.2 then
        match readExponent r.2.tail with
        | none => none
        | some x =>
          if (r.1.underscores || x.2.1) && !underscoreOK (s.take (s.length - x.2.2.length)) then
            none
          else some (⟨neg, hex, r.1.mant, r.1.frac, x.1⟩, x.2.2)
      else if hex then none
      else if r.1.underscores && !underscoreOK (s.take (s.length - r.2.length)) then none
      else some (⟨neg, hex, r.1.mant, r.1.frac, 0⟩, r.2)
    else none

/-- The magnitude of a literal as a fraction `num / den` of units of the
format: `mant * 10^(exp - frac)` in decimal, `mant * 2^(exp - 4 * frac)` in
base 16. -/
def litUnits (fmt : FloatFormat) (lit : FloatLit) : Nat × Nat :=
  if lit.hex then
    let sh : Int := lit.exp - 4 * (lit.frac : Int) + (fmt.unitExp : Int)
    if 0 ≤ sh then (lit.mant * 2 ^ sh.toNat, 1) else (lit.mant, 2 ^ (-sh).toNat)
  else
    let x : Int := lit.exp - (lit.frac : Int)
    if 0 ≤ x then (lit.mant * 10 ^ x.toNat * 2 ^ fmt.unitExp, 1)
    else (lit.mant * 2 ^ fmt.unitExp, 10 ^ (-x).toNat)

/-- The function `strconv.ParseFloat(s, bitSize)`: the special words or a
literal that takes up the whole text, rounded to the nearest value of the
format; `none` stands for a syntax error and for the range error of a
magnitude that rounds to `2^maxExp` or more. -/
def ParseFloat (fmt : FloatFormat) (s : Str) : Option GoFloat :=
  match special s with
  | some (v, n) => if n = s.length then some v else none
  | none =>
    match readFloat s with
    | none => none
    | some (lit, rest) =>
      if rest ≠ [] then none
      else
        let units := roundUnits fmt.mantBits (litUnits fmt lit).1 (litUnits fmt lit).2
        if units < 2 ^ fmt.maxExp * 2 ^ fmt.unitExp then some (GoFloat.finite lit.neg units)
        else none

/-! ## `parseSize` (fylay.go) -/

/-- The function `parseSize`. -/
def parseSize (sizeStr : Str) : Option GoFloat :=
  let sizeStr := TrimSpace sizeStr
  let sizeStr := TrimSuffix sizeStr "px".toList
  match ParseFloat float32 sizeStr with
  | none => none
  | some val => some val

/-! ## Statements about `parseSize` -/

/-- The number a run of decimal digits denotes. -/
def digitsValue (ds : Str) : Nat := ds.foldl (fun acc d => acc * 10 + (d.toNat - 0x30)) 0

/-- A decimal numeral: the digits `ip`, followed, when `fp` is not empty, by a
point and the digits `fp`. -/
def decimalNumeral (ip fp : Str) : Str := if fp = [] then ip else ip ++ '.' :: fp

/-- The `float32` nearest to the number `ip.fp` (ties to even), `none` when
that number is too large for a finite `float32`. -/
def nearestFloat32 (ip fp : Str) : Option GoFloat :=
  let units := roundUnits 24 (digitsValue (ip ++ fp) * 2 ^ 149) (10 ^ fp.length)
  if units < 2 ^ 128 * 2 ^ 149 then some (GoFloat.finite false units) else none

/-- The words `strconv.ParseFloat` accepts besides literals, in lower case. -/
def specialWords : List Str :=
  ["inf".toList, "+inf".toList, "-inf".toList, "infinity".toList, "+infinity".toList,
    "-infinity".toList, "nan".toList]


/-! ## Numeric literals

The syntax of the literals `strconv.ParseFloat` documents, written without
reference to `readFloat`: an optional sign, then either decimal digits with at
most one point and an optional exponent (`e`, optional sign, digits), or `0x`,
hexadecimal digits with at most one point and an exponent (`p`, optional sign,
decimal digits); underscores may stand between digits. -/

/-- A digit of the base: `0`-`9`, and `a`-`f`, `A`-`F` in base 16. -/
def isBaseDigit (hex : Bool) (c : Char) : Bool := isDecDigit c || (hex && isHexLetter c)

/-- The letter that starts the exponent: `p`, `P` in base 16, `e`, `E` in
base 10. -/
def isExpLetter (hex : Bool) (c : Char) : Bool :=
  if hex then decide (c = 'p' ∨ c = 'P') else decide (c = 'e' ∨ c = 'E')

/-- A mantissa: digits of the base, underscores and at most one point, with
at least one digit. -/
def isMantissa (hex : Bool) (m : Str) : Bool :=
  m.all (fun c => isBaseDigit hex c || decide (c = '_') || decide (c = '.')) &&
    decide (m.count '.' ≤ 1) && m.any (isBaseDigit hex)

/-- What follows the exponent letter: an optional sign, a decimal digit, then
decimal digits and underscores. -/
def isExponentTail (e : Str) : Bool :=
  match stripSign e with
  | [] => false
  | d :: ds => isDecDigit d && ds.all (fun c => isDecDigit c || decide (c = '_'))

/-- The digits of a literal, after sign and base prefix: a mantissa up to the
first exponent letter, then nothing (in base 10 only) or an exponent. -/
def isLiteralBody (hex : Bool) (body : Str) : Bool :=
  isMantissa hex (body.takeWhile fun c => !isExpLetter hex c) &&
    match body.dropWhile fun c => !isExpLetter hex c with
    | [] => !hex
    | _ :: tail => isExponentTail tail

/-- Whether every underscore of the text stands between two digits of the
base; `prev` tells whether the character before the text is a digit (the base
prefix counts as one). -/
def underscoresBetweenDigits (hex : Bool) : Bool → Str → Bool
  | _, [] => true
  | prev, c :: cs =>
    if c = '_' then
      prev && (match cs with
        | [] => false
        | d :: _ => isBaseDigit hex d) && underscoresBetweenDigits hex false cs
    else underscoresBetweenDigits hex (isBaseDigit hex c) cs

/-- A numeric literal: a floating-point literal in the syntax
`strconv.ParseFloat` documents. -/
def isNumericLiteral (t : Str) : Bool :=
  match stripSign t with
  | '0' :: x :: d :: rest =>
    if x = 'x' ∨ x = 'X' then
      isLiteralBody true (d :: rest) && underscoresBetweenDigits true true (d :: rest)
    else
      isLiteralBody false (stripSign t) && underscoresBetweenDigits false false (stripSign t)
  | body => isLiteralBody false body && underscoresBetweenDigits false false body

/-! ## Widget tree: data model (fylay.go, widgets.go, binding.go)

Objects of the toolkit are modelled by the constructor call and the field
assignments that made them. A Go pointer to an object is the object's value;
a pointer to a binding cell is the cell's index in the store of cells. -/

/-- The value `strconv.ParseFloat(s, 64)` gives for the integer `n`, in units of
`2^-1074`. -/
def GoFloat.ofNat64 (n : Nat) : GoFloat := GoFloat.finite false (n * 2 ^ 1074)

/-- The type `fyne.TextAlign`. -/
inductive TextAlign where
  | Leading
  | Center
  | Trailing
  deriving DecidableEq, Repr

/-- The type `canvas.ImageFill`. -/
inductive ImageFill where
  | Stretch
  | Contain
  | Original
  deriving DecidableEq, Repr

/-- The type `fyne.Size`: a width and a height, both float32. -/
structure Size where
  Width : GoFloat
  Height : GoFloat
  deriving DecidableEq, Repr

/-- The function `fyne.NewSize`. -/
def NewSize (w h : GoFloat) : Size := ⟨w, h⟩

/-- The zero value of `fyne.Size`. -/
def Size.zero : Size := ⟨GoFloat.finite false 0, GoFloat.finite false 0⟩

/-- A value of type `ButtonCallback`: the identity of the registered function. -/
abbrev ButtonCallback := Nat

/-- A value of type `EntryCallback`: the identity of the registered function. -/
abbrev EntryCallback := Nat

/-- A value of the interface `EventHandler`: the identity of the handler. -/
abbrev EventHandler := Nat

/-- The closure a builder of widgets.go assigns to `OnChanged`, given by the
variables it captures: the `onchange` name, the callback found in the table
when the widget was built, and `elem.ID`. -/
structure ChangeClosure where
  onchange : Str
  callback : Nat
  ID : Str
  deriving DecidableEq, Repr

/-- The struct `ImageWidget` after a successful `Load`: the file or resource
shown, the source, and the fields of the embedded `canvas.Image` the build
sets. -/
structure ImageWidget where
  File : Str
  src : Str
  min : Size
  FillMode : ImageFill
  deriving DecidableEq, Repr

/-- The values of `fyne.CanvasObject` the build creates. `VBox`, `HBox`,
`GridWithColumns` and `Border` are the containers made by `container.NewVBox`,
`container.NewHBox`, `container.NewGridWithColumns` and `container.NewBorder`
(with the arguments of the call); `FixedSize` is the container with a
`fixedSizeLayout` that `applyMinSize` wraps a widget in. `Button` and `Entry`
carry the variables their event closure captures (`onclick` or `onchange`,
and `elem.ID`); `bound` is the cell a widget was bound to with `Bind`. -/
inductive CanvasObject where
  | VBox (objects : List CanvasObject)
  | HBox (objects : List CanvasObject)
  | GridWithColumns (cols : Int) (objects : List CanvasObject)
  | Border (top bottom left right center : Option CanvasObject)
  | FixedSize (size : Size) (obj : CanvasObject)
  | Label (Text : Str) (Alignment : TextAlign) (Bold Italic : Bool)
  | Button (Text onclick ID : Str)
  | Entry (PlaceHolder : Str) (Password MultiLine : Bool) (onchange ID : Str)
  | Rectangle (FillColor : Option Color) (min : Size)
  | Circle (FillColor : Color) (size min : Size)
  | Text (Text : Str) (Color : Color) (TextSize : GoFloat) (Alignment : TextAlign) (min : Size)
  | Check (Text : Str) (Checked : Bool) (OnChanged : Option ChangeClosure) (bound : Option Nat)
  | Select (Options : List Str) (Selected : Str) (OnChanged : Option ChangeClosure)
      (bound : Option Nat)
  | ProgressBar (Max Value : GoFloat) (bound : Option Nat)
  | Slider (Min Max Value Step : GoFloat) (OnChanged : Option ChangeClosure)
      (bound : Option Nat)
  | Image (img : ImageWidget)
  | RadioGroup (Options : List Str) (Selected : Str) (OnChanged : Option ChangeClosure)

/-- What the build takes from the toolkit and from the file system: the
method `MinSize()` of an object, the text size of the theme, and the file
`ImageWidget.Load` ends with for a source (`none` when it fails). -/
structure Toolkit where
  MinSize : CanvasObject → Size
  TextSize : GoFloat
  Load : Str → Option Str

/-- The values of `binding.DataItem` the binding context creates, with the
value each holds. -/
inductive DataItem where
  | String (v : Str)
  | Int (v : Int)
  | Float (v : GoFloat)
  | Bool (v : Bool)
  deriving DecidableEq, Repr

/-- The struct `BindingContext`. `cells` is the store of the cells made by
`binding.NewString` and its like; `data` maps a key to the index of its cell. -/
structure BindingContext where
  cells : List DataItem
  data : GoMap Nat
  widgets : GoMap CanvasObject
  bindings : GoMap (List Str)

/-- The struct `Builder` with all the tables the build reads and writes;
`toBuilder` holds `styles`. -/
structure BuilderState extends Builder where
  elements : GoMap CanvasObject
  eventHandler : Option EventHandler
  eventCallbacks : GoMap ButtonCallback
  entryCallbacks : GoMap EntryCallback
  bindingContext : Option BindingContext
  /-- Modelled from the spec: the field `widgets` of `Builder`, which
  widgets.go writes and no source file declares: the separate internal table
  that retains the unwrapped original of a widget. -/
  widgets : GoMap CanvasObject

/-- The struct `Layout`. -/
structure Layout where
  Styles : List Style
  Root : Element

/-- The function `NewBuilder`. -/
def NewBuilder : BuilderState :=
  { styles := GoMap.empty, elements := GoMap.empty, eventHandler := none,
    eventCallbacks := GoMap.empty, entryCallbacks := GoMap.empty, bindingContext := none,
    widgets := GoMap.empty }

/-- The method `On`. -/
def BuilderState.On (b : BuilderState) (eventName : Str) (callback : ButtonCallback) :
    BuilderState :=
  { b with eventCallbacks := b.eventCallbacks.set eventName callback }

/-- The method `OnEntry`. -/
def BuilderState.OnEntry (b : BuilderState) (eventName : Str) (callback : EntryCallback) :
    BuilderState :=
  { b with entryCallbacks := b.entryCallbacks.set eventName callback }

/-- The method `SetEventHandler`. -/
def BuilderState.SetEventHandler (b : BuilderState) (handler : EventHandler) : BuilderState :=
  { b with eventHandler := some handler }

/-- The method `GetElement`. -/
def BuilderState.GetElement (b : BuilderState) (id : Str) : Option CanvasObject :=
  b.elements id

/-- Reading a Go map of strings at a key: the empty string when the key is
absent. -/
def GoMap.at (m : GoMap Str) (k : Str) : Str := (m k).getD []

/-- The method `getAttr`. -/
def Element.getAttr (e : Element) (name : Str) : Str :=
  match e.Attributes.find? (fun attr => attr.1 = name) with
  | some attr => attr.2
  | none => []

/-! ## Binding context (binding.go) -/

/-- The function `NewBindingContext`. -/
def NewBindingContext : BindingContext :=
  { cells := [], data := GoMap.empty, widgets := GoMap.empty, bindings := GoMap.empty }

/-- The common end of `BindString`, `BindInt`, `BindFloat` and `BindBool`: a
new cell holding the value is stored under the key. -/
def BindingContext.bindNew (bc : BindingContext) (key : Str) (item : DataItem) :
    BindingContext × Nat :=
  ({ bc with cells := bc.cells ++ [item], data := bc.data.set key bc.cells.length },
    bc.cells.length)

/-- The cell the key holds, with its index. -/
def BindingContext.existing (bc : BindingContext) (key : Str) : Option (Nat × DataItem) :=
  match bc.data key with
  | some i =>
    match bc.cells.get? i with
    | some d => some (i, d)
    | none => none
  | none => none

/-- The method `BindString`. -/
def BindingContext.BindString (bc : BindingContext) (key : Str) (value : Str) :
    BindingContext × Nat :=
  match bc.existing key with
  | some (i, DataItem.String _) => ({ bc with cells := bc.cells.set i (DataItem.String value) }, i)
  | _ => bc.bindNew key (DataItem.String value)

/-- The method `BindInt`. -/
def BindingContext.BindInt (bc : BindingContext) (key : Str) (value : Int) :
    BindingContext × Nat :=
  match bc.existing key with
  | some (i, DataItem.Int _) => ({ bc with cells := bc.cells.set i (DataItem.Int value) }, i)
  | _ => bc.bindNew key (DataItem.Int value)

/-- The method `BindFloat`. -/
def BindingContext.BindFloat (bc : BindingContext) (key : Str) (value : GoFloat) :
    BindingContext × Nat :=
  match bc.existing key with
  | some (i, DataItem.Float _) => ({ bc with cells := bc.cells.set i (DataItem.Float value) }, i)
  | _ => bc.bindNew key (DataItem.Float value)

/-- The method `BindBool`. -/
def BindingContext.BindBool (bc : BindingContext) (key : Str) (value : Bool) :
    BindingContext × Nat :=
  match bc.existing key with
  | some (i, DataItem.Bool _) => ({ bc with cells := bc.cells.set i (DataItem.Bool value) }, i)
  | _ => bc.bindNew key (DataItem.Bool value)

/-- The method `RegisterWidget`. -/
def BindingContext.RegisterWidget (bc : BindingContext) (id : Str) (w : CanvasObject) :
    BindingContext :=
  { bc with widgets := bc.widgets.set id w }

/-- The function `ParseBindAttribute`. -/
def ParseBindAttribute (bindAttr : Str) : Str := TrimSpace bindAttr

/-- The method `GetBindingContext`: the context of the builder, made first
when there is none. -/
def BuilderState.GetBindingContext (b : BuilderState) : BuilderState × BindingContext :=
  match b.bindingContext with
  | some ctx => (b, ctx)
  | none => ({ b with bindingContext := some NewBindingContext }, NewBindingContext)

/-! ## Building the leaves (fylay.go, widgets.go, helpers.go) -/

/-- The text of a label, button or canvas text: the attribute `text`, or the
trimmed character data when it is empty. -/
def elemText (elem : Element) : Str :=
  if elem.Text = [] then TrimSpace elem.Content else elem.Text

/-- The switch on `text-align` of `buildLabel` and `buildText`. -/
def textAlign (align : Str) (current : TextAlign) : TextAlign :=
  if align = [] then current
  else if align = "center".toList then TextAlign.Center
  else if align = "right".toList then TextAlign.Trailing
  else if align = "left".toList then TextAlign.Leading
  else current

/-- The method `buildLabel`. -/
def buildLabel (elem : Element) (style : GoMap Str) : CanvasObject :=
  CanvasObject.Label (elemText elem) (textAlign (style.at "text-align".toList) TextAlign.Leading)
    (decide (style.at "font-weight".toList = "bold".toList))
    (decide (style.at "font-style".toList = "italic".toList))

/-- The method `buildButton`: the button with its text and the variables the
closure passed to `widget.NewButton` captures. -/
def buildButton (elem : Element) (_style : GoMap Str) : CanvasObject :=
  CanvasObject.Button (elemText elem) (elem.getAttr "onclick".toList) elem.ID

/-- The method `buildEntry`. -/
def buildEntry (elem : Element) (_style : GoMap Str) : CanvasObject :=
  CanvasObject.Entry (elem.getAttr "placeholder".toList)
    (decide (elem.getAttr "password".toList = "true".toList))
    (decide (elem.getAttr "multiline".toList = "true".toList))
    (elem.getAttr "onchange".toList) elem.ID

/-- The method `SetMinSize` of the canvas objects; `none` for an object whose
type has no such method (the widgets and the containers). -/
def CanvasObject.SetMinSize (o : CanvasObject) (size : Size) : Option CanvasObject :=
  match o with
  | CanvasObject.Rectangle c _ => some (CanvasObject.Rectangle c size)
  | CanvasObject.Circle c s _ => some (CanvasObject.Circle c s size)
  | CanvasObject.Text t c ts a _ => some (CanvasObject.Text t c ts a size)
  | CanvasObject.Image img => some (CanvasObject.Image { img with min := size })
  | _ => none

/-- The method `buildRectangle`. -/
def buildRectangle (tk : Toolkit) (_elem : Element) (style : GoMap Str) : CanvasObject :=
  let rect := CanvasObject.Rectangle (some (parseColor (style.at "background-color".toList)))
    Size.zero
  let rect :=
    if style.at "width".toList = [] then rect
    else
      match parseSize (style.at "width".toList) with
      | some width =>
        CanvasObject.Rectangle (some (parseColor (style.at "background-color".toList)))
          (NewSize width (tk.MinSize rect).Height)
      | none => rect
  if style.at "height".toList = [] then rect
  else
    match parseSize (style.at "height".toList) with
    | some height =>
      CanvasObject.Rectangle (some (parseColor (style.at "background-color".toList)))
        (NewSize (tk.MinSize rect).Width height)
    | none => rect

/-- The method `buildCircle`. -/
def buildCircle (_elem : Element) (style : GoMap Str) : CanvasObject :=
  let fill := parseColor (style.at "background-color".toList)
  if style.at "width".toList = [] then CanvasObject.Circle fill Size.zero Size.zero
  else
    match parseSize (style.at "width".toList) with
    | some width => CanvasObject.Circle fill (NewSize width width) Size.zero
    | none => CanvasObject.Circle fill Size.zero Size.zero

/-- The method `buildText`. -/
def buildText (tk : Toolkit) (elem : Element) (style : GoMap Str) : CanvasObject :=
  let textSize :=
    if style.at "font-size".toList = [] then tk.TextSize
    else
      match parseSize (style.at "font-size".toList) with
      | some s => s
      | none => tk.TextSize
  CanvasObject.Text (elemText elem) (parseColor (style.at "color".toList)) textSize
    (textAlign (style.at "text-align".toList) TextAlign.Leading) Size.zero

/-- The width or the height `applyMinSize` takes from the style: the value
of `key` when that key is set, else the value of `minKey`; `none` when the one
it reads is empty or does not parse. -/
def styledSize (style : GoMap Str) (key minKey : Str) : Option GoFloat :=
  if style.at key ≠ [] then parseSize (style.at key)
  else if style.at minKey ≠ [] then parseSize (style.at minKey)
  else none

/-- The function `applyMinSize`. -/
def applyMinSize (tk : Toolkit) (obj : CanvasObject) (style : GoMap Str) : CanvasObject :=
  let width := styledSize style "width".toList "min-width".toList
  let height := styledSize style "height".toList "min-height".toList
  if width.isNone ∧ height.isNone then obj
  else
    let size := NewSize (width.getD (tk.MinSize obj).Width) (height.getD (tk.MinSize obj).Height)
    match obj.SetMinSize size with
    | some sized => sized
    | none => CanvasObject.FixedSize size obj

/-- The closure a builder of widgets.go assigns to `OnChanged`: none when
the `onchange` attribute is empty or names no callback of the table. -/
def changeClosure (table : GoMap Nat) (onchange ID : Str) : Option ChangeClosure :=
  if onchange = [] then none
  else
    match table onchange with
    | some callback => some ⟨onchange, callback, ID⟩
    | none => none

/-- The step of widgets.go that registers the original widget under a
non-empty id, in the binding context and in `widgets`. -/
def registerWidget (b : BuilderState) (ID : Str) (w : CanvasObject) : BuilderState :=
  if ID = [] then b
  else
    let r := b.GetBindingContext
    { r.1 with bindingContext := some (r.2.RegisterWidget ID w), widgets := r.1.widgets.set ID w }

/-- The step that stores an object under a non-empty id in `elements`. -/
def storeElement (b : BuilderState) (ID : Str) (obj : CanvasObject) : BuilderState :=
  if ID = [] then b else { b with elements := b.elements.set ID obj }

/-- The method `buildCheckbox`. -/
def buildCheckbox (tk : Toolkit) (b : BuilderState) (elem : Element) (style : GoMap Str) :
    BuilderState × CanvasObject :=
  let label :=
    if elem.getAttr "label".toList = [] then elem.Content else elem.getAttr "label".toList
  let checked := decide (elem.getAttr "checked".toList = "true".toList)
  let onChanged := changeClosure b.eventCallbacks (elem.getAttr "onchange".toList) elem.ID
  let bindAttr := elem.getAttr "bind".toList
  let r : BuilderState × Option Nat :=
    if bindAttr = [] then (b, none)
    else
      let g := b.GetBindingContext
      let c := g.2.BindBool (ParseBindAttribute bindAttr) checked
      ({ g.1 with bindingContext := some c.1 }, some c.2)
  let check := CanvasObject.Check label checked onChanged r.2
  let b := registerWidget r.1 elem.ID check
  let styled := applyMinSize tk check style
  (storeElement b elem.ID styled, styled)

/-- The loop of `buildSelect` and `buildRadioGroup` over the children: the
values of the children with the given tag, and the value of the last of them
marked as selected. -/
def optionValues (tag : Str) : List Element → List Str × Str → List Str × Str
  | [], acc => acc
  | child :: rest, acc =>
    if child.tag = tag then
      let value :=
        if child.getAttr "value".toList = [] then child.Content
        else child.getAttr "value".toList
      optionValues tag rest
        (acc.1 ++ [value],
          if child.getAttr "selected".toList = "true".toList then value else acc.2)
    else optionValues tag rest acc

/-- The method `buildSelect`. -/
def buildSelect (tk : Toolkit) (b : BuilderState) (elem : Element) (style : GoMap Str) :
    BuilderState × CanvasObject :=
  let o := optionValues "Option".toList elem.Children ([], [])
  let onChanged := changeClosure b.entryCallbacks (elem.getAttr "onchange".toList) elem.ID
  let bindAttr := elem.getAttr "bind".toList
  let r : BuilderState × Option Nat :=
    if bindAttr = [] then (b, none)
    else
      let g := b.GetBindingContext
      let c := g.2.BindString (ParseBindAttribute bindAttr) o.2
      ({ g.1 with bindingContext := some c.1 }, some c.2)
  let sel := CanvasObject.Select o.1 o.2 onChanged r.2
  let b := registerWidget r.1 elem.ID sel
  let styled := applyMinSize tk sel style
  (storeElement b elem.ID styled, styled)

/-- The pattern of widgets.go for a float attribute: its value when it is
set and `strconv.ParseFloat(v, 64)` accepts it, else the default. -/
def floatAttr (elem : Element) (name : Str) (dflt : GoFloat) : GoFloat :=
  if elem.getAttr name = [] then dflt
  else
    match ParseFloat float64 (elem.getAttr name) with
    | some parsed => parsed
    | none => dflt

/-- The method `buildProgressBar`. -/
def buildProgressBar (tk : Toolkit) (b : BuilderState) (elem : Element) (style : GoMap Str) :
    BuilderState × CanvasObject :=
  let value := floatAttr elem "value".toList (GoFloat.ofNat64 0)
  let max := floatAttr elem "max".toList (GoFloat.ofNat64 1)
  let bindAttr := elem.getAttr "bind".toList
  let r : BuilderState × Option Nat :=
    if bindAttr = [] then (b, none)
    else
      let g := b.GetBindingContext
      let c := g.2.BindFloat (ParseBindAttribute bindAttr) value
      ({ g.1 with bindingContext := some c.1 }, some c.2)
  let progress := CanvasObject.ProgressBar max value r.2
  let b := registerWidget r.1 elem.ID progress
  let styled := applyMinSize tk progress style
  (storeElement b elem.ID styled, styled)

/-- The method `buildSlider`. -/
def buildSlider (tk : Toolkit) (b : BuilderState) (elem : Element) (style : GoMap Str) :
    BuilderState × CanvasObject :=
  let min := floatAttr elem "min".toList (GoFloat.ofNat64 0)
  let max := floatAttr elem "max".toList (GoFloat.ofNat64 100)
  let value := floatAttr elem "value".toList min
  let step := floatAttr elem "step".toList (GoFloat.ofNat64 1)
  let onChanged := changeClosure b.eventCallbacks (elem.getAttr "onchange".toList) elem.ID
  let bindAttr := elem.getAttr "bind".toList
  let r : BuilderState × Option Nat :=
    if bindAttr = [] then (b, none)
    else
      let g := b.GetBindingContext
      let c := g.2.BindFloat (ParseBindAttribute bindAttr) value
      ({ g.1 with bindingContext := some c.1 }, some c.2)
  let slider := CanvasObject.Slider min max value step onChanged r.2
  let b := registerWidget r.1 elem.ID slider
  let styled := applyMinSize tk slider style
  (storeElement b elem.ID styled, styled)

/-- The function `NewImageWidget`. -/
def NewImageWidget (tk : Toolkit) (src : Str) : Option ImageWidget :=
  match tk.Load src with
  | some file => some { File := file, src := src, min := Size.zero, FillMode := ImageFill.Stretch }
  | none => none

/-- The rectangle `buildImage` returns in place of an image it cannot show. -/
def imagePlaceholder : CanvasObject :=
  CanvasObject.Rectangle none (NewSize (GoFloat.ofNat32 100) (GoFloat.ofNat32 100))

/-- The switch on `fillMode` of `buildImage`. -/
def fillModeOf (fillMode : Str) : ImageFill :=
  if fillMode = "contain".toList then ImageFill.Contain
  else if fillMode = "original".toList then ImageFill.Original
  else if fillMode = "stretch".toList then ImageFill.Stretch
  else ImageFill.Contain

/-- The method `buildImage`. The table `widgets` holds a pointer to the image,
so it shows the size `applyMinSize` sets afterwards. -/
def buildImage (tk : Toolkit) (b : BuilderState) (elem : Element) (style : GoMap Str) :
    BuilderState × CanvasObject :=
  if elem.getAttr "src".toList = [] then (b, imagePlaceholder)
  else
    match NewImageWidget tk (elem.getAttr "src".toList) with
    | none => (b, imagePlaceholder)
    | some img =>
      let width := elem.getAttr "width".toList
      let height := elem.getAttr "height".toList
      let img : ImageWidget :=
        if width = [] ∨ height = [] then img
        else
          match parseSize width, parseSize height with
          | some w, some h => { img with min := NewSize w h }
          | _, _ => img
      let img : ImageWidget := { img with FillMode := fillModeOf (elem.getAttr "fillMode".toList) }
      let styled :=
        if width = [] ∨ height = [] then applyMinSize tk (CanvasObject.Image img) style
        else CanvasObject.Image img
      let b := if elem.ID = [] then b else { b with widgets := b.widgets.set elem.ID styled }
      (storeElement b elem.ID styled, styled)

/-- The method `buildRadioGroup`. -/
def buildRadioGroup (tk : Toolkit) (b : BuilderState) (elem : Element) (style : GoMap Str) :
    BuilderState × CanvasObject :=
  let o := optionValues "Radio".toList elem.Children ([], [])
  let onChanged := changeClosure b.entryCallbacks (elem.getAttr "onchange".toList) elem.ID
  let radio := CanvasObject.RadioGroup o.1 o.2 onChanged
  let b := registerWidget b elem.ID radio
  let styled := applyMinSize tk radio style
  (storeElement b elem.ID styled, styled)

/-! ## Building the tree (fylay.go) -/

/-- The five variables `top`, `bottom`, `left`, `right`, `center` of
`buildBorder`; `none` is the nil object. -/
structure BorderSlots where
  top : Option CanvasObject
  bottom : Option CanvasObject
  left : Option CanvasObject
  right : Option CanvasObject
  center : Option CanvasObject

/-- The variables of `buildBorder` before its loop. -/
def BorderSlots.empty : BorderSlots := ⟨none, none, none, none, none⟩

/-- The switch on `pos` in the loop of `buildBorder`; it has no default case. -/
def BorderSlots.assign (s : BorderSlots) (pos : Str) (obj : CanvasObject) : BorderSlots :=
  if pos = "top".toList then { s with top := some obj }
  else if pos = "bottom".toList then { s with bottom := some obj }
  else if pos = "left".toList then { s with left := some obj }
  else if pos = "right".toList then { s with right := some obj }
  else if pos = "center".toList ∨ pos = [] then { s with center := some obj }
  else s

/-- The number of columns of `buildGrid`: 2, or the attribute `columns` when
it is set and `strconv.Atoi` accepts it. -/
def gridColumns (elem : Element) : Int :=
  if elem.getAttr "columns".toList = [] then 2
  else
    match Atoi (elem.getAttr "columns".toList) with
    | some c => c
    | none => 2

/-- The end of `buildElement`: the object is stored under a non-empty id and
returned with a nil error. -/
def finishElement (b : BuilderState) (ID : Str) (obj : CanvasObject) :
    BuilderState × Option CanvasObject :=
  (storeElement b ID obj, some obj)

mutual
/-- The method `buildElement`; `none` is the result `(nil, error)`. The
methods `buildVBox`, `buildHBox`, `buildGrid` and `buildBorder` are unfolded in
their cases, their loops being `buildChildren` and `buildBorderChildren`. -/
def buildElement (tk : Toolkit) (b : BuilderState) : Element → BuilderState × Option CanvasObject
  | Element.mk tag ID cls sty text attrs children content =>
    let elem := Element.mk tag ID cls sty text attrs children content
    let style := computeStyle b.toBuilder elem
    if tag = "VBox".toList then
      let r := buildChildren tk b children
      finishElement r.1 ID (CanvasObject.VBox r.2)
    else if tag = "HBox".toList then
      let r := buildChildren tk b children
      finishElement r.1 ID (CanvasObject.HBox r.2)
    else if tag = "Grid".toList then
      let r := buildChildren tk b children
      finishElement r.1 ID (CanvasObject.GridWithColumns (gridColumns elem) r.2)
    else if tag = "Border".toList then
      let r := buildBorderChildren tk b BorderSlots.empty children
      finishElement r.1 ID
        (CanvasObject.Border r.2.top r.2.bottom r.2.left r.2.right r.2.center)
    else if tag = "Label".toList then finishElement b ID (buildLabel elem style)
    else if tag = "Button".toList then finishElement b ID (buildButton elem style)
    else if tag = "Entry".toList then finishElement b ID (buildEntry elem style)
    else if tag = "Rectangle".toList then finishElement b ID (buildRectangle tk elem style)
    else if tag = "Circle".toList then finishElement b ID (buildCircle elem style)
    else if tag = "Text".toList then finishElement b ID (buildText tk elem style)
    else if tag = "Spacer".toList then
      finishElement b ID (CanvasObject.Label [] TextAlign.Leading false false)
    else if tag = "Checkbox".toList then
      let r := buildCheckbox tk b elem style
      finishElement r.1 ID r.2
    else if tag = "Select".toList then
      let r := buildSelect tk b elem style
      finishElement r.1 ID r.2
    else if tag = "ProgressBar".toList then
      let r := buildProgressBar tk b elem style
      finishElement r.1 ID r.2
    else if tag = "Slider".toList then
      let r := buildSlider tk b elem style
      finishElement r.1 ID r.2
    else if tag = "Image".toList then
      let r := buildImage tk b elem style
      finishElement r.1 ID r.2
    else if tag = "RadioGroup".toList then
      let r := buildRadioGroup tk b elem style
      finishElement r.1 ID r.2
    else (b, none)
/-- The loop of `buildVBox`, `buildHBox` and `buildGrid`: each child is
built in turn, and the object of a child built without error is appended. -/
def buildChildren (tk : Toolkit) (b : BuilderState) :
    List Element → BuilderState × List CanvasObject
  | [] => (b, [])
  | child :: rest =>
    let r := buildElement tk b child
    let s := buildChildren tk r.1 rest
    match r.2 with
    | some obj => (s.1, obj :: s.2)
    | none => s
/-- The loop of `buildBorder`: each child is built in turn; a child built
without error is assigned by its attribute `position`. -/
def buildBorderChildren (tk : Toolkit) (b : BuilderState) (slots : BorderSlots) :
    List Element → BuilderState × BorderSlots
  | [] => (b, slots)
  | child :: rest =>
    let r := buildElement tk b child
    match r.2 with
    | some obj =>
      buildBorderChildren tk r.1 (slots.assign (child.getAttr "position".toList) obj) rest
    | none => buildBorderChildren tk r.1 slots rest
end

/-- The method `Build`. -/
def Build (tk : Toolkit) (b : BuilderState) (layout : Layout) :
    BuilderState × Option CanvasObject :=
  buildElement tk b layout.Root

/-- The case labels of the switch of `buildElement`. -/
def recognisedTags : List Str :=
  ["VBox".toList, "HBox".toList, "Grid".toList, "Border".toList, "Label".toList,
    "Button".toList, "Entry".toList, "Rectangle".toList, "Circle".toList, "Text".toList,
    "Spacer".toList, "Checkbox".toList, "Select".toList, "ProgressBar".toList,
    "Slider".toList, "Image".toList, "RadioGroup".toList]

/-- What each call of `buildElement` in a loop over siblings returns, in
order: every child is built with the builder the call before it left. -/
def buildEach (tk : Toolkit) (b : BuilderState) :
    List Element → List (BuilderState × Option CanvasObject)
  | [] => []
  | child :: rest => buildElement tk b child :: buildEach tk (buildElement tk b child).1 rest

/-- The object of the last child of a border that was built without error
and whose attribute `position` (empty when absent) satisfies `p`, given the
children and what building each returned; `none` when there is no such
child. -/
def lastBuilt (p : Str → Bool) (children : List Element)
    (results : List (BuilderState × Option CanvasObject)) : Option CanvasObject :=
  (((children.zip results).filter fun q => p (q.1.getAttr "position".toList)).filterMap
    fun q => q.2.2).getLast?

/-! ## Fixtures for the build -/

/-- An element with a tag, an id, attributes, children and character data. -/
def mkElem (tag id : String) (attrs : List (String × String)) (children : List Element)
    (content : String) : Element :=
  Element.mk tag.toList id.toList [] [] [] (attrs.map fun a => (a.1.toList, a.2.toList))
    children content.toList

/-- A toolkit in which every object has the zero minimum size and no image
can be loaded. -/
def testKit : Toolkit := ⟨fun _ => Size.zero, GoFloat.ofNat32 14, fun _ => none⟩

/-- The layout of `TestBuildLayout`. -/
def testLayout : Layout :=
  ⟨[], mkElem "VBox" "" []
    [mkElem "Label" "label1" [] [] "Test Label",
      mkElem "Button" "button1" [] [] "Test Button",
      mkElem "Entry" "entry1" [("placeholder", "Test")] [] ""] ""⟩

/-- A layout whose root tag is not recognised. -/
def unknownRootLayout : Layout :=
  ⟨[], mkElem "Window" "w" [] [mkElem "Label" "a" [] [] "x"] ""⟩

/-- A box with an unrecognised tag between two recognised ones, the first a
grid with an unrecognised child of its own. -/
def mixedBox : Element :=
  mkElem "VBox" "box" []
    [mkElem "Grid" "" [("columns", "3")] [mkElem "Gadget" "" [] [] "", mkElem "Spacer" "" [] [] ""] "",
      mkElem "Widget" "lost" [] [] "",
      mkElem "Button" "ok" [("onclick", "save")] [] "OK"] ""

/-- A border with a child at `top`, one at the unrecognised position
`middle`, and no child without position. -/
def middleBorder : Element :=
  mkElem "Border" "" []
    [mkElem "Label" "" [("position", "top")] [] "T",
      mkElem "Label" "" [("position", "middle")] [] "M"] ""

/-- A border with two children without position around one at `middle`
and one at `bottom`. -/
def centerBorder : Element :=
  mkElem "Border" "" []
    [mkElem "Label" "" [] [] "A",
      mkElem "Label" "" [("position", "middle")] [] "M",
      mkElem "Label" "" [("position", "bottom")] [] "B",
      mkElem "Label" "" [("position", "")] [] "C"] ""

/-! ## Ids of a tree, events, getters and `LoadLayout` -/

mutual
/-- The ids an element and the elements below it carry, its own first. -/
def Element.ids : Element → List Str
  | Element.mk _ ID _ _ _ _ children _ => ID :: Element.idsOfList children
/-- The ids carried in a list of elements and below them. -/
def Element.idsOfList : List Element → List Str
  | [] => []
  | child :: rest => child.ids ++ Element.idsOfList rest
end

/-- The tags of the container elements. -/
def containerTags : List Str :=
  ["VBox".toList, "HBox".toList, "Grid".toList, "Border".toList]

mutual
/-- The ids under which building an element stores an object, in the order of
the stores: for a container those of its children, then its own; for another
element with a recognised tag its own (what stands below it is not built);
none for an element with an unrecognised tag, which is not built. An empty id
is listed like the others, although nothing is stored under it. -/
def Element.storedIds : Element → List Str
  | Element.mk tag ID _ _ _ _ children _ =>
    if tag ∈ containerTags then Element.storedIdsOfList children ++ [ID]
    else if tag ∈ recognisedTags then [ID]
    else []
/-- The ids under which building a list of elements in turn stores an object. -/
def Element.storedIdsOfList : List Element → List Str
  | [] => []
  | child :: rest => child.storedIds ++ Element.storedIdsOfList rest
end

/-- A box whose first child and a button below its second child carry the
same id. -/
def nestedDupLayout : Layout :=
  ⟨[], mkElem "VBox" "" []
    [mkElem "Label" "a" [] [] "first",
      mkElem "HBox" "" [] [mkElem "Button" "a" [] [] "second"] ""] ""⟩

/-- A box whose two children carry the same id, the second with a tag that
is not recognised. -/
def lostDupLayout : Layout :=
  ⟨[], mkElem "VBox" "" []
    [mkElem "Label" "a" [] [] "first", mkElem "Widget" "a" [] [] "second"] ""⟩

/-- A box with three children of the same id and a fourth of another. -/
def dupLayout : Layout :=
  ⟨[], mkElem "VBox" "" []
    [mkElem "Label" "a" [] [] "first", mkElem "Button" "a" [] [] "second",
      mkElem "Entry" "a" [("placeholder", "third")] [] "", mkElem "Label" "b" [] [] "other"] ""⟩

/-- A box that carries the id of its child and of a label below its grid. -/
def sharedIdLayout : Layout :=
  ⟨[], mkElem "VBox" "main" []
    [mkElem "Label" "main" [] [] "child",
      mkElem "Grid" "" [] [mkElem "Label" "main" [] [] "below"] ""] ""⟩

/-- A box whose first child is a container that carries the id of the label
below it and of its own later sibling. -/
def overwrittenBoxLayout : Layout :=
  ⟨[], mkElem "VBox" "" []
    [mkElem "HBox" "x" [] [mkElem "Label" "x" [] [] "inner"] "",
      mkElem "Label" "x" [] [] "later"] ""⟩

/-- A box that carries the id of the container below it and of the label
below that container. -/
def nestedBoxLayout : Layout :=
  ⟨[], mkElem "VBox" "x" []
    [mkElem "HBox" "x" [] [mkElem "Label" "x" [] [] "inner"] ""] ""⟩

/-- A label with a container below it, which is not built. -/
def unbuiltBoxLayout : Layout :=
  ⟨[], mkElem "Label" "" []
    [mkElem "HBox" "x" [] [mkElem "Label" "x" [] [] "inner"] ""] "title"⟩

/-- A box whose middle child is a container that carries the id of the label
below it; its later sibling is a label, below which an element that is not
built carries the same id. -/
def innerBoxLayout : Layout :=
  ⟨[], mkElem "VBox" "" []
    [mkElem "Label" "a" [] [] "first",
      mkElem "HBox" "x" [] [mkElem "Label" "x" [] [] "inner"] "",
      mkElem "Label" "b" [] [mkElem "Label" "x" [] [] "unbuilt"] "last"] ""⟩

/-- The relation `BuiltLast tk id c s root b`: while `root` is built with the
builder `b`, the element `c` is built with the builder `s`, and no element
built after `c` is stored under `id`. Either `c` is `root` itself and `s` is
`b`, or `root` is a container that does not carry `id`, `c` is built within a
child `e` of `root`, which the loop over the children reaches with the builder
the elder siblings `pre` left, and building the later siblings `post` stores
nothing under `id`. -/
inductive BuiltLast (tk : Toolkit) (id : Str) (c : Element) (s : BuilderState) :
    Element → BuilderState → Prop
  | here : BuiltLast tk id c s c s
  | within (root : Element) (b : BuilderState) (pre post : List Element) (e : Element) :
      root.tag ∈ containerTags → root.ID ≠ id → root.Children = pre ++ e :: post →
      id ∉ Element.storedIdsOfList post →
      BuiltLast tk id c s e (buildChildren tk b pre).1 → BuiltLast tk id c s root b

/-! ## Events (fylay.go, widgets.go) -/

/-- The struct `EventContext`. -/
structure EventContext where
  EventName : Str
  Target : CanvasObject
  TargetID : Str
  Value : Str

/-- A call made by a closure of the build when the toolkit runs it: of a
registered callback with its context, or of a method of the event handler. -/
inductive Invocation where
  | callback (fn : Nat) (ctx : EventContext)
  | OnButtonTapped (handler : EventHandler) (id : Str)
  | OnEntryChanged (handler : EventHandler) (id value : Str)

/-- The closure `buildButton` passes to `widget.NewButton`, run with the
builder as it is when the button `btn` is tapped: the calls it makes. -/
def buttonTapped (b : BuilderState) (btn : CanvasObject) (onclick ID : Str) : List Invocation :=
  match (if onclick ≠ [] then b.eventCallbacks onclick else none) with
  | some callback => [Invocation.callback callback ⟨onclick, btn, ID, []⟩]
  | none =>
    match b.eventHandler with
    | some handler => if ID ≠ [] then [Invocation.OnButtonTapped handler ID] else []
    | none => []

/-- The closure `buildEntry` assigns to `entry.OnChanged`, run with the
builder as it is when the text of `entry` changes to `value`. -/
def entryChanged (b : BuilderState) (entry : CanvasObject) (onchange ID value : Str) :
    List Invocation :=
  match (if onchange ≠ [] then b.entryCallbacks onchange else none) with
  | some callback => [Invocation.callback callback ⟨onchange, entry, ID, value⟩]
  | none =>
    match b.eventHandler with
    | some handler => if ID ≠ [] then [Invocation.OnEntryChanged handler ID value] else []
    | none => []

/-- The closure the builders of widgets.go assign to `OnChanged`, run for the
widget `target` and the new value as a string. -/
def ChangeClosure.run (cl : ChangeClosure) (target : CanvasObject) (value : Str) :
    List Invocation :=
  [Invocation.callback cl.callback ⟨cl.onchange, target, cl.ID, value⟩]

/-- The function `strconv.FormatBool`. -/
def FormatBool (v : Bool) : Str := if v then "true".toList else "false".toList

/-- The new value the toolkit passes to `OnChanged`: a string (entry, select,
radio group), a bool (check) or a float64 (slider). -/
inductive NewValue where
  | text (v : Str)
  | checked (v : Bool)
  | number (v : GoFloat)

/-- What a tap of an object invokes: the closure of `buildButton` for a
button, nothing for the other objects the build makes. -/
def CanvasObject.Tapped (b : BuilderState) (obj : CanvasObject) : List Invocation :=
  match obj with
  | CanvasObject.Button _ onclick ID => buttonTapped b obj onclick ID
  | _ => []

/-- What a change of the value of a widget invokes: its `OnChanged` run with
the new value, nothing when `OnChanged` is nil. `FormatFloat` stands for
`strconv.FormatFloat(value, 'f', -1, 64)`. A widget bound to a cell is past
`Bind` of the toolkit, which has replaced the `OnChanged` the builder assigned
by its own function writing to the cell: it invokes nothing of the builder. -/
def CanvasObject.Changed (FormatFloat : GoFloat → Str) (b : BuilderState) (obj : CanvasObject)
    (v : NewValue) : List Invocation :=
  match obj, v with
  | CanvasObject.Entry _ _ _ onchange ID, NewValue.text value =>
    entryChanged b obj onchange ID value
  | CanvasObject.Check _ _ (some cl) none, NewValue.checked c => cl.run obj (FormatBool c)
  | CanvasObject.Select _ _ (some cl) none, NewValue.text value => cl.run obj value
  | CanvasObject.Slider _ _ _ _ (some cl) none, NewValue.number x => cl.run obj (FormatFloat x)
  | CanvasObject.RadioGroup _ _ (some cl), NewValue.text value => cl.run obj value
  | _, _ => []

/-- The widget inside the container `applyMinSize` may have wrapped it in. -/
def CanvasObject.widget : CanvasObject → CanvasObject
  | CanvasObject.FixedSize _ obj => obj
  | obj => obj

/-- A layout with a button and an entry that name callbacks. -/
def eventLayout : Layout :=
  ⟨[], mkElem "VBox" "" []
    [mkElem "Button" "b1" [("onclick", "go")] [] "Go",
      mkElem "Entry" "e1" [("onchange", "typed")] [] "",
      mkElem "Checkbox" "c1" [("onchange", "typed"), ("label", "Check")] [] "",
      mkElem "Select" "s1" [("onchange", "go")] [mkElem "Option" "" [] [] "one"] ""] ""⟩

/-- A stand-in for `strconv.FormatFloat` in fixtures. -/
def testFormat : GoFloat → Str := fun _ => "0".toList

/-- The button of `eventLayout`. -/
def goButton : Element := mkElem "Button" "b1" [("onclick", "go")] [] "Go"

/-- The entry of `eventLayout`. -/
def typedEntry : Element := mkElem "Entry" "e1" [("onchange", "typed")] [] ""

/-- The checkbox of `eventLayout`. -/
def typedCheckbox : Element :=
  mkElem "Checkbox" "c1" [("onchange", "typed"), ("label", "Check")] [] ""

/-- The select of `eventLayout`. -/
def goSelect : Element :=
  mkElem "Select" "s1" [("onchange", "go")] [mkElem "Option" "" [] [] "one"] ""

/-! ## Getters of the binding context, `fixedSizeLayout`, `LoadLayout` -/

/-- The method `GetString`; `none` stands for either error (no cell under
the key, or a cell that is not a string). -/
def BindingContext.GetString (bc : BindingContext) (key : Str) : Option Str :=
  match bc.existing key with
  | some (_, DataItem.String v) => some v
  | _ => none

/-- The method `GetInt`. -/
def BindingContext.GetInt (bc : BindingContext) (key : Str) : Option Int :=
  match bc.existing key with
  | some (_, DataItem.Int v) => some v
  | _ => none

/-- The method `GetFloat`. -/
def BindingContext.GetFloat (bc : BindingContext) (key : Str) : Option GoFloat :=
  match bc.existing key with
  | some (_, DataItem.Float v) => some v
  | _ => none

/-- The method `GetBool`. -/
def BindingContext.GetBool (bc : BindingContext) (key : Str) : Option Bool :=
  match bc.existing key with
  | some (_, DataItem.Bool v) => some v
  | _ => none

/-- The method `MinSize` of `fixedSizeLayout`. -/
def fixedSizeLayout.MinSize (size : Size) (_objects : List CanvasObject) : Size := size

/-- The `MinSize()` of the container `applyMinSize` wraps a widget in: a
`fyne.Container` hands the question to its layout, here a `fixedSizeLayout`.
For the other objects the toolkit decides (`none`). -/
def CanvasObject.wrapperMinSize : CanvasObject → Option Size
  | CanvasObject.FixedSize size obj => some (fixedSizeLayout.MinSize size [obj])
  | _ => none

/-- The body of the loop of `LoadLayout` for one rule: the properties are
parsed from the raw text and the rule is stored under its selector. -/
def loadStyle (b : BuilderState) (s : Style) : BuilderState :=
  { b with styles := b.styles.set s.Selector { s with Properties := parseCSS s.RawCSS } }

/-- The method `LoadLayout`, from the layout `decoder.Decode` has filled
(`none` when decoding fails). -/
def LoadLayout (b : BuilderState) (decoded : Option Layout) : BuilderState × Option Layout :=
  match decoded with
  | none => (b, none)
  | some layout =>
    (layout.Styles.foldl loadStyle b,
      some { layout with
        Styles := layout.Styles.map fun s => { s with Properties := parseCSS s.RawCSS } })

/-- A style in which the key `width` is present with an empty value. -/
def emptyWidthStyle : GoMap Str := parseCSS "width: ; min-width: 50px".toList

/-- A style with both pairs of size keys. -/
def bothSizesStyle : GoMap Str :=
  parseCSS "width: 200px; min-width: 50px; min-height: 60px".toList

/-- A check box as `buildCheckbox` makes it. -/
def plainCheck : CanvasObject := CanvasObject.Check "ok".toList false none none

/-- A check box with an inline style that sets both pairs of size keys. -/
def sizedCheck : Element :=
  Element.mk "Checkbox".toList "c1".toList []
    "width: 200px; min-width: 50px; min-height: 60px".toList [] [] [] "ok".toList

/-- A box with a label and the sized check box. -/
def sizedCheckLayout : Layout :=
  ⟨[], mkElem "VBox" "" [] [mkElem "Label" "t" [] [] "title", sizedCheck] ""⟩

/-- A decoded layout with two rules for the selector `.title`. -/
def twoRulesLayout : Layout :=
  ⟨[⟨".title".toList, GoMap.empty, "color: red; font-size: 20".toList⟩,
      ⟨"#main".toList, GoMap.empty, "width: 10".toList⟩,
      ⟨".title".toList, GoMap.empty, "font-size: 30".toList⟩],
    mkElem "Label" "main" [] [] "Title"⟩

/-- An element of class `title`. -/
def titleElem : Element :=
  Element.mk "Label".toList "main".toList "title".toList [] [] [] [] "Title".toList
theorem assignAll_apply {V : Type} (dst src : GoMap V) (k : Str) :
    GoMap.assignAll dst src k = (src k).orElse (fun _ => dst k) := by
  unfold GoMap.assignAll
  cases src k <;> rfl

theorem parseCSS_nil : parseCSS [] = GoMap.empty := by rfl

theorem applyInlineStyles_apply (style : GoMap Str) (inl k : Str) :
    applyInlineStyles style inl k = (parseCSS inl k).orElse (fun _ => style k) := by
  unfold applyInlineStyles
  split
  · next h => subst h; rw [parseCSS_nil]; rfl
  · exact assignAll_apply _ _ _

theorem applyClassStep_eq (b : Builder) (style : GoMap Str) (cls : Str) :
    applyClassStep b style cls =
      if TrimSpace cls = [] then style else applyToken b style (TrimSpace cls) := by
  rfl

theorem foldl_applyClassStep (b : Builder) (L : List Str) (style : GoMap Str) :
    L.foldl (applyClassStep b) style =
      ((L.map TrimSpace).filter (fun t => decide (t ≠ []))).foldl (applyToken b) style := by
  induction L generalizing style with
  | nil => rfl
  | cons x xs ih =>
    simp only [List.foldl_cons, List.map_cons, List.filter_cons, ih, applyClassStep_eq]
    by_cases h : TrimSpace x = [] <;> simp [h]

theorem applyClassStyles_eq (b : Builder) (style : GoMap Str) (classes : Str) :
    applyClassStyles b style classes = (classTokens classes).foldl (applyToken b) style := by
  unfold applyClassStyles classTokens
  split
  · next h => subst h; rfl
  · exact foldl_applyClassStep b _ style

theorem applyToken_apply (b : Builder) (style : GoMap Str) (t k : Str) :
    applyToken b style t k =
      match b.styles ('.' :: t) with
      | some s => (s.Properties k).orElse (fun _ => style k)
      | none => style k := by
  unfold applyToken
  cases b.styles ('.' :: t) with
  | none => rfl
  | some s => exact assignAll_apply _ _ _

theorem applyIDStyles_apply (b : Builder) (style : GoMap Str) (id k : Str) :
    applyIDStyles b style id k =
      if id = [] then style k
      else
        match b.styles ('#' :: id) with
        | some s => (s.Properties k).orElse (fun _ => style k)
        | none => style k := by
  unfold applyIDStyles
  split
  · rfl
  · cases b.styles ('#' :: id) with
    | none => rfl
    | some s => exact assignAll_apply _ _ _

theorem foldl_applyToken_none (b : Builder) (L : List Str) (style : GoMap Str) (k : Str)
    (h : ∀ t ∈ L, ∀ s, b.styles ('.' :: t) = some s → s.Properties k = none) :
    L.foldl (applyToken b) style k = style k := by
  induction L generalizing style with
  | nil => rfl
  | cons x xs ih =>
    rw [List.foldl_cons, ih _ (fun t ht => h t (List.mem_cons_of_mem _ ht)), applyToken_apply]
    cases hx : b.styles ('.' :: x) with
    | none => rfl
    | some s => simp [h x (List.mem_cons_self _ _) s hx]

theorem foldl_applyToken_last (b : Builder) (pre post : List Str) (t : Str)
    (style : GoMap Str) (s : Style) (k v : Str)
    (hs : b.styles ('.' :: t) = some s) (hk : s.Properties k = some v)
    (hpost : ∀ u ∈ post, ∀ r, b.styles ('.' :: u) = some r → r.Properties k = none) :
    (pre ++ t :: post).foldl (applyToken b) style k = some v := by
  rw [List.foldl_append, List.foldl_cons, foldl_applyToken_none b post _ k hpost,
    applyToken_apply, hs]
  simp [hk]

theorem orElse_isSome (o d : Option Str) :
    (o.orElse (fun _ => d)).isSome = true ↔ o.isSome = true ∨ d.isSome = true := by
  cases o <;> simp

theorem applyToken_isSome (b : Builder) (style : GoMap Str) (t k : Str) :
    (applyToken b style t k).isSome ↔
      (style k).isSome ∨ ∃ s, b.styles ('.' :: t) = some s ∧ (s.Properties k).isSome := by
  rw [applyToken_apply]
  cases hx : b.styles ('.' :: t) with
  | none => simp
  | some sx =>
    dsimp only
    rw [orElse_isSome]
    constructor
    · rintro (h | h)
      · exact Or.inr ⟨sx, rfl, h⟩
      · exact Or.inl h
    · rintro (h | ⟨s, hs, hk⟩)
      · exact Or.inr h
      · cases hs; exact Or.inl hk

theorem foldl_applyToken_isSome (b : Builder) (L : List Str) (style : GoMap Str) (k : Str) :
    (L.foldl (applyToken b) style k).isSome ↔
      (style k).isSome ∨
        ∃ t ∈ L, ∃ s, b.styles ('.' :: t) = some s ∧ (s.Properties k).isSome := by
  induction L generalizing style with
  | nil => simp
  | cons x xs ih =>
    rw [List.foldl_cons, ih, applyToken_isSome]
    simp only [List.mem_cons, exists_eq_or_imp, or_assoc]

theorem applyIDStyles_isSome (b : Builder) (style : GoMap Str) (id k : Str) :
    (applyIDStyles b style id k).isSome ↔
      (style k).isSome ∨
        (id ≠ [] ∧ ∃ s, b.styles ('#' :: id) = some s ∧ (s.Properties k).isSome) := by
  rw [applyIDStyles_apply]
  by_cases h : id = []
  · rw [if_pos h]
    constructor
    · exact Or.inl
    · rintro (h1 | ⟨h2, _⟩)
      · exact h1
      · exact absurd h h2
  · rw [if_neg h]
    cases hr : b.styles ('#' :: id) with
    | none =>
      dsimp only
      constructor
      · exact Or.inl
      · rintro (h1 | ⟨_, s, hs, _⟩)
        · exact h1
        · cases hs
    | some r =>
      dsimp only
      rw [orElse_isSome]
      constructor
      · rintro (h1 | h1)
        · exact Or.inr ⟨h, r, rfl, h1⟩
        · exact Or.inl h1
      · rintro (h1 | ⟨_, s, hs, hk⟩)
        · exact Or.inr h1
        · cases hs; exact Or.inl hk

theorem foldl_applyToken_congr (b b2 : Builder) (L : List Str) (style : GoMap Str)
    (h : ∀ t ∈ L, b2.styles ('.' :: t) = b.styles ('.' :: t)) :
    L.foldl (applyToken b2) style = L.foldl (applyToken b) style := by
  induction L generalizing style with
  | nil => rfl
  | cons x xs ih =>
    have hx : applyToken b2 style x = applyToken b style x := by
      unfold applyToken; rw [h x (List.mem_cons_self _ _)]
    rw [List.foldl_cons, List.foldl_cons, hx, ih _ (fun t ht => h t (List.mem_cons_of_mem _ ht))]

theorem computeStyle_apply (b : Builder) (elem : Element) (k : Str) :
    computeStyle b elem k =
      (parseCSS elem.Style k).orElse (fun _ =>
        applyIDStyles b ((classTokens elem.Class).foldl (applyToken b) GoMap.empty) elem.ID k) := by
  unfold computeStyle
  simp only [applyInlineStyles_apply, applyClassStyles_eq]

/-- C1. Whenever the inline style of an element is non-empty, every key that
`parseCSS` finds in it has, in `computeStyle`, exactly the inline value,
whatever the registry holds for the classes and the id of the element.  (A
key of `parseCSS elem.Style` can only exist when `elem.Style` is non-empty, so
that condition needs no hypothesis of its own.) -/
theorem computeStyle_inline_wins (b : Builder) (elem : Element) (k : Str)
    (hk : (parseCSS elem.Style k).isSome) :
    computeStyle b elem k = parseCSS elem.Style k := by
  rw [computeStyle_apply]
  cases h : parseCSS elem.Style k with
  | none => rw [h] at hk; cases hk
  | some v => rfl

theorem computeStyle_inline_wins_witness :
    cascadeElem.Style ≠ [] ∧ (parseCSS cascadeElem.Style "color".toList).isSome ∧
      computeStyle cascadeBuilder cascadeElem "color".toList = some "green".toList ∧
      computeStyle cascadeBuilder cascadeElem "color".toList =
        parseCSS cascadeElem.Style "color".toList :=
  ⟨by decide, by decide, by decide,
    computeStyle_inline_wins cascadeBuilder cascadeElem "color".toList (by decide)⟩

/-- C2. For an element with a non-empty id whose selector `#id` is
registered, every key of that rule which the parsed inline style does not
define has, in `computeStyle`, the value of the id rule, whatever the class
rules define for it. -/
theorem computeStyle_id_over_class (b : Builder) (elem : Element) (s : Style) (k v : Str)
    (hid : elem.ID ≠ []) (hs : b.styles ('#' :: elem.ID) = some s)
    (hk : s.Properties k = some v) (hin : parseCSS elem.Style k = none) :
    computeStyle b elem k = some v := by
  rw [computeStyle_apply, hin, applyIDStyles_apply, if_neg hid, hs]
  simp [hk]

theorem computeStyle_id_over_class_witness :
    computeStyle cascadeBuilder
      (.mk "VBox".toList "special".toList "red-text".toList [] [] [] [] [])
      "color".toList = some "blue".toList :=
  computeStyle_id_over_class cascadeBuilder
    (.mk "VBox".toList "special".toList "red-text".toList [] [] [] [] [])
    (mkStyle "#special" "color: blue;") "color".toList "blue".toList
    (by decide) rfl (by decide) (by decide)

/-- C3. The later class wins: when a token `t` of the class list has a
registered `.t` rule giving the key `k` the value `v`, no token further right
has a rule defining `k` (so every other token whose rule defines `k`, as the
earlier one of a conflicting pair, stands to the left of `t`), and neither the
id rule nor the inline style defines `k`, then `computeStyle` gives `k` the
value `v`. -/
theorem computeStyle_later_class_wins (b : Builder) (elem : Element)
    (pre post : List Str) (t : Str) (s : Style) (k v : Str)
    (htok : classTokens elem.Class = pre ++ t :: post)
    (hs : b.styles ('.' :: t) = some s) (hk : s.Properties k = some v)
    (hlast : ∀ u ∈ post, ∀ r, b.styles ('.' :: u) = some r → r.Properties k = none)
    (hid : elem.ID ≠ [] → ∀ r, b.styles ('#' :: elem.ID) = some r → r.Properties k = none)
    (hin : parseCSS elem.Style k = none) :
    computeStyle b elem k = some v := by
  have hcls : (classTokens elem.Class).foldl (applyToken b) GoMap.empty k = some v := by
    rw [htok]
    exact foldl_applyToken_last b pre post t _ s k v hs hk hlast
  rw [computeStyle_apply, hin, applyIDStyles_apply]
  by_cases h : elem.ID = []
  · simp [h, hcls]
  · rw [if_neg h]
    cases hr : b.styles ('#' :: elem.ID) with
    | none => simp [hcls]
    | some r => simp [hid h r hr, hcls]

theorem computeStyle_later_class_wins_witness :
    classTokens methodsElem.Class = ["red".toList, "large".toList] ∧
      (∃ s1, methodsBuilder.styles ".red".toList = some s1 ∧
        s1.Properties "font-size".toList = some "14".toList) ∧
      (∃ s2, methodsBuilder.styles ".large".toList = some s2 ∧
        s2.Properties "font-size".toList = some "20".toList) ∧
      computeStyle methodsBuilder methodsElem "font-size".toList = some "20".toList :=
  ⟨by decide, ⟨_, rfl, by decide⟩, ⟨_, rfl, by decide⟩,
    computeStyle_later_class_wins methodsBuilder methodsElem ["red".toList] [] "large".toList
      ⟨".large".toList, GoMap.empty.set "font-size".toList "20".toList, []⟩
      "font-size".toList "20".toList (by decide) rfl (by decide)
      (fun u hu => absurd hu (List.not_mem_nil u)) (fun h => absurd rfl h) (by decide)⟩

/-- C4. A key is present in `computeStyle` exactly when a matched class rule,
the matched id rule or the parsed inline style defines it; and a key that the
higher tiers do not define keeps the value of the tiers below: without an
inline definition the value after the class and id tiers, and without an id
definition either, the value of the class tier. -/
theorem computeStyle_keys (b : Builder) (elem : Element) (k : Str) :
    ((computeStyle b elem k).isSome ↔
      (∃ t ∈ classTokens elem.Class, ∃ s,
          b.styles ('.' :: t) = some s ∧ (s.Properties k).isSome) ∨
        (elem.ID ≠ [] ∧ ∃ s, b.styles ('#' :: elem.ID) = some s ∧ (s.Properties k).isSome) ∨
        (parseCSS elem.Style k).isSome) ∧
    (parseCSS elem.Style k = none →
      computeStyle b elem k =
        applyIDStyles b (applyClassStyles b GoMap.empty elem.Class) elem.ID k) ∧
    (parseCSS elem.Style k = none →
      (elem.ID ≠ [] → ∀ s, b.styles ('#' :: elem.ID) = some s → s.Properties k = none) →
      computeStyle b elem k = applyClassStyles b GoMap.empty elem.Class k) := by
  refine ⟨?_, ?_, ?_⟩
  · rw [computeStyle_apply, orElse_isSome, applyIDStyles_isSome, foldl_applyToken_isSome]
    have he : ((GoMap.empty : GoMap Str) k).isSome = true ↔ False := by
      simp [GoMap.empty]
    rw [he]
    constructor
    · rintro (h | ((h | h) | h))
      · exact Or.inr (Or.inr h)
      · exact h.elim
      · exact Or.inl h
      · exact Or.inr (Or.inl h)
    · rintro (h | h | h)
      · exact Or.inr (Or.inl (Or.inr h))
      · exact Or.inr (Or.inr h)
      · exact Or.inl h
  · intro hin
    rw [computeStyle_apply, hin, applyClassStyles_eq]
    rfl
  · intro hin hid
    rw [computeStyle_apply, hin, applyClassStyles_eq, applyIDStyles_apply]
    by_cases h : elem.ID = []
    · simp [h]
    · rw [if_neg h]
      cases hr : b.styles ('#' :: elem.ID) with
      | none => simp
      | some r => simp [hid h r hr]

theorem computeStyle_keys_witness :
    computeStyle sizesBuilder sizesElem "width".toList = some "200px".toList ∧
      parseCSS sizesElem.Style "height".toList = none ∧
      computeStyle sizesBuilder sizesElem "height".toList = some "40px".toList ∧
      computeStyle sizesBuilder sizesElem "height".toList =
        applyClassStyles sizesBuilder GoMap.empty sizesElem.Class "height".toList :=
  ⟨by decide, by decide, by decide,
    (computeStyle_keys sizesBuilder sizesElem "height".toList).2.2 (by decide)
      (fun _ s hs => by
        have e : s = mkStyle "#btn1" "\n\t\t\twidth: 150px;\n\t\t" :=
          (Option.some.inj hs).symm
        subst e
        decide)⟩

/-- C5. Registering a rule under a selector that is neither `.t` for a class
token `t` of the element nor `#id` for its id leaves `computeStyle` of the
element unchanged (selectors are compared as exact strings, so one that
differs from a matching selector in letter case only is such a rule); and
when no selector of the element is registered and its inline style is empty,
the computed style is the empty mapping. -/
theorem computeStyle_unmatched_rule (b : Builder) (elem : Element) (sel : Str)
    (rule : Style) :
    ((∀ t ∈ classTokens elem.Class, sel ≠ '.' :: t) →
      (elem.ID ≠ [] → sel ≠ '#' :: elem.ID) →
      computeStyle { b with styles := b.styles.set sel rule } elem = computeStyle b elem) ∧
    ((∀ t ∈ classTokens elem.Class, b.styles ('.' :: t) = none) →
      (elem.ID ≠ [] → b.styles ('#' :: elem.ID) = none) → elem.Style = [] →
      computeStyle b elem = GoMap.empty) := by
  constructor
  · intro hc hid
    funext k
    have hfold :
        (classTokens elem.Class).foldl
            (applyToken { b with styles := b.styles.set sel rule }) GoMap.empty =
          (classTokens elem.Class).foldl (applyToken b) GoMap.empty := by
      apply foldl_applyToken_congr
      intro t ht
      show GoMap.set b.styles sel rule ('.' :: t) = b.styles ('.' :: t)
      unfold GoMap.set
      rw [if_neg (fun e => hc t ht e.symm)]
    rw [computeStyle_apply, computeStyle_apply, hfold, applyIDStyles_apply, applyIDStyles_apply]
    by_cases h : elem.ID = []
    · rw [if_pos h, if_pos h]
    · rw [if_neg h, if_neg h]
      have e : GoMap.set b.styles sel rule ('#' :: elem.ID) = b.styles ('#' :: elem.ID) := by
        unfold GoMap.set
        rw [if_neg (fun e => hid h e.symm)]
      show (parseCSS elem.Style k).orElse (fun _ =>
          match GoMap.set b.styles sel rule ('#' :: elem.ID) with
          | some s => (s.Properties k).orElse (fun _ => _)
          | none => _) = _
      rw [e]
  · intro hc hid hst
    funext k
    have hcls : (classTokens elem.Class).foldl (applyToken b) GoMap.empty k = none :=
      foldl_applyToken_none b _ _ k (fun t ht s hs => by rw [hc t ht] at hs; cases hs)
    rw [computeStyle_apply, hst, parseCSS_nil, applyIDStyles_apply]
    by_cases h : elem.ID = []
    · rw [if_pos h]; exact hcls
    · rw [if_neg h, hid h]; exact hcls

theorem computeStyle_unmatched_rule_witness :
    classTokens plainElem.Class = ["Red-Text".toList, "blue".toList] ∧
      computeStyle
          { cascadeBuilder with
            styles := cascadeBuilder.styles.set ".red-text".toList
              (mkStyle ".red-text" "color: red;") }
          plainElem =
        computeStyle cascadeBuilder plainElem ∧
      computeStyle cascadeBuilder plainElem = GoMap.empty :=
  ⟨by decide,
    (computeStyle_unmatched_rule cascadeBuilder plainElem ".red-text".toList
      (mkStyle ".red-text" "color: red;")).1 (by decide) (by decide),
    (computeStyle_unmatched_rule cascadeBuilder plainElem ".red-text".toList
      (mkStyle ".red-text" "color: red;")).2
      (fun t ht => by
        have e : classTokens plainElem.Class = ["Red-Text".toList, "blue".toList] := by decide
        rw [e] at ht
        have ht2 : t = "Red-Text".toList ∨ t = "blue".toList := by simpa using ht
        rcases ht2 with rfl | rfl <;> rfl)
      (fun _ => rfl) (by decide)⟩

/-! ### Trimming -/

theorem TrimSpace_eq_trimP (s : Str) : TrimSpace s = trimP isSpace s := rfl

theorem Trim_braces_eq_trimP (s : Str) : Trim s ['\x7b', '\x7d'] = trimP isBrace s := rfl

theorem rdropWhile_append_of_pos (p : Char → Bool) (l w : Str) (h : ∀ a ∈ w, p a = true) :
    (l ++ w).rdropWhile p = l.rdropWhile p := by
  unfold List.rdropWhile
  rw [List.reverse_append, List.dropWhile_append_of_pos]
  intro a ha
  exact h a (List.mem_reverse.mp ha)

theorem dropWhile_of_head (p : Char → Bool) (s : Str)
    (h : ∀ c, s.head? = some c → p c = false) : s.dropWhile p = s := by
  cases s with
  | nil => rfl
  | cons c t =>
    have hc : p c = false := h c rfl
    simp [List.dropWhile_cons, hc]

theorem rdropWhile_of_last (p : Char → Bool) (s : Str)
    (h : ∀ c, s.getLast? = some c → p c = false) : s.rdropWhile p = s := by
  unfold List.rdropWhile
  rw [dropWhile_of_head p s.reverse (by simpa using h), List.reverse_reverse]

theorem trimP_of_noEdge (p : Char → Bool) (s : Str) (h : NoEdge p s) : trimP p s = s := by
  unfold trimP
  rw [dropWhile_of_head p s h.1, rdropWhile_of_last p s h.2]

theorem head_dropWhile_false (p : Char → Bool) (s : Str) (c : Char)
    (h : (s.dropWhile p).head? = some c) : p c = false := by
  have := List.head?_dropWhile_not p s
  rw [h] at this
  exact this

theorem noEdge_trimP (p : Char → Bool) (s : Str) : NoEdge p (trimP p s) := by
  unfold trimP
  constructor
  · intro c hc
    obtain ⟨t, ht⟩ := List.rdropWhile_prefix p (s.dropWhile p)
    apply head_dropWhile_false p s c
    rw [← ht, List.head?_append, hc]
    rfl
  · intro c hc
    have hne : (s.dropWhile p).rdropWhile p ≠ [] := by
      intro e; rw [e] at hc; cases hc
    have := List.rdropWhile_last_not p (s.dropWhile p) hne
    rw [List.getLast?_eq_getLast _ hne] at hc
    cases hc
    simpa using this

theorem trimP_idem (p : Char → Bool) (s : Str) : trimP p (trimP p s) = trimP p s :=
  trimP_of_noEdge p _ (noEdge_trimP p s)

theorem trimP_append_left (p : Char → Bool) (w s : Str) (h : ∀ a ∈ w, p a = true) :
    trimP p (w ++ s) = trimP p s := by
  unfold trimP
  rw [List.dropWhile_append_of_pos h]

theorem trimP_append_right (p : Char → Bool) (s w : Str) (h : ∀ a ∈ w, p a = true) :
    trimP p (s ++ w) = trimP p s := by
  unfold trimP
  rw [List.dropWhile_append]
  by_cases he : s.dropWhile p = []
  · have hw : w.dropWhile p = [] := List.dropWhile_eq_nil_iff.mpr h
    simp [he, hw]
  · have : (s.dropWhile p).isEmpty = false := by
      cases hd : s.dropWhile p with
      | nil => exact absurd hd he
      | cons _ _ => rfl
    rw [this]
    simp only [Bool.false_eq_true, if_false]
    exact rdropWhile_append_of_pos p _ w h

theorem trimP_eq_nil (p : Char → Bool) (s : Str) (h : ∀ a ∈ s, p a = true) :
    trimP p s = [] := by
  unfold trimP
  rw [List.dropWhile_eq_nil_iff.mpr h]
  rfl

theorem trimP_decompose (p : Char → Bool) (s : Str) :
    ∃ w1 w2 : Str, (∀ a ∈ w1, p a = true) ∧ (∀ a ∈ w2, p a = true) ∧
      s = w1 ++ trimP p s ++ w2 := by
  refine ⟨s.takeWhile p, (s.dropWhile p).rtakeWhile p, ?_, ?_, ?_⟩
  · intro a ha
    exact List.mem_takeWhile_imp ha
  · intro a ha
    unfold List.rtakeWhile at ha
    exact List.mem_takeWhile_imp (List.mem_reverse.mp ha)
  · have h2 : (s.dropWhile p).rdropWhile p ++ (s.dropWhile p).rtakeWhile p = s.dropWhile p := by
      unfold List.rdropWhile List.rtakeWhile
      rw [← List.reverse_append, List.takeWhile_append_dropWhile, List.reverse_reverse]
    unfold trimP
    rw [List.append_assoc, h2, List.takeWhile_append_dropWhile]

theorem trimP_sublist (p : Char → Bool) (s : Str) : (trimP p s).Sublist s := by
  unfold trimP
  exact ((List.rdropWhile_prefix p (s.dropWhile p)).sublist).trans (List.dropWhile_sublist p)

theorem mem_of_mem_trimP (p : Char → Bool) (s : Str) (c : Char) (h : c ∈ trimP p s) : c ∈ s :=
  (trimP_sublist p s).subset h

theorem mem_trimP_of_not (p : Char → Bool) (s : Str) (c : Char) (hc : p c = false)
    (h : c ∈ s) : c ∈ trimP p s := by
  obtain ⟨w1, w2, h1, h2, e⟩ := trimP_decompose p s
  rw [e] at h
  simp only [List.mem_append] at h
  rcases h with (h | h) | h
  · rw [h1 c h] at hc; cases hc
  · exact h
  · rw [h2 c h] at hc; cases hc

/-! ### Splitting -/

theorem Split_nil (c : Char) : Split [] c = [[]] := rfl

theorem Split_cons (h : Char) (t : Str) (c : Char) :
    Split (h :: t) c =
      if h = c then [] :: Split t c else (Split t c).modifyHead (List.cons h) := by
  unfold Split List.splitOn
  rw [List.splitOnP_cons]
  by_cases e : h = c
  · simp [e]
  · simp [e]

theorem Split_ne_nil (s : Str) (c : Char) : Split s c ≠ [] :=
  List.splitOnP_ne_nil _ _

theorem Split_of_not_mem (x : Str) (c : Char) (h : c ∉ x) : Split x c = [x] := by
  induction x with
  | nil => rfl
  | cons a t ih =>
    have hne : a ≠ c := fun e => h (e ▸ List.mem_cons_self _ _)
    rw [Split_cons, if_neg hne, ih (fun hm => h (List.mem_cons_of_mem _ hm))]
    rfl

theorem Split_append_sep (x s : Str) (c : Char) (h : c ∉ x) :
    Split (x ++ c :: s) c = x :: Split s c := by
  induction x with
  | nil => simp [Split_cons]
  | cons a t ih =>
    have hne : a ≠ c := fun e => h (e ▸ List.mem_cons_self _ _)
    rw [List.cons_append, Split_cons, if_neg hne, ih (fun hm => h (List.mem_cons_of_mem _ hm))]
    rfl

theorem not_mem_of_mem_Split (s : Str) (c : Char) (l : Str) (h : l ∈ Split s c) : c ∉ l := by
  induction s generalizing l with
  | nil =>
    rw [Split_nil] at h
    simp only [List.mem_singleton] at h
    subst h
    exact List.not_mem_nil c
  | cons a t ih =>
    rw [Split_cons] at h
    by_cases e : a = c
    · rw [if_pos e] at h
      rcases List.mem_cons.mp h with rfl | h
      · exact List.not_mem_nil c
      · exact ih l h
    · rw [if_neg e] at h
      cases hs : Split t c with
      | nil => exact absurd hs (Split_ne_nil t c)
      | cons first rest =>
        rw [hs] at h
        simp only [List.modifyHead_cons, List.mem_cons] at h
        rcases h with rfl | h
        · intro hm
          rcases List.mem_cons.mp hm with e2 | hm
          · exact e e2.symm
          · exact ih first (by rw [hs]; exact List.mem_cons_self _ _) hm
        · exact ih l (by rw [hs]; exact List.mem_cons_of_mem _ h)

theorem Split_append_left (x s : Str) (c : Char) (h : c ∉ x) :
    ∃ first rest, Split s c = first :: rest ∧ Split (x ++ s) c = (x ++ first) :: rest := by
  induction x with
  | nil =>
    cases hs : Split s c with
    | nil => exact absurd hs (Split_ne_nil s c)
    | cons first rest => exact ⟨first, rest, rfl, by simpa using hs⟩
  | cons a t ih =>
    have hne : a ≠ c := fun e => h (e ▸ List.mem_cons_self _ _)
    obtain ⟨first, rest, h1, h2⟩ := ih (fun hm => h (List.mem_cons_of_mem _ hm))
    refine ⟨first, rest, h1, ?_⟩
    rw [List.cons_append, Split_cons, if_neg hne, h2]
    rfl

theorem Split_append_right (s y : Str) (c : Char) (h : c ∉ y) :
    ∃ init last, Split s c = init ++ [last] ∧ Split (s ++ y) c = init ++ [last ++ y] := by
  induction s with
  | nil => exact ⟨[], [], rfl, by simpa using Split_of_not_mem y c h⟩
  | cons a t ih =>
    obtain ⟨init, last, h1, h2⟩ := ih
    by_cases e : a = c
    · refine ⟨[] :: init, last, ?_, ?_⟩
      · rw [Split_cons, if_pos e, h1]; rfl
      · rw [List.cons_append, Split_cons, if_pos e, h2]; rfl
    · cases init with
      | nil =>
        refine ⟨[], a :: last, ?_, ?_⟩
        · rw [Split_cons, if_neg e, h1]; rfl
        · rw [List.cons_append, Split_cons, if_neg e, h2]; rfl
      | cons i0 r =>
        refine ⟨(a :: i0) :: r, last, ?_, ?_⟩
        · rw [Split_cons, if_neg e, h1]; rfl
        · rw [List.cons_append, Split_cons, if_neg e, h2]; rfl

/-! ### One declaration -/

theorem isSpace_colon : isSpace ':' = false := by decide

theorem isSpace_semicolon : isSpace ';' = false := by decide

theorem isSpace_blank : isSpace ' ' = true := by decide

theorem dropWhile_append_cons_neg (p : Char → Bool) (x y : Str) (c : Char)
    (hc : p c = false) : (x ++ c :: y).dropWhile p = x.dropWhile p ++ c :: y := by
  induction x with
  | nil => simp [List.dropWhile_cons, hc]
  | cons a t ih =>
    by_cases ha : p a = true
    · simp [List.dropWhile_cons, ha, ih]
    · simp [List.dropWhile_cons, ha]

theorem rdropWhile_append_cons_neg (p : Char → Bool) (x y : Str) (c : Char)
    (hc : p c = false) : (x ++ c :: y).rdropWhile p = x ++ c :: y.rdropWhile p := by
  unfold List.rdropWhile
  have e : (x ++ c :: y).reverse = y.reverse ++ c :: x.reverse := by simp
  rw [e, dropWhile_append_cons_neg p _ _ c hc]
  simp

theorem trimP_split_at (p : Char → Bool) (a v : Str) (c : Char) (hc : p c = false) :
    trimP p (a ++ c :: v) = a.dropWhile p ++ c :: v.rdropWhile p := by
  unfold trimP
  rw [dropWhile_append_cons_neg p a v c hc, rdropWhile_append_cons_neg p _ v c hc]

theorem trimP_dropWhile (p : Char → Bool) (a : Str) : trimP p (a.dropWhile p) = trimP p a := by
  unfold trimP
  rw [List.dropWhile_idempotent]

theorem trimP_rdropWhile (p : Char → Bool) (v : Str) :
    trimP p (v.rdropWhile p) = trimP p v := by
  have h2 : v.rdropWhile p ++ v.rtakeWhile p = v := by
    unfold List.rdropWhile List.rtakeWhile
    rw [← List.reverse_append, List.takeWhile_append_dropWhile, List.reverse_reverse]
  have hall : ∀ a ∈ v.rtakeWhile p, p a = true := by
    intro a ha
    unfold List.rtakeWhile at ha
    exact List.mem_takeWhile_imp (List.mem_reverse.mp ha)
  conv_rhs => rw [← h2]
  rw [trimP_append_right p _ _ hall]

theorem takeWhile_ne_append (a v : Str) (c : Char) (h : c ∉ a) :
    (a ++ c :: v).takeWhile (fun x => x != c) = a := by
  induction a with
  | nil => simp
  | cons x t ih =>
    have hx : x ≠ c := fun e => h (e ▸ List.mem_cons_self _ _)
    simp [List.takeWhile_cons, hx, ih (fun hm => h (List.mem_cons_of_mem _ hm))]

theorem dropWhile_ne_append (a v : Str) (c : Char) (h : c ∉ a) :
    (a ++ c :: v).dropWhile (fun x => x != c) = c :: v := by
  induction a with
  | nil => simp
  | cons x t ih =>
    have hx : x ≠ c := fun e => h (e ▸ List.mem_cons_self _ _)
    simp [List.dropWhile_cons, hx, ih (fun hm => h (List.mem_cons_of_mem _ hm))]

theorem exists_first_occurrence (d : Str) (c : Char) (h : c ∈ d) :
    ∃ a v, d = a ++ c :: v ∧ c ∉ a := by
  induction d with
  | nil => exact absurd h (List.not_mem_nil c)
  | cons x t ih =>
    by_cases e : x = c
    · exact ⟨[], t, by rw [e]; rfl, List.not_mem_nil c⟩
    · have ht : c ∈ t := by
        rcases List.mem_cons.mp h with h1 | h1
        · exact absurd h1.symm e
        · exact h1
      obtain ⟨a, v, h1, h2⟩ := ih ht
      refine ⟨x :: a, v, by rw [h1]; rfl, ?_⟩
      intro hm
      rcases List.mem_cons.mp hm with h3 | h3
      · exact e h3.symm
      · exact h2 h3

theorem parseCSSDecl_eq (props : GoMap Str) (decl : Str) :
    parseCSSDecl props decl =
      match declKV decl with
      | some kv => props.set kv.1 kv.2
      | none => props := by
  unfold parseCSSDecl declKV SplitN2
  by_cases h : ':' ∈ TrimSpace decl
  · have hne : TrimSpace decl ≠ [] := by
      intro e; rw [e] at h; exact absurd h (List.not_mem_nil _)
    simp only [if_neg hne, if_pos h]
  · simp only [if_neg h]
    split <;> rfl

theorem declKV_colon (a v : Str) (h : ':' ∉ a) :
    declKV (a ++ ':' :: v) = some (TrimSpace a, TrimSpace v) := by
  unfold declKV
  simp only [TrimSpace_eq_trimP]
  rw [trimP_split_at isSpace a v ':' isSpace_colon]
  have hna : ':' ∉ a.dropWhile isSpace := fun hm => h ((List.dropWhile_sublist _).subset hm)
  have hin : ':' ∈ a.dropWhile isSpace ++ ':' :: v.rdropWhile isSpace := by simp
  rw [if_pos hin, takeWhile_ne_append _ _ _ hna, dropWhile_ne_append _ _ _ hna,
    List.tail_cons, trimP_dropWhile, trimP_rdropWhile]

theorem declKV_none (d : Str) (h : ':' ∉ d) : declKV d = none := by
  unfold declKV
  have : ':' ∉ TrimSpace d := fun hm => h (mem_of_mem_trimP isSpace d ':' hm)
  simp only [if_neg this]

theorem declKV_of_trim_eq (d1 d2 : Str) (h : TrimSpace d1 = TrimSpace d2) :
    declKV d1 = declKV d2 := by
  unfold declKV
  rw [h]

theorem declKV_some (d k v : Str) (h : declKV d = some (k, v)) :
    ∃ a b, d = a ++ ':' :: b ∧ ':' ∉ a ∧ k = TrimSpace a ∧ v = TrimSpace b := by
  by_cases hc : ':' ∈ d
  · obtain ⟨a, b, e, hna⟩ := exists_first_occurrence d ':' hc
    refine ⟨a, b, e, hna, ?_, ?_⟩
    · rw [e, declKV_colon a b hna] at h
      exact (congrArg Prod.fst (Option.some.inj h)).symm
    · rw [e, declKV_colon a b hna] at h
      exact (congrArg Prod.snd (Option.some.inj h)).symm
  · rw [declKV_none d hc] at h
    cases h

theorem parseCSSDecl_of_trim_eq (props : GoMap Str) (d1 d2 : Str)
    (h : TrimSpace d1 = TrimSpace d2) : parseCSSDecl props d1 = parseCSSDecl props d2 := by
  rw [parseCSSDecl_eq, parseCSSDecl_eq, declKV_of_trim_eq d1 d2 h]

/-! ### The loop of `parseCSS` -/

theorem parseCSS_eq_foldl (css : Str) :
    parseCSS css = (cssDeclarations css).foldl parseCSSDecl GoMap.empty := rfl

theorem parseCSSDecl_eq_setKV (props : GoMap Str) (d : Str) :
    parseCSSDecl props d = (declKV d).toList.foldl setKV props := by
  rw [parseCSSDecl_eq]
  cases declKV d <;> rfl

theorem foldl_parseCSSDecl_eq (L : List Str) (props : GoMap Str) :
    L.foldl parseCSSDecl props = (L.filterMap declKV).foldl setKV props := by
  induction L generalizing props with
  | nil => rfl
  | cons d t ih =>
    rw [List.foldl_cons, ih, parseCSSDecl_eq, List.filterMap_cons]
    cases declKV d <;> rfl

theorem foldl_setKV_concat (E : List (Str × Str)) (props : GoMap Str) (kv : Str × Str)
    (k : Str) :
    (E ++ [kv]).foldl setKV props k = if k = kv.1 then some kv.2 else E.foldl setKV props k := by
  rw [List.foldl_append]
  rfl

theorem foldl_setKV_some (E : List (Str × Str)) (props : GoMap Str) (k v : Str)
    (h : E.foldl setKV props k = some v) : props k = some v ∨ (k, v) ∈ E := by
  induction E using List.reverseRecOn with
  | nil => exact Or.inl h
  | append_singleton E kv ih =>
    rw [foldl_setKV_concat] at h
    by_cases e : k = kv.1
    · rw [if_pos e] at h
      right
      have hv : kv.2 = v := Option.some.inj h
      rw [List.mem_append]
      right
      rw [List.mem_singleton, e, ← hv]
    · rw [if_neg e] at h
      rcases ih h with h1 | h1
      · exact Or.inl h1
      · exact Or.inr (List.mem_append_left _ h1)

theorem foldl_setKV_isSome (E : List (Str × Str)) (props : GoMap Str) (k v : Str)
    (h : (k, v) ∈ E) : (E.foldl setKV props k).isSome = true := by
  induction E using List.reverseRecOn with
  | nil => exact absurd h (List.not_mem_nil _)
  | append_singleton E kv ih =>
    rw [foldl_setKV_concat]
    by_cases e : k = kv.1
    · rw [if_pos e]; rfl
    · rw [if_neg e]
      rcases List.mem_append.mp h with h1 | h1
      · exact ih h1
      · rw [List.mem_singleton] at h1
        exact absurd (congrArg Prod.fst h1) e

theorem foldl_setKV_functional (E : List (Str × Str))
    (hf : ∀ k v1 v2, (k, v1) ∈ E → (k, v2) ∈ E → v1 = v2) (k v : Str) :
    E.foldl setKV GoMap.empty k = some v ↔ (k, v) ∈ E := by
  induction E using List.reverseRecOn with
  | nil => simp [GoMap.empty]
  | append_singleton E kv ih =>
    have ih2 := ih (fun k v1 v2 h1 h2 =>
      hf k v1 v2 (List.mem_append_left _ h1) (List.mem_append_left _ h2))
    rw [foldl_setKV_concat]
    have hlast : (kv.1, kv.2) ∈ E ++ [kv] := by simp
    by_cases e : k = kv.1
    · rw [if_pos e]
      constructor
      · intro h
        have hv : kv.2 = v := Option.some.inj h
        rw [e, ← hv]
        exact hlast
      · intro h
        rw [e] at h
        rw [hf kv.1 v kv.2 h hlast]
    · rw [if_neg e, ih2]
      constructor
      · exact fun h => List.mem_append_left _ h
      · intro h
        rcases List.mem_append.mp h with h1 | h1
        · exact h1
        · rw [List.mem_singleton] at h1
          exact absurd (congrArg Prod.fst h1) e

theorem foldl_parseCSSDecl_filter (L : List Str) (props : GoMap Str) :
    L.foldl parseCSSDecl props =
      (L.filter (fun seg => decide (':' ∈ seg))).foldl parseCSSDecl props := by
  induction L generalizing props with
  | nil => rfl
  | cons d t ih =>
    by_cases h : ':' ∈ d
    · rw [List.filter_cons_of_pos (by simpa using h), List.foldl_cons, List.foldl_cons, ih]
    · rw [List.filter_cons_of_neg (by simpa using h), List.foldl_cons, ih, parseCSSDecl_eq,
        declKV_none d h]

theorem noEdge_of_forall (p : Char → Bool) (s : Str) (h : ∀ c ∈ s, p c = false) :
    NoEdge p s :=
  ⟨fun c hc => h c (List.mem_of_mem_head? hc), fun c hc => h c (List.mem_of_mem_getLast? hc)⟩

theorem noEdge_TrimSpace (s : Str) : NoEdge isSpace (TrimSpace s) := noEdge_trimP isSpace s

theorem TrimSpace_idem (s : Str) : TrimSpace (TrimSpace s) = TrimSpace s := trimP_idem isSpace s

/-- C6. A declaration is split at its first `:` only: for text `a` without
`:` and any text `v` (which may hold further `:` characters), the loop body of
`parseCSS` run on `a:v` assigns the trimmed `v`, whole, to the trimmed `a`; and
when `a:v` is the entire input, free of `;` and of braces, `parseCSS` returns
exactly that one entry. -/
theorem parseCSS_first_colon (a v : Str) (ha : ':' ∉ a) :
    (∀ props, parseCSSDecl props (a ++ ':' :: v) = props.set (TrimSpace a) (TrimSpace v)) ∧
      (';' ∉ a ++ v → (∀ c ∈ a ++ v, isBrace c = false) →
        parseCSS (a ++ ':' :: v) = GoMap.empty.set (TrimSpace a) (TrimSpace v)) := by
  have hdecl : ∀ props,
      parseCSSDecl props (a ++ ':' :: v) = props.set (TrimSpace a) (TrimSpace v) := by
    intro props
    rw [parseCSSDecl_eq, declKV_colon a v ha]
  refine ⟨hdecl, ?_⟩
  intro hsemi hbrace
  have hmem : ∀ c ∈ TrimSpace (a ++ ':' :: v), c ∈ a ++ ':' :: v :=
    fun c hc => mem_of_mem_trimP isSpace _ c hc
  have hb : ∀ c ∈ TrimSpace (a ++ ':' :: v), isBrace c = false := by
    intro c hc
    have := hmem c hc
    simp only [List.mem_append, List.mem_cons] at this
    rcases this with h1 | rfl | h1
    · exact hbrace c (List.mem_append_left _ h1)
    · decide
    · exact hbrace c (List.mem_append_right _ h1)
  have hs : ';' ∉ TrimSpace (a ++ ':' :: v) := by
    intro hc
    have := hmem _ hc
    simp only [List.mem_append, List.mem_cons] at this
    rcases this with h1 | h1 | h1
    · exact hsemi (List.mem_append_left _ h1)
    · exact absurd h1 (by decide)
    · exact hsemi (List.mem_append_right _ h1)
  rw [parseCSS_eq_foldl]
  unfold cssDeclarations
  rw [Trim_braces_eq_trimP, trimP_of_noEdge isBrace _ (noEdge_of_forall isBrace _ hb),
    Split_of_not_mem _ _ hs]
  show parseCSSDecl GoMap.empty (TrimSpace (a ++ ':' :: v)) = _
  rw [parseCSSDecl_of_trim_eq _ _ _ (TrimSpace_idem _), hdecl]

theorem parseCSS_first_colon_witness :
    parseCSS "src: http://h:80/x".toList =
        GoMap.empty.set "src".toList "http://h:80/x".toList ∧
      parseCSS "src: http://h:80/x".toList "src".toList = some "http://h:80/x".toList :=
  ⟨(parseCSS_first_colon "src".toList " http://h:80/x".toList (by decide)).2
      (by decide) (by decide),
    by decide⟩

theorem parseCSS_some_origin (css k v : Str) (h : parseCSS css k = some v) :
    ∃ seg ∈ cssDeclarations css, ∃ a b,
      seg = a ++ ':' :: b ∧ ':' ∉ a ∧ k = TrimSpace a ∧ v = TrimSpace b := by
  rw [parseCSS_eq_foldl, foldl_parseCSSDecl_eq] at h
  rcases foldl_setKV_some _ _ k v h with h0 | h0
  · cases h0
  · obtain ⟨seg, hseg, hkv⟩ := List.mem_filterMap.mp h0
    exact ⟨seg, hseg, declKV_some seg k v hkv⟩

/-- C7. `parseCSS` makes an entry only for a `;`-separated declaration that
contains a `:` (the key is the trimmed text before its first `:`, the value
the trimmed rest); a declaration that is empty, all white space or without a
`:` leaves the mapping as it is, so the result is the same as running the loop
over the declarations with a `:` alone, and each of those has its key in the
result; no key and no value of the result starts or ends with white space. -/
theorem parseCSS_entries (css : Str) :
    (∀ k v, parseCSS css k = some v →
      ∃ seg ∈ cssDeclarations css, ∃ a b,
        seg = a ++ ':' :: b ∧ ':' ∉ a ∧ k = TrimSpace a ∧ v = TrimSpace b) ∧
    (∀ props seg, ((∀ c ∈ seg, isSpace c = true) ∨ ':' ∉ seg) →
      parseCSSDecl props seg = props) ∧
    parseCSS css =
      ((cssDeclarations css).filter (fun seg => decide (':' ∈ seg))).foldl
        parseCSSDecl GoMap.empty ∧
    (∀ seg ∈ cssDeclarations css, ∀ a b, seg = a ++ ':' :: b → ':' ∉ a →
      (parseCSS css (TrimSpace a)).isSome = true) ∧
    (∀ k v, parseCSS css k = some v → NoEdge isSpace k ∧ NoEdge isSpace v) := by
  have h1 := parseCSS_some_origin css
  refine ⟨h1, ?_, ?_, ?_, ?_⟩
  · intro props seg h
    have hc : ':' ∉ seg := by
      rcases h with h | h
      · intro hm
        have := h _ hm
        rw [isSpace_colon] at this
        cases this
      · exact h
    rw [parseCSSDecl_eq, declKV_none seg hc]
  · rw [parseCSS_eq_foldl]
    exact foldl_parseCSSDecl_filter _ _
  · intro seg hseg a b e ha
    rw [parseCSS_eq_foldl, foldl_parseCSSDecl_eq]
    apply foldl_setKV_isSome _ _ (TrimSpace a) (TrimSpace b)
    apply List.mem_filterMap.mpr
    exact ⟨seg, hseg, by rw [e, declKV_colon a b ha]⟩
  · intro k v h
    obtain ⟨seg, _, a, b, _, _, hk, hv⟩ := h1 k v h
    rw [hk, hv]
    exact ⟨noEdge_TrimSpace a, noEdge_TrimSpace b⟩

theorem parseCSS_entries_witness :
    cssDeclarations "a; ; b: 1 ;;".toList =
        ["a".toList, " ".toList, " b: 1 ".toList, [], []] ∧
      parseCSS "a; ; b: 1 ;;".toList = GoMap.empty.set "b".toList "1".toList ∧
      (parseCSS "a; ; b: 1 ;;".toList "b".toList).isSome = true ∧
      parseCSSDecl (parseCSS "a".toList) " ".toList = parseCSS "a".toList := by
  have e : cssDeclarations "a; ; b: 1 ;;".toList =
      ["a".toList, " ".toList, " b: 1 ".toList, [], []] := by decide
  have e2 : List.filterMap declKV ["a".toList, " ".toList, " b: 1 ".toList, [], []] =
      [("b".toList, "1".toList)] := by decide
  refine ⟨e, ?_, ?_, ?_⟩
  · rw [parseCSS_eq_foldl, e, foldl_parseCSSDecl_eq, e2]
    rfl
  · exact (parseCSS_entries "a; ; b: 1 ;;".toList).2.2.2.1 " b: 1 ".toList
      (by rw [e]; simp) " b".toList " 1 ".toList (by decide) (by decide)
  · exact (parseCSS_entries "a".toList).2.1 _ " ".toList (Or.inl (by decide))

/-! ### White space and braces around a property block -/

theorem isBrace_of_isSpace (c : Char) (h : isSpace c = true) : isBrace c = false := by
  by_contra hb
  have hb2 : isBrace c = true := by simpa using hb
  unfold isBrace at hb2
  have hm : c ∈ ['\x7b', '\x7d'] := of_decide_eq_true hb2
  simp only [List.mem_cons, List.mem_singleton, List.not_mem_nil, or_false] at hm
  rcases hm with rfl | rfl
  · exact absurd h (by decide)
  · exact absurd h (by decide)

theorem not_mem_semicolon_of_space (y : Str) (h : ∀ c ∈ y, isSpace c = true) : ';' ∉ y := by
  intro hm
  have := h _ hm
  rw [isSpace_semicolon] at this
  cases this

theorem foldl_parseCSSDecl_pad (x m y : Str) (props : GoMap Str)
    (hx : ∀ c ∈ x, isSpace c = true) (hy : ∀ c ∈ y, isSpace c = true) :
    (Split (x ++ m ++ y) ';').foldl parseCSSDecl props =
      (Split m ';').foldl parseCSSDecl props := by
  obtain ⟨init, last, e1, e2⟩ :=
    Split_append_right (x ++ m) y ';' (not_mem_semicolon_of_space y hy)
  obtain ⟨first, rest, e3, e4⟩ :=
    Split_append_left x m ';' (not_mem_semicolon_of_space x hx)
  have step1 : (Split (x ++ m ++ y) ';').foldl parseCSSDecl props =
      (Split (x ++ m) ';').foldl parseCSSDecl props := by
    rw [e2, e1, List.foldl_append, List.foldl_append, List.foldl_cons, List.foldl_cons,
      List.foldl_nil, List.foldl_nil]
    exact parseCSSDecl_of_trim_eq _ _ _ (trimP_append_right isSpace last y hy)
  rw [step1, e4, e3, List.foldl_cons, List.foldl_cons,
    parseCSSDecl_of_trim_eq props (x ++ first) first (trimP_append_left isSpace x first hx)]

/-- C8. For a property block `s` holding no brace, wrapping `s` in one pair of
braces, with any white space before the opening brace, between the braces and
`s`, and after the closing brace, does not change what `parseCSS` returns. -/
theorem parseCSS_braces (s w1 w2 w3 w4 : Str)
    (hs : ∀ c ∈ s, isBrace c = false)
    (h1 : ∀ c ∈ w1, isSpace c = true) (h2 : ∀ c ∈ w2, isSpace c = true)
    (h3 : ∀ c ∈ w3, isSpace c = true) (h4 : ∀ c ∈ w4, isSpace c = true) :
    parseCSS (w1 ++ ['\x7b'] ++ w2 ++ s ++ w3 ++ ['\x7d'] ++ w4) = parseCSS s := by
  -- left-hand side: what is left after the two trimmings
  have eshape : w1 ++ ['\x7b'] ++ w2 ++ s ++ w3 ++ ['\x7d'] ++ w4 =
      w1 ++ (['\x7b'] ++ (w2 ++ s ++ w3) ++ ['\x7d']) ++ w4 := by
    simp only [List.append_assoc]
  have hcore : NoEdge isSpace (['\x7b'] ++ (w2 ++ s ++ w3) ++ ['\x7d']) := by
    constructor
    · intro c hc
      have hc2 : some '\x7b' = some c := hc
      cases hc2
      decide
    · intro c hc
      rw [List.getLast?_concat] at hc
      cases hc
      decide
  have hX : ∀ c ∈ w2 ++ s ++ w3, isBrace c = false := by
    intro c hc
    simp only [List.mem_append] at hc
    rcases hc with (hc | hc) | hc
    · exact isBrace_of_isSpace c (h2 c hc)
    · exact hs c hc
    · exact isBrace_of_isSpace c (h3 c hc)
  have hL : cssDeclarations (w1 ++ ['\x7b'] ++ w2 ++ s ++ w3 ++ ['\x7d'] ++ w4) =
      Split (w2 ++ s ++ w3) ';' := by
    unfold cssDeclarations
    rw [eshape, TrimSpace_eq_trimP, trimP_append_right isSpace _ w4 h4,
      trimP_append_left isSpace w1 _ h1, trimP_of_noEdge isSpace _ hcore,
      Trim_braces_eq_trimP,
      trimP_append_right isBrace _ ['\x7d'] (by intro a ha; simp at ha; subst ha; decide),
      trimP_append_left isBrace ['\x7b'] _ (by intro a ha; simp at ha; subst ha; decide),
      trimP_of_noEdge isBrace _ (noEdge_of_forall isBrace _ hX)]
  -- right-hand side
  have hR : cssDeclarations s = Split (TrimSpace s) ';' := by
    unfold cssDeclarations
    rw [Trim_braces_eq_trimP,
      trimP_of_noEdge isBrace (TrimSpace s)
        (noEdge_of_forall isBrace _ (fun c hc => hs c (mem_of_mem_trimP isSpace s c hc)))]
  obtain ⟨u1, u2, hu1, hu2, hdec⟩ := trimP_decompose isSpace s
  have hpad : w2 ++ s ++ w3 = (w2 ++ u1) ++ TrimSpace s ++ (u2 ++ w3) := by
    conv_lhs => rw [hdec]
    simp only [TrimSpace_eq_trimP, List.append_assoc]
  rw [parseCSS_eq_foldl, parseCSS_eq_foldl, hL, hR, hpad]
  apply foldl_parseCSSDecl_pad
  · intro c hc
    rcases List.mem_append.mp hc with h | h
    · exact h2 c h
    · exact hu1 c h
  · intro c hc
    rcases List.mem_append.mp hc with h | h
    · exact hu2 c h
    · exact h3 c h

theorem parseCSS_braces_witness :
    parseCSS "  \x7b font-weight: bold; text-align: center; \x7d  ".toList =
        parseCSS "font-weight: bold; text-align: center;".toList ∧
      parseCSS "  \x7b font-weight: bold; text-align: center; \x7d  ".toList
        "text-align".toList = some "center".toList :=
  ⟨parseCSS_braces "font-weight: bold; text-align: center;".toList "  ".toList " ".toList
      " ".toList "  ".toList (by decide) (by decide) (by decide) (by decide) (by decide),
    by decide⟩

/-! ### Writing a mapping out and parsing it again -/

theorem serializeDecl_eq (kv : Str × Str) : serializeDecl kv = declText kv ++ [';'] := by
  unfold serializeDecl declText
  simp

theorem serializeCSS_cons (kv : Str × Str) (E : List (Str × Str)) :
    serializeCSS (kv :: E) = declText kv ++ ';' :: serializeCSS E := by
  unfold serializeCSS
  rw [List.flatMap_cons, serializeDecl_eq]
  simp

theorem serializeCSS_last (E : List (Str × Str)) (h : E ≠ []) :
    ∃ i, serializeCSS E = i ++ [';'] := by
  induction E with
  | nil => exact absurd rfl h
  | cons kv t ih =>
    rw [serializeCSS_cons]
    cases t with
    | nil => exact ⟨declText kv, rfl⟩
    | cons kv2 t2 =>
      obtain ⟨i, hi⟩ := ih (List.cons_ne_nil _ _)
      exact ⟨declText kv ++ ';' :: i, by rw [hi]; simp⟩

theorem noEdge_serializeCSS (p : Char → Bool) (E : List (Str × Str))
    (hcolon : p ':' = false) (hsemi : p ';' = false)
    (hkeys : ∀ kv ∈ E, ∀ c, kv.1.head? = some c → p c = false) :
    NoEdge p (serializeCSS E) := by
  cases E with
  | nil => exact ⟨fun c hc => (by cases hc), fun c hc => (by cases hc)⟩
  | cons kv t =>
    constructor
    · intro c hc
      rw [serializeCSS_cons] at hc
      unfold declText at hc
      rw [List.append_assoc, List.head?_append] at hc
      cases hk : kv.1.head? with
      | none =>
        rw [hk] at hc
        have : some ':' = some c := hc
        cases this
        exact hcolon
      | some c2 =>
        rw [hk] at hc
        have : some c2 = some c := hc
        cases this
        exact hkeys kv (List.mem_cons_self _ _) c hk
    · intro c hc
      obtain ⟨i, hi⟩ := serializeCSS_last (kv :: t) (List.cons_ne_nil _ _)
      rw [hi, List.getLast?_concat] at hc
      cases hc
      exact hsemi

theorem Split_serializeCSS (E : List (Str × Str))
    (h : ∀ kv ∈ E, ';' ∉ kv.1 ∧ ';' ∉ kv.2) :
    Split (serializeCSS E) ';' = E.map declText ++ [[]] := by
  induction E with
  | nil => rfl
  | cons kv t ih =>
    have hkv := h kv (List.mem_cons_self _ _)
    have hd : ';' ∉ declText kv := by
      unfold declText
      intro hm
      simp only [List.mem_append, List.mem_cons] at hm
      rcases hm with h1 | h1 | h1 | h1
      · exact hkv.1 h1
      · exact absurd h1 (by decide)
      · exact absurd h1 (by decide)
      · exact hkv.2 h1
    rw [serializeCSS_cons, Split_append_sep _ _ _ hd,
      ih (fun kv2 h2 => h kv2 (List.mem_cons_of_mem _ h2))]
    rfl

theorem declKV_declText (kv : Str × Str) (hc : ':' ∉ kv.1)
    (hk : NoEdge isSpace kv.1) (hv : NoEdge isSpace kv.2) : declKV (declText kv) = some kv := by
  unfold declText
  rw [declKV_colon kv.1 (' ' :: kv.2) hc, TrimSpace_eq_trimP, TrimSpace_eq_trimP,
    trimP_of_noEdge isSpace kv.1 hk]
  have e : (' ' :: kv.2) = [' '] ++ kv.2 := rfl
  rw [e, trimP_append_left isSpace [' '] kv.2
      (by intro a ha; simp at ha; subst ha; exact isSpace_blank),
    trimP_of_noEdge isSpace kv.2 hv]

theorem filterMap_declKV_declText (E : List (Str × Str))
    (h : ∀ kv ∈ E, ':' ∉ kv.1 ∧ NoEdge isSpace kv.1 ∧ NoEdge isSpace kv.2) :
    (E.map declText ++ [[]]).filterMap declKV = E := by
  induction E with
  | nil => decide
  | cons kv t ih =>
    have hkv := h kv (List.mem_cons_self _ _)
    rw [List.map_cons, List.cons_append, List.filterMap_cons,
      declKV_declText kv hkv.1 hkv.2.1 hkv.2.2,
      ih (fun kv2 h2 => h kv2 (List.mem_cons_of_mem _ h2))]

theorem parseCSS_entry_shape (s k v : Str) (h : parseCSS s k = some v) :
    ':' ∉ k ∧ ';' ∉ k ∧ ';' ∉ v ∧ NoEdge isSpace k ∧ NoEdge isSpace v := by
  obtain ⟨seg, hseg, a, b, e, ha, hk, hv⟩ := parseCSS_some_origin s k v h
  have hsemi : ';' ∉ seg := not_mem_of_mem_Split _ _ seg hseg
  refine ⟨?_, ?_, ?_, ?_, ?_⟩
  · rw [hk]
    exact fun hm => ha (mem_of_mem_trimP isSpace a _ hm)
  · rw [hk]
    intro hm
    apply hsemi
    rw [e]
    exact List.mem_append_left _ (mem_of_mem_trimP isSpace a _ hm)
  · rw [hv]
    intro hm
    apply hsemi
    rw [e]
    exact List.mem_append_right _ (List.mem_cons_of_mem _ (mem_of_mem_trimP isSpace b _ hm))
  · rw [hk]; exact noEdge_TrimSpace a
  · rw [hv]; exact noEdge_TrimSpace b

/-- C9, as stated, fails: the block `;{b: 2` parses to the single entry with
key `{b`; written out as `{b: 2;` and parsed again, the leading brace is
trimmed away and the key becomes `b`. -/
theorem parseCSS_roundtrip_fails :
    Enumerates [("\x7bb".toList, "2".toList)] (parseCSS ";\x7bb: 2".toList) ∧
      parseCSS (serializeCSS [("\x7bb".toList, "2".toList)]) ≠
        parseCSS ";\x7bb: 2".toList := by
  have e : cssDeclarations ";\x7bb: 2".toList = [[], "\x7bb: 2".toList] := by decide
  have e2 : List.filterMap declKV [[], "\x7bb: 2".toList] =
      [("\x7bb".toList, "2".toList)] := by decide
  have hp : parseCSS ";\x7bb: 2".toList = GoMap.empty.set "\x7bb".toList "2".toList := by
    rw [parseCSS_eq_foldl, e, foldl_parseCSSDecl_eq, e2]
    rfl
  constructor
  · intro k v
    rw [hp]
    unfold GoMap.set GoMap.empty
    simp only [List.mem_singleton, Prod.mk.injEq]
    by_cases hk : k = "\x7bb".toList
    · rw [if_pos hk]
      constructor
      · rintro ⟨_, h2⟩; rw [h2]
      · intro h; exact ⟨hk, (Option.some.inj h).symm⟩
    · rw [if_neg hk]
      constructor
      · rintro ⟨h1, _⟩; exact absurd h1 hk
      · intro h; cases h
  · intro h
    have h2 := congrFun h "\x7bb".toList
    revert h2
    decide

/-- C9, amended. For a property block `s` none of whose parsed keys starts
with a brace: writing the entries of `parseCSS s`, in any order, as
`key: value;` declarations one after the other, and parsing that text, gives
a mapping equal to `parseCSS s`. -/
theorem parseCSS_roundtrip (s : Str) (entries : List (Str × Str))
    (henum : Enumerates entries (parseCSS s))
    (hkeys : ∀ k v, parseCSS s k = some v → ∀ c, k.head? = some c → isBrace c = false) :
    parseCSS (serializeCSS entries) = parseCSS s := by
  have hshape : ∀ kv ∈ entries,
      ':' ∉ kv.1 ∧ ';' ∉ kv.1 ∧ ';' ∉ kv.2 ∧ NoEdge isSpace kv.1 ∧ NoEdge isSpace kv.2 :=
    fun kv hkv => parseCSS_entry_shape s kv.1 kv.2 ((henum kv.1 kv.2).mp hkv)
  have hsp : NoEdge isSpace (serializeCSS entries) :=
    noEdge_serializeCSS isSpace entries isSpace_colon isSpace_semicolon
      (fun kv hkv c hc => (hshape kv hkv).2.2.2.1.1 c hc)
  have hbr : NoEdge isBrace (serializeCSS entries) :=
    noEdge_serializeCSS isBrace entries (by decide) (by decide)
      (fun kv hkv c hc => hkeys kv.1 kv.2 ((henum kv.1 kv.2).mp hkv) c hc)
  have hdecls : cssDeclarations (serializeCSS entries) = entries.map declText ++ [[]] := by
    unfold cssDeclarations
    rw [TrimSpace_eq_trimP, trimP_of_noEdge isSpace _ hsp, Trim_braces_eq_trimP,
      trimP_of_noEdge isBrace _ hbr,
      Split_serializeCSS entries (fun kv hkv => ⟨(hshape kv hkv).2.1, (hshape kv hkv).2.2.1⟩)]
  have hfun : ∀ k v1 v2, (k, v1) ∈ entries → (k, v2) ∈ entries → v1 = v2 := by
    intro k v1 v2 h1 h2
    have e1 := (henum k v1).mp h1
    have e2 := (henum k v2).mp h2
    rw [e1] at e2
    exact Option.some.inj e2
  funext k
  rw [parseCSS_eq_foldl, hdecls, foldl_parseCSSDecl_eq,
    filterMap_declKV_declText entries
      (fun kv hkv => ⟨(hshape kv hkv).1, (hshape kv hkv).2.2.2.1, (hshape kv hkv).2.2.2.2⟩)]
  apply Option.ext
  intro v
  rw [Option.mem_def, Option.mem_def, foldl_setKV_functional entries hfun k v]
  exact henum k v

theorem parseCSS_roundtrip_witness :
    parseCSS (serializeCSS [("color".toList, "#FF0000".toList), ("width".toList, "300".toList)]) =
      parseCSS "  color: #FF0000  ;  width: 300  ".toList := by
  have e : cssDeclarations "  color: #FF0000  ;  width: 300  ".toList =
      ["color: #FF0000  ".toList, "  width: 300".toList] := by decide
  have e2 : List.filterMap declKV ["color: #FF0000  ".toList, "  width: 300".toList] =
      [("color".toList, "#FF0000".toList), ("width".toList, "300".toList)] := by decide
  have hp : ∀ k, parseCSS "  color: #FF0000  ;  width: 300  ".toList k =
      if k = "width".toList then some "300".toList
      else if k = "color".toList then some "#FF0000".toList else none := by
    intro k
    rw [parseCSS_eq_foldl, e, foldl_parseCSSDecl_eq, e2]
    rfl
  apply parseCSS_roundtrip
  · intro k v
    rw [hp]
    simp only [List.mem_cons, List.mem_singleton, Prod.mk.injEq, List.not_mem_nil, or_false]
    by_cases h1 : k = "width".toList
    · rw [if_pos h1]
      constructor
      · rintro (⟨hk, _⟩ | ⟨_, hv⟩)
        · rw [h1] at hk; exact absurd hk (by decide)
        · rw [hv]
      · intro h; exact Or.inr ⟨h1, (Option.some.inj h).symm⟩
    · rw [if_neg h1]
      by_cases h2 : k = "color".toList
      · rw [if_pos h2]
        constructor
        · rintro (⟨_, hv⟩ | ⟨hk, _⟩)
          · rw [hv]
          · exact absurd hk h1
        · intro h; exact Or.inl ⟨h2, (Option.some.inj h).symm⟩
      · rw [if_neg h2]
        constructor
        · rintro (⟨hk, _⟩ | ⟨hk, _⟩)
          · exact absurd hk h2
          · exact absurd hk h1
        · intro h; cases h
  · intro k v
    rw [hp]
    by_cases h1 : k = "width".toList
    · intro _ c hc; rw [h1] at hc; cases hc; decide
    · rw [if_neg h1]
      by_cases h2 : k = "color".toList
      · intro _ c hc; rw [h2] at hc; cases hc; decide
      · rw [if_neg h2]; intro h; cases h

/-! ### Colours -/

theorem NamedColorParser_CanParse_trim (s : Str) :
    NamedColorParser.CanParse (TrimSpace s) = NamedColorParser.CanParse s := by
  unfold NamedColorParser.CanParse
  rw [TrimSpace_idem]

theorem HexColorParser_CanParse_trim (s : Str) :
    HexColorParser.CanParse (TrimSpace s) = HexColorParser.CanParse s := by
  unfold HexColorParser.CanParse
  rw [TrimSpace_idem]

theorem RGBColorParser_CanParse_trim (s : Str) :
    RGBColorParser.CanParse (TrimSpace s) = RGBColorParser.CanParse s := by
  unfold RGBColorParser.CanParse
  rw [TrimSpace_idem]

theorem parseColorLoop_none (s : Str) (h1 : NamedColorParser.CanParse s = false)
    (h2 : HexColorParser.CanParse s = false) (h3 : RGBColorParser.CanParse s = false) :
    parseColorLoop colorParsers s = none := by
  simp [colorParsers, parseColorLoop, h1, h2, h3]

/-- C10. `parseColor` is a total function, and it returns `color.Black`,
whose red, green and blue are 0, for the empty string, for a string of white
space only, and for every string that none of the three recognisers accepts
(each `CanParse` is false). -/
theorem parseColor_fallback_black (s : Str)
    (h : (∀ c ∈ s, isSpace c = true) ∨
      (NamedColorParser.CanParse s = false ∧ HexColorParser.CanParse s = false ∧
        RGBColorParser.CanParse s = false)) :
    parseColor s = Color.Black ∧ (parseColor s).rgba16 = (0, 0, 0, 0xffff) := by
  have hb : parseColor s = Color.Black := by
    unfold parseColor
    rcases h with h | ⟨h1, h2, h3⟩
    · have e : TrimSpace s = [] := trimP_eq_nil isSpace s h
      dsimp only
      rw [if_pos e]
    · dsimp only
      rw [parseColorLoop_none (TrimSpace s) (by rw [NamedColorParser_CanParse_trim, h1])
        (by rw [HexColorParser_CanParse_trim, h2]) (by rw [RGBColorParser_CanParse_trim, h3])]
      simp
  exact ⟨hb, by rw [hb]; rfl⟩

theorem parseColor_fallback_black_witness :
    parseColor [] = Color.Black ∧ parseColor "  ".toList = Color.Black ∧
      parseColor "foobar".toList = Color.Black ∧ parseColor "#12".toList = Color.Black :=
  ⟨(parseColor_fallback_black [] (Or.inl (by decide))).1,
    (parseColor_fallback_black "  ".toList (Or.inl (by decide))).1,
    (parseColor_fallback_black "foobar".toList (Or.inr (by decide))).1,
    (parseColor_fallback_black "#12".toList (Or.inr (by decide))).1⟩

/-! ### Named colours -/

theorem TrimSpace_pad (w1 core w2 : Str) (h1 : ∀ c ∈ w1, isSpace c = true)
    (h2 : ∀ c ∈ w2, isSpace c = true) (hc : NoEdge isSpace core) :
    TrimSpace (w1 ++ core ++ w2) = core := by
  rw [TrimSpace_eq_trimP, trimP_append_right isSpace _ w2 h2,
    trimP_append_left isSpace w1 core h1, trimP_of_noEdge isSpace core hc]

theorem toLowerRune_of_isSpace (c : Char) (h : isSpace c = true) : toLowerRune c = c := by
  unfold isSpace isSpaceRune at h
  simp only [Bool.or_eq_true, Bool.and_eq_true, decide_eq_true_eq, beq_iff_eq] at h
  unfold toLowerRune
  have h1 : ¬ (0x41 ≤ c.toNat ∧ c.toNat ≤ 0x5A) := by omega
  have h2 : ¬ c.toNat = 0x130 := by omega
  have h3 : ¬ c.toNat = 0x212A := by omega
  rw [if_neg h1, if_neg h2, if_neg h3]

theorem noEdge_of_ToLower (core name : Str) (h : ToLower core = name)
    (hn : NoEdge isSpace name) : NoEdge isSpace core := by
  unfold ToLower at h
  constructor
  · intro c hc
    by_contra hs
    have hs2 : isSpace c = true := by simpa using hs
    have hh : name.head? = some (toLowerRune c) := by
      rw [← h, List.head?_map, hc]; rfl
    have := hn.1 _ hh
    rw [toLowerRune_of_isSpace c hs2, hs2] at this
    cases this
  · intro c hc
    by_contra hs
    have hs2 : isSpace c = true := by simpa using hs
    have hh : name.getLast? = some (toLowerRune c) := by
      rw [← h, List.getLast?_map, hc]; rfl
    have := hn.2 _ hh
    rw [toLowerRune_of_isSpace c hs2, hs2] at this
    cases this

theorem NamedColorParser_Parse_trim (s : Str) :
    NamedColorParser.Parse (TrimSpace s) = NamedColorParser.Parse s := by
  unfold NamedColorParser.Parse
  rw [TrimSpace_idem]

theorem parseColor_of_named (s : Str) (col : Color) (hne : TrimSpace s ≠ [])
    (hc : NamedColorParser.CanParse s = true) (hp : NamedColorParser.Parse s = some col) :
    parseColor s = col := by
  unfold parseColor
  dsimp only
  rw [if_neg hne]
  simp only [colorParsers, parseColorLoop, NamedColorParser_CanParse_trim, hc, if_true,
    NamedColorParser_Parse_trim, hp]

/-- C11. Each of the eight colour names, in any letter case (`ToLower` of the
written form is the name) and with any white space around it, is accepted by
`NamedColorParser.CanParse`, parsed without error by `NamedColorParser.Parse`,
and `parseColor` returns that colour, whose red, green and blue are those of
the table and whose alpha is full. -/
theorem parseColor_named (name : Str) (r g b : Nat)
    (hmem : (name, (r, g, b)) ∈ namedColorTable) (w1 core w2 : Str)
    (h1 : ∀ c ∈ w1, isSpace c = true) (h2 : ∀ c ∈ w2, isSpace c = true)
    (hcase : ToLower core = name) :
    NamedColorParser.CanParse (w1 ++ core ++ w2) = true ∧
      ∃ col, NamedColorParser.Parse (w1 ++ core ++ w2) = some col ∧
        parseColor (w1 ++ core ++ w2) = col ∧
        col.rgba16 = (Color.RGBA r g b 255).rgba16 := by
  have hname : NoEdge isSpace name ∧ name ≠ [] := by
    simp only [namedColorTable, List.mem_cons, Prod.mk.injEq, List.mem_singleton,
      List.not_mem_nil, or_false] at hmem
    rcases hmem with ⟨rfl, _⟩ | ⟨rfl, _⟩ | ⟨rfl, _⟩ | ⟨rfl, _⟩ | ⟨rfl, _⟩ | ⟨rfl, _⟩ |
      ⟨rfl, _⟩ | ⟨rfl, _⟩ <;>
    exact ⟨⟨fun c hc => (by cases hc; decide), fun c hc => (by cases hc; decide)⟩, by decide⟩
  have hT : TrimSpace (w1 ++ core ++ w2) = core :=
    TrimSpace_pad w1 core w2 h1 h2 (noEdge_of_ToLower core name hcase hname.1)
  have hne : TrimSpace (w1 ++ core ++ w2) ≠ [] := by
    rw [hT]
    intro e
    rw [e] at hcase
    exact hname.2 hcase.symm
  have hcan : NamedColorParser.CanParse (w1 ++ core ++ w2) = true := by
    unfold NamedColorParser.CanParse
    dsimp only
    rw [hT, hcase]
    simp only [namedColorTable, List.mem_cons, Prod.mk.injEq, List.mem_singleton,
      List.not_mem_nil, or_false] at hmem
    rcases hmem with ⟨rfl, _⟩ | ⟨rfl, _⟩ | ⟨rfl, _⟩ | ⟨rfl, _⟩ | ⟨rfl, _⟩ | ⟨rfl, _⟩ |
      ⟨rfl, _⟩ | ⟨rfl, _⟩ <;> decide
  have hparse : ∃ col, NamedColorParser.Parse (w1 ++ core ++ w2) = some col ∧
      col.rgba16 = (Color.RGBA r g b 255).rgba16 := by
    unfold NamedColorParser.Parse
    dsimp only
    rw [hT, hcase]
    simp only [namedColorTable, List.mem_cons, Prod.mk.injEq, List.mem_singleton,
      List.not_mem_nil, or_false] at hmem
    rcases hmem with ⟨rfl, rfl, rfl, rfl⟩ | ⟨rfl, rfl, rfl, rfl⟩ | ⟨rfl, rfl, rfl, rfl⟩ |
      ⟨rfl, rfl, rfl, rfl⟩ | ⟨rfl, rfl, rfl, rfl⟩ | ⟨rfl, rfl, rfl, rfl⟩ |
      ⟨rfl, rfl, rfl, rfl⟩ | ⟨rfl, rfl, rfl, rfl⟩ <;>
    exact ⟨_, rfl, by decide⟩
  obtain ⟨col, hp, hrgb⟩ := hparse
  exact ⟨hcan, col, hp, parseColor_of_named _ col hne hcan hp, hrgb⟩

theorem parseColor_named_witness :
    NamedColorParser.CanParse "  MaGenta\t".toList = true ∧
      parseColor "  MaGenta\t".toList = Color.RGBA 255 0 255 255 ∧
      parseColor "WHITE".toList = Color.White ∧
      Color.White.rgba16 = (Color.RGBA 255 255 255 255).rgba16 := by
  have h := parseColor_named "magenta".toList 255 0 255 (by decide) "  ".toList
    "MaGenta".toList "\t".toList (by decide) (by decide) (by decide)
  exact ⟨h.1, by decide, by decide, by decide⟩

/-! ### Hexadecimal colours -/

theorem utf8Bytes_cons (c : Char) (s : Str) :
    utf8Bytes (c :: s) = utf8EncodeRune c ++ utf8Bytes s := by
  unfold utf8Bytes
  rw [List.flatMap_cons]

theorem utf8Bytes_nil : utf8Bytes [] = [] := rfl

theorem utf8EncodeRune_ascii (c : Char) (h : c.toNat < 0x80) : utf8EncodeRune c = [c.toNat] := by
  unfold utf8EncodeRune
  simp [h]

theorem isHexDigitChar_lt (c : Char) (h : isHexDigitChar c = true) : c.toNat < 0x80 := by
  unfold isHexDigitChar isHexDigitRune at h
  simp only [Bool.or_eq_true, Bool.and_eq_true, decide_eq_true_eq] at h
  omega

theorem isHexDigitChar_not_space (c : Char) (h : isHexDigitChar c = true) :
    isSpace c = false := by
  unfold isHexDigitChar isHexDigitRune at h
  simp only [Bool.or_eq_true, Bool.and_eq_true, decide_eq_true_eq] at h
  unfold isSpace isSpaceRune
  simp only [Bool.or_eq_false_iff, Bool.and_eq_false_iff, decide_eq_false_iff_not,
    beq_eq_false_iff_ne]
  omega

theorem Sscanf02x_hex_pair (x y : Nat) (hx : isHexDigitRune x = true)
    (hy : isHexDigitRune y = true) :
    Sscanf02x [x, y] = some (16 * hexDigitValue x + hexDigitValue y) := by
  have hx2 := hx
  have hy2 := hy
  unfold isHexDigitRune at hx2 hy2
  simp only [Bool.or_eq_true, Bool.and_eq_true, decide_eq_true_eq] at hx2 hy2
  have hxl : x < 0x80 := by omega
  have hyl : y < 0x80 := by omega
  have hxn : ¬ x = 0x0A := by omega
  have hxs : isSpaceRune x = false := by
    unfold isSpaceRune
    simp only [Bool.or_eq_false_iff, Bool.and_eq_false_iff, decide_eq_false_iff_not,
      beq_eq_false_iff_ne]
    omega
  have hd : decodeRunes [x, y] = [x, y] := by
    simp [decodeRunes, hxl, hyl]
  unfold Sscanf02x
  rw [hd]
  simp [skipSpace, hxn, hxs, List.takeWhile, hx, hy]
  omega

theorem NamedColorParser_CanParse_hash (s rest : Str) (h : TrimSpace s = '#' :: rest) :
    NamedColorParser.CanParse s = false := by
  unfold NamedColorParser.CanParse
  dsimp only
  rw [h]
  have e : ToLower ('#' :: rest) = '#' :: ToLower rest := by
    unfold ToLower
    rw [List.map_cons]
    rfl
  rw [e]
  simp

theorem RGBColorParser_CanParse_hash (s rest : Str) (h : TrimSpace s = '#' :: rest) :
    RGBColorParser.CanParse s = false := by
  unfold RGBColorParser.CanParse HasPrefix
  dsimp only
  rw [h]
  simp [List.isPrefixOf]

theorem HexColorParser_Parse_trim (s : Str) :
    HexColorParser.Parse (TrimSpace s) = HexColorParser.Parse s := by
  unfold HexColorParser.Parse
  rw [TrimSpace_idem]

theorem RGBColorParser_Parse_trim (s : Str) :
    RGBColorParser.Parse (TrimSpace s) = RGBColorParser.Parse s := by
  unfold RGBColorParser.Parse
  rw [TrimSpace_idem]

theorem parseColor_of_hash (s rest : Str) (h : TrimSpace s = '#' :: rest) :
    parseColor s =
      if HexColorParser.CanParse s = true then (HexColorParser.Parse s).getD Color.Black
      else Color.Black := by
  have hne : TrimSpace s ≠ [] := by rw [h]; exact List.cons_ne_nil _ _
  unfold parseColor
  dsimp only
  rw [if_neg hne]
  simp only [colorParsers, parseColorLoop, NamedColorParser_CanParse_trim,
    NamedColorParser_CanParse_hash s rest h, HexColorParser_CanParse_trim,
    RGBColorParser_CanParse_trim, RGBColorParser_CanParse_hash s rest h,
    HexColorParser_Parse_trim]
  by_cases hc : HexColorParser.CanParse s = true
  · rw [if_pos hc]
    simp only [hc, if_true]
    cases HexColorParser.Parse s <;> simp
  · rw [if_neg hc]
    simp [hc]

theorem hexBytes_of_hash (s rest : Str) (h : TrimSpace s = '#' :: rest) :
    (utf8Bytes (TrimSpace s)).drop 1 = utf8Bytes rest := by
  rw [h, utf8Bytes_cons, utf8EncodeRune_ascii '#' (by decide)]
  rfl

theorem HexColorParser_CanParse_hash (s rest : Str) (h : TrimSpace s = '#' :: rest) :
    HexColorParser.CanParse s =
      ((utf8Bytes rest).length == 3 || (utf8Bytes rest).length == 6) := by
  unfold HexColorParser.CanParse
  dsimp only
  rw [hexBytes_of_hash s rest h, h]
  simp [HasPrefix, List.isPrefixOf]

theorem HexColorParser_Parse_six (s rest : Str) (h : TrimSpace s = '#' :: rest)
    (b0 b1 b2 b3 b4 b5 : Nat) (hb : utf8Bytes rest = [b0, b1, b2, b3, b4, b5]) :
    HexColorParser.Parse s =
      match Sscanf02x [b0, b1] with
      | none => none
      | some r =>
        match Sscanf02x [b2, b3] with
        | none => none
        | some g =>
          match Sscanf02x [b4, b5] with
          | none => none
          | some b => some (Color.RGBA r g b 255) := by
  unfold HexColorParser.Parse
  dsimp only
  rw [hexBytes_of_hash s rest h, h, hb]
  simp [HasPrefix, List.isPrefixOf, byteSlice]

theorem HexColorParser_Parse_three (s rest : Str) (h : TrimSpace s = '#' :: rest)
    (b0 b1 b2 : Nat) (hb : utf8Bytes rest = [b0, b1, b2]) :
    HexColorParser.Parse s =
      match Sscanf02x [b0, b0] with
      | none => none
      | some r =>
        match Sscanf02x [b1, b1] with
        | none => none
        | some g =>
          match Sscanf02x [b2, b2] with
          | none => none
          | some b => some (Color.RGBA r g b 255) := by
  unfold HexColorParser.Parse
  dsimp only
  rw [hexBytes_of_hash s rest h, h, hb]
  simp [HasPrefix, List.isPrefixOf, byteSlice]

theorem TrimSpace_hash_hex (rest : Str) (h : ∀ c ∈ rest, isHexDigitChar c = true) :
    TrimSpace ('#' :: rest) = '#' :: rest := by
  rw [TrimSpace_eq_trimP]
  apply trimP_of_noEdge
  apply noEdge_of_forall
  intro c hc
  rcases List.mem_cons.mp hc with rfl | hc
  · decide
  · exact isHexDigitChar_not_space c (h c hc)

theorem utf8Bytes_hex (rest : Str) (h : ∀ c ∈ rest, isHexDigitChar c = true) :
    utf8Bytes rest = rest.map Char.toNat := by
  induction rest with
  | nil => rfl
  | cons c t ih =>
    rw [utf8Bytes_cons, utf8EncodeRune_ascii c (isHexDigitChar_lt c (h c (List.mem_cons_self _ _))),
      ih (fun x hx => h x (List.mem_cons_of_mem _ hx))]
    rfl

/-- C12. For hexadecimal digits `a`, `b`, `c` of either letter case,
`parseColor` of `#abc` and of `#aabbcc` are the same colour: the opaque one
whose red, green and blue are the two-digit numbers `aa`, `bb`, `cc`. -/
theorem parseColor_hex_short (a b c : Char) (ha : isHexDigitChar a = true)
    (hb : isHexDigitChar b = true) (hc : isHexDigitChar c = true) :
    parseColor ['#', a, b, c] = parseColor ['#', a, a, b, b, c, c] ∧
      parseColor ['#', a, a, b, b, c, c] =
        Color.RGBA (16 * hexVal a + hexVal a) (16 * hexVal b + hexVal b)
          (16 * hexVal c + hexVal c) 255 := by
  have h3 : ∀ x ∈ [a, b, c], isHexDigitChar x = true := by
    intro x hx
    simp only [List.mem_cons, List.mem_singleton, List.not_mem_nil, or_false] at hx
    rcases hx with rfl | rfl | rfl <;> assumption
  have h6 : ∀ x ∈ [a, a, b, b, c, c], isHexDigitChar x = true := by
    intro x hx
    simp only [List.mem_cons, List.mem_singleton, List.not_mem_nil, or_false] at hx
    rcases hx with rfl | rfl | rfl | rfl | rfl | rfl <;> assumption
  have t3 := TrimSpace_hash_hex [a, b, c] h3
  have t6 := TrimSpace_hash_hex [a, a, b, b, c, c] h6
  have b3 : utf8Bytes [a, b, c] = [a.toNat, b.toNat, c.toNat] := utf8Bytes_hex _ h3
  have b6 : utf8Bytes [a, a, b, b, c, c] =
      [a.toNat, a.toNat, b.toNat, b.toNat, c.toNat, c.toNat] := utf8Bytes_hex _ h6
  have e3 : parseColor ['#', a, b, c] =
      Color.RGBA (16 * hexVal a + hexVal a) (16 * hexVal b + hexVal b)
        (16 * hexVal c + hexVal c) 255 := by
    rw [parseColor_of_hash _ _ t3, HexColorParser_CanParse_hash _ _ t3,
      HexColorParser_Parse_three _ _ t3 _ _ _ b3, b3,
      Sscanf02x_hex_pair _ _ ha ha, Sscanf02x_hex_pair _ _ hb hb, Sscanf02x_hex_pair _ _ hc hc]
    rfl
  have e6 : parseColor ['#', a, a, b, b, c, c] =
      Color.RGBA (16 * hexVal a + hexVal a) (16 * hexVal b + hexVal b)
        (16 * hexVal c + hexVal c) 255 := by
    rw [parseColor_of_hash _ _ t6, HexColorParser_CanParse_hash _ _ t6,
      HexColorParser_Parse_six _ _ t6 _ _ _ _ _ _ b6, b6,
      Sscanf02x_hex_pair _ _ ha ha, Sscanf02x_hex_pair _ _ hb hb, Sscanf02x_hex_pair _ _ hc hc]
    rfl
  exact ⟨e3.trans e6.symm, e6⟩

theorem parseColor_hex_short_witness :
    parseColor "#F0a".toList = parseColor "#FF00aa".toList ∧
      parseColor "#FF00aa".toList = Color.RGBA 255 0 170 255 :=
  parseColor_hex_short 'F' '0' 'a' (by decide) (by decide) (by decide)

/-- C13, the code at the failing input `#fgfgfg`: each pair `fg` is scanned
by `Sscanf("%02x")` as the one digit `f`, so `Parse` reports no error and
`parseColor` returns the colour (15, 15, 15) instead of black. -/
theorem HexColorParser_accepts_fgfgfg :
    HexColorParser.CanParse "#fgfgfg".toList = true ∧
      HexColorParser.Parse "#fgfgfg".toList = some (Color.RGBA 15 15 15 255) ∧
      parseColor "#fgfgfg".toList = Color.RGBA 15 15 15 255 ∧
      parseColor "#fgfgfg".toList ≠ Color.Black ∧
      parseColor "#GGGGGG".toList = Color.Black := by
  decide

/-! ### Functional notation `rgb(r, g, b)` -/

theorem NamedColorParser_CanParse_rgb (s rest : Str)
    (h : TrimSpace s = 'r' :: 'g' :: 'b' :: '(' :: rest) :
    NamedColorParser.CanParse s = false := by
  unfold NamedColorParser.CanParse
  dsimp only
  rw [h]
  have e : ToLower ('r' :: 'g' :: 'b' :: '(' :: rest) =
      'r' :: 'g' :: 'b' :: '(' :: ToLower rest := by
    unfold ToLower
    simp only [List.map_cons]
    rfl
  rw [e]
  simp

theorem HexColorParser_CanParse_rgb (s rest : Str)
    (h : TrimSpace s = 'r' :: 'g' :: 'b' :: '(' :: rest) :
    HexColorParser.CanParse s = false := by
  unfold HexColorParser.CanParse HasPrefix
  dsimp only
  rw [h]
  simp [List.isPrefixOf]

theorem parseColor_of_rgb (s rest : Str)
    (h : TrimSpace s = 'r' :: 'g' :: 'b' :: '(' :: rest) :
    parseColor s =
      if RGBColorParser.CanParse s = true then (RGBColorParser.Parse s).getD Color.Black
      else Color.Black := by
  have hne : TrimSpace s ≠ [] := by rw [h]; exact List.cons_ne_nil _ _
  unfold parseColor
  dsimp only
  rw [if_neg hne]
  simp only [colorParsers, parseColorLoop, NamedColorParser_CanParse_trim,
    NamedColorParser_CanParse_rgb s rest h, HexColorParser_CanParse_trim,
    HexColorParser_CanParse_rgb s rest h, RGBColorParser_CanParse_trim,
    RGBColorParser_Parse_trim]
  by_cases hc : RGBColorParser.CanParse s = true
  · rw [if_pos hc]
    simp only [hc, if_true]
    cases RGBColorParser.Parse s <;> simp
  · rw [if_neg hc]
    simp [hc]

theorem TrimSpace_rgb_form (body : Str) :
    TrimSpace ("rgb(".toList ++ body ++ [')']) = "rgb(".toList ++ body ++ [')'] := by
  rw [TrimSpace_eq_trimP]
  apply trimP_of_noEdge
  constructor
  · intro c hc
    have : some 'r' = some c := hc
    cases this
    decide
  · intro c hc
    rw [List.getLast?_concat] at hc
    cases hc
    decide

theorem rgb_form_values (body : Str) :
    TrimSuffix (TrimPrefix ("rgb(".toList ++ body ++ [')']) "rgb(".toList) [')'] = body := by
  have e1 : HasPrefix ("rgb(".toList ++ body ++ [')']) "rgb(".toList = true := by
    unfold HasPrefix
    rw [List.append_assoc]
    exact List.isPrefixOf_iff_prefix.mpr (List.prefix_append _ _)
  have e2 : HasSuffix (body ++ [')']) [')'] = true := by
    unfold HasSuffix
    exact List.isSuffixOf_iff_suffix.mpr (List.suffix_append _ _)
  unfold TrimPrefix
  rw [if_pos e1]
  have e3 : ("rgb(".toList ++ body ++ [')']).drop "rgb(".toList.length = body ++ [')'] := by
    rw [List.append_assoc, List.drop_left]
  rw [e3]
  unfold TrimSuffix
  rw [if_pos e2]
  simp

theorem rgb_form_CanParse (body : Str) :
    RGBColorParser.CanParse ("rgb(".toList ++ body ++ [')']) = true := by
  unfold RGBColorParser.CanParse
  dsimp only
  rw [TrimSpace_rgb_form]
  have e1 : HasPrefix ("rgb(".toList ++ body ++ [')']) "rgb(".toList = true := by
    unfold HasPrefix
    rw [List.append_assoc]
    exact List.isPrefixOf_iff_prefix.mpr (List.prefix_append _ _)
  have e2 : HasSuffix ("rgb(".toList ++ body ++ [')']) [')'] = true := by
    unfold HasSuffix
    exact List.isSuffixOf_iff_suffix.mpr (List.suffix_append _ _)
  rw [e1, e2]
  rfl

theorem rgbComponent_eq_some (p : Str) (r : Nat) :
    rgbComponent p = some r ↔ Atoi (TrimSpace p) = some (r : Int) ∧ r ≤ 255 := by
  unfold rgbComponent
  cases h : Atoi (TrimSpace p) with
  | none => simp
  | some v =>
    dsimp only
    by_cases hv : 0 ≤ v ∧ v ≤ 255
    · rw [if_pos hv]
      constructor
      · intro e
        have e2 : v.toNat = r := Option.some.inj e
        subst e2
        refine ⟨by rw [Int.toNat_of_nonneg hv.1], ?_⟩
        omega
      · rintro ⟨e, _⟩
        have e2 : v = (r : Int) := Option.some.inj e
        subst e2
        simp
    · rw [if_neg hv]
      constructor
      · intro e; cases e
      · rintro ⟨e, hr⟩
        have e2 : v = (r : Int) := Option.some.inj e
        subst e2
        exact absurd ⟨by omega, by omega⟩ hv

theorem RGBColorParser_Parse_form (body : Str) :
    RGBColorParser.Parse ("rgb(".toList ++ body ++ [')']) =
      match Split body ',' with
      | [p0, p1, p2] =>
        match rgbComponent p0 with
        | none => none
        | some r =>
          match rgbComponent p1 with
          | none => none
          | some g =>
            match rgbComponent p2 with
            | none => none
            | some b => some (Color.RGBA r g b 255)
      | _ => none := by
  have hc := rgb_form_CanParse body
  unfold RGBColorParser.CanParse at hc
  dsimp only at hc
  rw [TrimSpace_rgb_form] at hc
  simp only [Bool.and_eq_true] at hc
  unfold RGBColorParser.Parse
  dsimp only
  rw [TrimSpace_rgb_form, rgb_form_values]
  simp only [hc.1, hc.2, Bool.not_true, Bool.or_self, Bool.false_eq_true, if_false]

/-- C14. For a string `rgb(` body `)`: `RGBColorParser.Parse` succeeds exactly
when the body splits at `,` into three parts each of which, trimmed, is an
integer literal (what `strconv.Atoi` accepts: an optional sign and decimal
digits) with a value from 0 to 255; the result is then the opaque colour with
those three values, and `parseColor` returns it; in every other case `Parse`
reports an error and `parseColor` returns black. -/
theorem RGBColorParser_Parse_spec (body : Str) :
    (∀ col, RGBColorParser.Parse ("rgb(".toList ++ body ++ [')']) = some col ↔
      ∃ (p0 p1 p2 : Str) (r g b : Nat), Split body ',' = [p0, p1, p2] ∧
        (Atoi (TrimSpace p0) = some (r : Int) ∧ r ≤ 255) ∧
        (Atoi (TrimSpace p1) = some (g : Int) ∧ g ≤ 255) ∧
        (Atoi (TrimSpace p2) = some (b : Int) ∧ b ≤ 255) ∧
        col = Color.RGBA r g b 255) ∧
    (∀ col, RGBColorParser.Parse ("rgb(".toList ++ body ++ [')']) = some col →
      parseColor ("rgb(".toList ++ body ++ [')']) = col) ∧
    (RGBColorParser.Parse ("rgb(".toList ++ body ++ [')']) = none →
      parseColor ("rgb(".toList ++ body ++ [')']) = Color.Black) := by
  have hpc : parseColor ("rgb(".toList ++ body ++ [')']) =
      (RGBColorParser.Parse ("rgb(".toList ++ body ++ [')'])).getD Color.Black := by
    have hT : TrimSpace ("rgb(".toList ++ body ++ [')']) =
        'r' :: 'g' :: 'b' :: '(' :: (body ++ [')']) := by
      rw [TrimSpace_rgb_form]; rfl
    rw [parseColor_of_rgb _ _ hT, if_pos (rgb_form_CanParse body)]
  refine ⟨?_, ?_, ?_⟩
  · intro col
    rw [RGBColorParser_Parse_form]
    constructor
    · intro h
      split at h
      · next p0 p1 p2 hsplit =>
        cases h0 : rgbComponent p0 with
        | none => rw [h0] at h; cases h
        | some r =>
          cases h1 : rgbComponent p1 with
          | none => rw [h0, h1] at h; cases h
          | some g =>
            cases h2 : rgbComponent p2 with
            | none => rw [h0, h1, h2] at h; cases h
            | some b =>
              rw [h0, h1, h2] at h
              exact ⟨p0, p1, p2, r, g, b, hsplit, (rgbComponent_eq_some p0 r).mp h0,
                (rgbComponent_eq_some p1 g).mp h1, (rgbComponent_eq_some p2 b).mp h2,
                (Option.some.inj h).symm⟩
      · cases h
    · rintro ⟨p0, p1, p2, r, g, b, hsplit, h0, h1, h2, rfl⟩
      rw [hsplit]
      dsimp only
      rw [(rgbComponent_eq_some p0 r).mpr h0, (rgbComponent_eq_some p1 g).mpr h1,
        (rgbComponent_eq_some p2 b).mpr h2]
  · intro col h
    rw [hpc, h]
    rfl
  · intro h
    rw [hpc, h]
    rfl

theorem RGBColorParser_Parse_spec_witness :
    RGBColorParser.Parse "rgb( 128 , 64 , 32 )".toList = some (Color.RGBA 128 64 32 255) ∧
      parseColor "rgb( 128 , 64 , 32 )".toList = Color.RGBA 128 64 32 255 ∧
      RGBColorParser.Parse "rgb(300, 0, 0)".toList = none ∧
      parseColor "rgb(300, 0, 0)".toList = Color.Black ∧
      RGBColorParser.Parse "rgb(255, 0)".toList = none ∧
      RGBColorParser.Parse "rgb(255, 0, 0, 0)".toList = none ∧
      RGBColorParser.Parse "rgb(1.5, 0, 0)".toList = none := by
  have h := RGBColorParser_Parse_spec " 128 , 64 , 32 ".toList
  have hp : RGBColorParser.Parse "rgb( 128 , 64 , 32 )".toList =
      some (Color.RGBA 128 64 32 255) :=
    (h.1 (Color.RGBA 128 64 32 255)).mpr
      ⟨" 128 ".toList, " 64 ".toList, " 32 ".toList, 128, 64, 32, by decide,
        ⟨by decide, by decide⟩, ⟨by decide, by decide⟩, ⟨by decide, by decide⟩, rfl⟩
  have h300 : RGBColorParser.Parse "rgb(300, 0, 0)".toList = none := by decide
  exact ⟨hp, h.2.1 _ hp, h300,
    (RGBColorParser_Parse_spec "300, 0, 0".toList).2.2 h300, by decide, by decide, by decide⟩

/-! ### The recognisers exclude one another -/

theorem hash_of_HexColorParser_CanParse (s : Str) (h : HexColorParser.CanParse s = true) :
    ∃ rest, TrimSpace s = '#' :: rest := by
  unfold HexColorParser.CanParse HasPrefix at h
  dsimp only at h
  cases hT : TrimSpace s with
  | nil => rw [hT] at h; simp [List.isPrefixOf] at h
  | cons c rest =>
    rw [hT] at h
    by_cases hc : c = '#'
    · exact ⟨rest, by rw [hc]⟩
    · simp [List.isPrefixOf, hc] at h
      exact absurd h.1.symm hc

theorem rgb_of_RGBColorParser_CanParse (s : Str) (h : RGBColorParser.CanParse s = true) :
    ∃ rest, TrimSpace s = 'r' :: 'g' :: 'b' :: '(' :: rest := by
  unfold RGBColorParser.CanParse HasPrefix at h
  dsimp only at h
  simp only [Bool.and_eq_true] at h
  obtain ⟨t, ht⟩ := List.isPrefixOf_iff_prefix.mp h.1
  exact ⟨t, ht.symm⟩

theorem NamedColorParser_Parse_of_CanParse (s : Str)
    (h : NamedColorParser.CanParse s = true) : ∃ col, NamedColorParser.Parse s = some col := by
  unfold NamedColorParser.CanParse at h
  dsimp only at h
  simp only [List.any_cons, List.any_nil, Bool.or_false, Bool.or_eq_true, beq_iff_eq] at h
  unfold NamedColorParser.Parse
  dsimp only
  rcases h with h | h | h | h | h | h | h | h <;> rw [h] <;> exact ⟨_, rfl⟩

theorem recognisers_exclusive (s : Str) :
    ¬ (NamedColorParser.CanParse s = true ∧ HexColorParser.CanParse s = true) ∧
      ¬ (NamedColorParser.CanParse s = true ∧ RGBColorParser.CanParse s = true) ∧
      ¬ (HexColorParser.CanParse s = true ∧ RGBColorParser.CanParse s = true) := by
  refine ⟨?_, ?_, ?_⟩
  · rintro ⟨h1, h2⟩
    obtain ⟨rest, hr⟩ := hash_of_HexColorParser_CanParse s h2
    rw [NamedColorParser_CanParse_hash s rest hr] at h1
    cases h1
  · rintro ⟨h1, h2⟩
    obtain ⟨rest, hr⟩ := rgb_of_RGBColorParser_CanParse s h2
    rw [NamedColorParser_CanParse_rgb s rest hr] at h1
    cases h1
  · rintro ⟨h1, h2⟩
    obtain ⟨rest, hr⟩ := hash_of_HexColorParser_CanParse s h1
    rw [RGBColorParser_CanParse_hash s rest hr] at h2
    cases h2

/-- C15. For every string at most one of the three `CanParse` predicates
holds, and `parseColor`, whose loop goes on to the later recognisers after a
failed `Parse`, returns the same colour as the procedure that tries only the
first recogniser whose `CanParse` accepts and gives black when that one
fails. -/
theorem parseColor_first_match (s : Str) :
    (¬ (NamedColorParser.CanParse s = true ∧ HexColorParser.CanParse s = true) ∧
      ¬ (NamedColorParser.CanParse s = true ∧ RGBColorParser.CanParse s = true) ∧
      ¬ (HexColorParser.CanParse s = true ∧ RGBColorParser.CanParse s = true)) ∧
    parseColor s = parseColorFirstMatch s := by
  refine ⟨recognisers_exclusive s, ?_⟩
  unfold parseColor parseColorFirstMatch
  dsimp only
  by_cases hne : TrimSpace s = []
  · rw [if_pos hne, if_pos hne]
  · rw [if_neg hne, if_neg hne]
    obtain ⟨e1, e2, e3⟩ := recognisers_exclusive (TrimSpace s)
    by_cases hn : NamedColorParser.CanParse (TrimSpace s) = true
    · obtain ⟨col, hcol⟩ := NamedColorParser_Parse_of_CanParse _ hn
      simp [colorParsers, parseColorLoop, List.find?, hn, hcol]
    · by_cases hh : HexColorParser.CanParse (TrimSpace s) = true
      · have hr : RGBColorParser.CanParse (TrimSpace s) = false := by
          by_contra hc
          exact e3 ⟨hh, by simpa using hc⟩
        simp only [colorParsers, parseColorLoop, List.find?, hn, hh, hr, if_true,
          Bool.false_eq_true, if_false]
        cases HexColorParser.Parse (TrimSpace s) <;> rfl
      · by_cases hr : RGBColorParser.CanParse (TrimSpace s) = true
        · simp only [colorParsers, parseColorLoop, List.find?, hn, hh, hr, if_true,
            if_false]
          cases RGBColorParser.Parse (TrimSpace s) <;> rfl
        · simp [colorParsers, parseColorLoop, List.find?, hn, hh, hr]

/-! ### `parseSize` on decimal numerals -/

set_option maxRecDepth 100000

theorem isDecDigit_ne (c : Char) (h : isDecDigit c = true) :
    c ≠ '_' ∧ c ≠ '.' ∧ c ≠ '+' ∧ c ≠ '-' ∧ c ≠ 'i' ∧ c ≠ 'I' ∧ c ≠ 'n' ∧ c ≠ 'N' ∧
      c ≠ 'x' ∧ c ≠ 'X' ∧ c ≠ 'e' ∧ c ≠ 'E' ∧ isSpace c = false := by
  unfold isDecDigit at h
  simp only [Bool.and_eq_true, decide_eq_true_eq] at h
  refine ⟨?_, ?_, ?_, ?_, ?_, ?_, ?_, ?_, ?_, ?_, ?_, ?_, ?_⟩
  all_goals first
    | (intro e; rw [e] at h; revert h; decide)
    | (unfold isSpace isSpaceRune
       simp only [Bool.or_eq_false_iff, Bool.and_eq_false_iff, decide_eq_false_iff_not,
         beq_eq_false_iff_ne]
       omega)

theorem readMantissa_digits (ds : Str) (hd : ∀ c ∈ ds, isDecDigit c = true) (st : MantState)
    (rest : Str) :
    readMantissa false st (ds ++ rest) =
      readMantissa false
        ⟨st.sawdot, st.sawdigits || !ds.isEmpty, st.underscores,
          ds.foldl (fun acc d => acc * 10 + (d.toNat - 0x30)) st.mant,
          if st.sawdot then st.frac + ds.length else st.frac⟩ rest := by
  induction ds generalizing st with
  | nil =>
    cases st
    simp
  | cons c t ih =>
    have hc := hd c (List.mem_cons_self _ _)
    have hne := isDecDigit_ne c hc
    rw [List.cons_append, readMantissa, if_neg hne.1, if_neg hne.2.1, if_pos hc,
      ih (fun x hx => hd x (List.mem_cons_of_mem _ hx))]
    congr 1
    cases hs : st.sawdot <;> simp [hs]
    omega

theorem readMantissa_numeral (ip fp : Str) (hip : ip ≠ [])
    (hi : ∀ c ∈ ip, isDecDigit c = true) (hf : ∀ c ∈ fp, isDecDigit c = true) :
    readMantissa false ⟨false, false, false, 0, 0⟩ (decimalNumeral ip fp) =
      (⟨decide (fp ≠ []), true, false, digitsValue (ip ++ fp), fp.length⟩, []) := by
  have hne : ip.isEmpty = false := by
    cases ip with
    | nil => exact absurd rfl hip
    | cons _ _ => rfl
  unfold decimalNumeral digitsValue
  by_cases hfp : fp = []
  · subst hfp
    rw [if_pos rfl]
    have h := readMantissa_digits ip hi ⟨false, false, false, 0, 0⟩ []
    rw [List.append_nil] at h
    rw [h, readMantissa]
    simp [hne]
  · rw [if_neg hfp, readMantissa_digits ip hi, readMantissa]
    have e1 : ('.' : Char) ≠ '_' := by decide
    rw [if_neg e1, if_pos rfl]
    dsimp only
    have h := readMantissa_digits fp hf
      ⟨true, false || !ip.isEmpty, false,
        List.foldl (fun acc d => acc * 10 + (d.toNat - 0x30)) 0 ip, 0⟩ []
    rw [List.append_nil] at h
    simp only [Bool.false_eq_true, if_false]
    rw [h, readMantissa]
    simp [hne, hfp, List.foldl_append]

theorem numeral_head (ip fp : Str) (hip : ip ≠ []) :
    ∃ c t, decimalNumeral ip fp = c :: t ∧ c ∈ ip := by
  cases ip with
  | nil => exact absurd rfl hip
  | cons c t =>
    unfold decimalNumeral
    by_cases hfp : fp = []
    · rw [if_pos hfp]; exact ⟨c, t, rfl, List.mem_cons_self _ _⟩
    · rw [if_neg hfp]; exact ⟨c, t ++ '.' :: fp, rfl, List.mem_cons_self _ _⟩

theorem numeral_mem (ip fp : Str) (hi : ∀ c ∈ ip, isDecDigit c = true)
    (hf : ∀ c ∈ fp, isDecDigit c = true) (c : Char) (hc : c ∈ decimalNumeral ip fp) :
    isDecDigit c = true ∨ c = '.' := by
  unfold decimalNumeral at hc
  by_cases hfp : fp = []
  · rw [if_pos hfp] at hc; exact Or.inl (hi c hc)
  · rw [if_neg hfp] at hc
    simp only [List.mem_append, List.mem_cons] at hc
    rcases hc with h | h | h
    · exact Or.inl (hi c h)
    · exact Or.inr h
    · exact Or.inl (hf c h)

theorem numeral_last (ip fp : Str) (hip : ip ≠ []) (hi : ∀ c ∈ ip, isDecDigit c = true)
    (hf : ∀ c ∈ fp, isDecDigit c = true) :
    ∃ i c, decimalNumeral ip fp = i ++ [c] ∧ isDecDigit c = true := by
  unfold decimalNumeral
  by_cases hfp : fp = []
  · rw [if_pos hfp]
    rcases List.eq_nil_or_concat ip with h | ⟨i, c, h⟩
    · exact absurd h hip
    · rw [List.concat_eq_append] at h
      exact ⟨i, c, h, hi c (by rw [h]; simp)⟩
  · rw [if_neg hfp]
    rcases List.eq_nil_or_concat fp with h | ⟨i, c, h⟩
    · exact absurd h hfp
    · rw [List.concat_eq_append] at h
      exact ⟨ip ++ '.' :: i, c, by rw [h]; simp, hf c (by rw [h]; simp)⟩

theorem special_of_digit (c : Char) (t : Str) (hc : isDecDigit c = true) :
    special (c :: t) = none := by
  have hne := isDecDigit_ne c hc
  unfold special
  simp [hne.2.2.1, hne.2.2.2.1, hne.2.2.2.2.1, hne.2.2.2.2.2.1, hne.2.2.2.2.2.2.1,
    hne.2.2.2.2.2.2.2.1]

theorem hasHexPrefix_false (s : Str) (h : ∀ c ∈ s, c ≠ 'x' ∧ c ≠ 'X') :
    hasHexPrefix s = false := by
  unfold hasHexPrefix
  split
  · next x _ _ =>
    have := h x (by simp)
    simp [this.1, this.2]
  · rfl

theorem stripSign_of_digit (c : Char) (t : Str) (hc : isDecDigit c = true) :
    stripSign (c :: t) = c :: t := by
  have hne := isDecDigit_ne c hc
  unfold stripSign
  split
  · next h => cases h; exact absurd rfl hne.2.2.1
  · next h => cases h; exact absurd rfl hne.2.2.2.1
  · rfl

theorem readFloat_numeral (ip fp : Str) (hip : ip ≠ [])
    (hi : ∀ c ∈ ip, isDecDigit c = true) (hf : ∀ c ∈ fp, isDecDigit c = true) :
    readFloat (decimalNumeral ip fp) =
      some (⟨false, false, digitsValue (ip ++ fp), fp.length, 0⟩, []) := by
  obtain ⟨c, t, e, hc⟩ := numeral_head ip fp hip
  have hcd := hi c hc
  have hne := isDecDigit_ne c hcd
  have hx : ∀ x ∈ decimalNumeral ip fp, x ≠ 'x' ∧ x ≠ 'X' := by
    intro x hx
    rcases numeral_mem ip fp hi hf x hx with h | h
    · have := isDecDigit_ne x h
      exact ⟨this.2.2.2.2.2.2.2.2.1, this.2.2.2.2.2.2.2.2.2.1⟩
    · rw [h]; decide
  have hss : stripSign (decimalNumeral ip fp) = decimalNumeral ip fp := by
    rw [e]; exact stripSign_of_digit c t hcd
  have hm := readMantissa_numeral ip fp hip hi hf
  have hnil : decimalNumeral ip fp ≠ [] := by rw [e]; exact List.cons_ne_nil _ _
  have hneg : decide ((decimalNumeral ip fp).head? = some '-') = false := by
    rw [e]
    simp only [List.head?_cons, Option.some.injEq, decide_eq_false_iff_not]
    exact hne.2.2.2.1
  unfold readFloat
  rw [if_neg hnil]
  dsimp only
  rw [hss, hasHexPrefix_false _ hx]
  simp only [Bool.false_eq_true, if_false]
  rw [hm, hneg]
  simp [atExpChar]

theorem ParseFloat_numeral (ip fp : Str) (hip : ip ≠ [])
    (hi : ∀ c ∈ ip, isDecDigit c = true) (hf : ∀ c ∈ fp, isDecDigit c = true) :
    ParseFloat float32 (decimalNumeral ip fp) = nearestFloat32 ip fp := by
  obtain ⟨c, t, e, hc⟩ := numeral_head ip fp hip
  have hs : special (decimalNumeral ip fp) = none := by
    rw [e]; exact special_of_digit c t (hi c hc)
  unfold ParseFloat
  rw [hs, readFloat_numeral ip fp hip hi hf]
  dsimp only
  unfold nearestFloat32 litUnits float32
  by_cases hfp : fp.length = 0
  · simp [hfp]
  · have hlt : ¬ (0 : Int) ≤ 0 - (fp.length : Int) := by omega
    have hfp2 : fp ≠ [] := fun e => hfp (by rw [e]; rfl)
    simp [hlt, hfp2]

theorem HasSuffix_px_false (i : Str) (c : Char) (hc : c ≠ 'x') :
    HasSuffix (i ++ [c]) "px".toList = false := by
  unfold HasSuffix
  rw [Bool.eq_false_iff]
  intro h
  obtain ⟨t, ht⟩ := List.isSuffixOf_iff_suffix.mp h
  have e : (t ++ ['p']) ++ ['x'] = i ++ [c] := by rw [← ht]; simp
  have := List.append_inj_right' e rfl
  exact hc (List.singleton_inj.mp this).symm

theorem TrimSuffix_px_append (n : Str) : TrimSuffix (n ++ "px".toList) "px".toList = n := by
  have h : HasSuffix (n ++ "px".toList) "px".toList = true := by
    unfold HasSuffix
    exact List.isSuffixOf_iff_suffix.mpr (List.suffix_append _ _)
  unfold TrimSuffix
  rw [if_pos h]
  simp

theorem parseSize_of_trim (s t : Str) (h : TrimSuffix (TrimSpace s) "px".toList = t) :
    parseSize s = ParseFloat float32 t := by
  unfold parseSize
  dsimp only
  rw [h]
  cases ParseFloat float32 t <;> rfl

/-- C16, as stated, fails: the numeral 1 followed by 39 zeros is too large for
a `float32`, `strconv.ParseFloat(s, 32)` reports a range error and `parseSize`
returns that error instead of a value. -/
theorem parseSize_numeral_overflow :
    parseSize "1000000000000000000000000000000000000000".toList = none ∧
      decimalNumeral "1000000000000000000000000000000000000000".toList [] =
        "1000000000000000000000000000000000000000".toList := by
  decide

/-- C16, amended. For every decimal numeral `n` (digits, optionally a point and
more digits) the four calls `parseSize(n)`, `parseSize(n+"px")` and either of
them with white space before and after give the same result: the `float32`
nearest to the number `n` denotes (ties to even) when that is finite, and the
error otherwise. -/
theorem parseSize_numeral (ip fp w1 w2 : Str) (hip : ip ≠ [])
    (hi : ∀ c ∈ ip, isDecDigit c = true) (hf : ∀ c ∈ fp, isDecDigit c = true)
    (h1 : ∀ c ∈ w1, isSpace c = true) (h2 : ∀ c ∈ w2, isSpace c = true) :
    parseSize (decimalNumeral ip fp) = nearestFloat32 ip fp ∧
      parseSize (decimalNumeral ip fp ++ "px".toList) = nearestFloat32 ip fp ∧
      parseSize (w1 ++ decimalNumeral ip fp ++ w2) = nearestFloat32 ip fp ∧
      parseSize (w1 ++ (decimalNumeral ip fp ++ "px".toList) ++ w2) = nearestFloat32 ip fp := by
  obtain ⟨c, t, e, hc⟩ := numeral_head ip fp hip
  obtain ⟨i, l, el, hl⟩ := numeral_last ip fp hip hi hf
  have hedge : NoEdge isSpace (decimalNumeral ip fp) := by
    constructor
    · intro x hx
      rw [e] at hx
      cases hx
      exact (isDecDigit_ne c (hi c hc)).2.2.2.2.2.2.2.2.2.2.2.2
    · intro x hx
      rw [el, List.getLast?_concat] at hx
      cases hx
      exact (isDecDigit_ne l hl).2.2.2.2.2.2.2.2.2.2.2.2
  have hedge2 : NoEdge isSpace (decimalNumeral ip fp ++ "px".toList) := by
    constructor
    · intro x hx
      rw [e] at hx
      cases hx
      exact (isDecDigit_ne c (hi c hc)).2.2.2.2.2.2.2.2.2.2.2.2
    · intro x hx
      have e2 : decimalNumeral ip fp ++ "px".toList = (decimalNumeral ip fp ++ ['p']) ++ ['x'] := by
        simp
      rw [e2, List.getLast?_concat] at hx
      cases hx
      decide
  have hnopx : TrimSuffix (decimalNumeral ip fp) "px".toList = decimalNumeral ip fp := by
    unfold TrimSuffix
    rw [el, HasSuffix_px_false i l (isDecDigit_ne l hl).2.2.2.2.2.2.2.2.1]
    simp
  have hpf := ParseFloat_numeral ip fp hip hi hf
  refine ⟨?_, ?_, ?_, ?_⟩
  · rw [parseSize_of_trim _ (decimalNumeral ip fp), hpf]
    rw [TrimSpace_eq_trimP, trimP_of_noEdge isSpace _ hedge, hnopx]
  · rw [parseSize_of_trim _ (decimalNumeral ip fp), hpf]
    rw [TrimSpace_eq_trimP, trimP_of_noEdge isSpace _ hedge2, TrimSuffix_px_append]
  · rw [parseSize_of_trim _ (decimalNumeral ip fp), hpf]
    rw [TrimSpace_pad w1 _ w2 h1 h2 hedge, hnopx]
  · rw [parseSize_of_trim _ (decimalNumeral ip fp), hpf]
    rw [TrimSpace_pad w1 _ w2 h1 h2 hedge2, TrimSuffix_px_append]

theorem parseSize_numeral_witness :
    parseSize "100".toList = some (GoFloat.ofNat32 100) ∧
      parseSize "200px".toList = some (GoFloat.ofNat32 200) ∧
      parseSize "  50  ".toList = some (GoFloat.ofNat32 50) ∧
      parseSize "15.5".toList = some (GoFloat.finite false (31 * 2 ^ 148)) ∧
      parseSize " 15.5px ".toList = some (GoFloat.finite false (31 * 2 ^ 148)) := by
  have h := parseSize_numeral "15".toList "5".toList " ".toList " ".toList (by decide)
    (by decide) (by decide) (by decide) (by decide)
  have hv : nearestFloat32 "15".toList "5".toList = some (GoFloat.finite false (31 * 2 ^ 148)) := by
    decide
  rw [hv] at h
  exact ⟨by decide, by decide, by decide, h.1, h.2.2.2⟩

/-! ### What `strconv.ParseFloat` accepts -/

theorem cpl_le (s p : Str) : commonPrefixLenIgnoreCase s p ≤ s.length := by
  induction s generalizing p with
  | nil => simp [commonPrefixLenIgnoreCase]
  | cons c cs ih =>
    cases p with
    | nil => simp [commonPrefixLenIgnoreCase]
    | cons q qs =>
      rw [commonPrefixLenIgnoreCase]
      split
      · have := ih qs
        simp only [List.length_cons]
        omega
      · exact Nat.zero_le _

theorem cpl_full (s p : Str) (h : commonPrefixLenIgnoreCase s p = s.length) :
    s.map asciiLower = p.take s.length := by
  induction s generalizing p with
  | nil => simp
  | cons c cs ih =>
    cases p with
    | nil => simp [commonPrefixLenIgnoreCase] at h
    | cons q qs =>
      rw [commonPrefixLenIgnoreCase] at h
      split at h
      · next hc =>
        simp only [List.length_cons, Nat.add_right_cancel_iff] at h
        simp [hc, ih qs h]
      · simp at h

theorem specialInf_full (neg : Bool) (nsign : Nat) (s : Str) (v : GoFloat) (n : Nat)
    (h : specialInf neg nsign s = some (v, n)) (hn : n = nsign + s.length) :
    s.map asciiLower = "inf".toList ∨ s.map asciiLower = "infinity".toList := by
  unfold specialInf at h
  dsimp only at h
  have hle := cpl_le s "infinity".toList
  have hfull := cpl_full s "infinity".toList
  generalize commonPrefixLenIgnoreCase s "infinity".toList = k at h hle hfull
  by_cases hmid : 3 < k ∧ k < 8
  · simp only [if_pos hmid] at h
    have e := congrArg Prod.snd (Option.some.inj h)
    dsimp only at e
    omega
  · simp only [if_neg hmid] at h
    by_cases hc : k = 3 ∨ k = 8
    · rw [if_pos hc] at h
      have e := congrArg Prod.snd (Option.some.inj h)
      dsimp only at e
      have hlen : k = s.length := by omega
      have hf := hfull hlen
      rcases hc with h3 | h8
      · left
        rw [hf, ← hlen, h3]
        rfl
      · right
        rw [hf, ← hlen, h8]
        rfl
    · rw [if_neg hc] at h
      cases h

theorem asciiLower_sign : asciiLower '+' = '+' ∧ asciiLower '-' = '-' := by decide

theorem special_full (t : Str) (v : GoFloat) (n : Nat) (h : special t = some (v, n))
    (hn : n = t.length) : t.map asciiLower ∈ specialWords := by
  unfold special at h
  cases t with
  | nil => cases h
  | cons c rest =>
    dsimp only at h
    by_cases h1 : c = '+'
    · rw [if_pos h1] at h
      rcases specialInf_full false 1 rest v n h (by rw [hn]; simp; omega) with e | e <;>
      · subst h1
        rw [List.map_cons, e, asciiLower_sign.1]
        decide
    · rw [if_neg h1] at h
      by_cases h2 : c = '-'
      · rw [if_pos h2] at h
        rcases specialInf_full true 1 rest v n h (by rw [hn]; simp; omega) with e | e <;>
        · subst h2
          rw [List.map_cons, e, asciiLower_sign.2]
          decide
      · rw [if_neg h2] at h
        by_cases h3 : c = 'i' ∨ c = 'I'
        · rw [if_pos h3] at h
          rcases specialInf_full false 0 (c :: rest) v n h (by rw [hn]; simp) with e | e <;>
          · rw [e]
            decide
        · rw [if_neg h3] at h
          by_cases h4 : c = 'n' ∨ c = 'N'
          · rw [if_pos h4] at h
            split at h
            · next hc =>
              have e := congrArg Prod.snd (Option.some.inj h)
              dsimp only at e
              have hfull := cpl_full (c :: rest) "nan".toList (by rw [hc, ← hn, ← e])
              rw [hfull, ← hn, ← e]
              decide
            · cases h
          · rw [if_neg h4] at h
            cases h

/-! ### Numeric literals and `readFloat` -/

theorem isBaseDigit_not_other (hex : Bool) (c : Char) (h : isBaseDigit hex c = true) :
    c ≠ '_' ∧ c ≠ '.' ∧ isExpLetter hex c = false := by
  refine ⟨?_, ?_, ?_⟩
  · rintro rfl
    cases hex <;> simp [isBaseDigit, isDecDigit, isHexLetter] at h
  · rintro rfl
    cases hex <;> simp [isBaseDigit, isDecDigit, isHexLetter] at h
  · cases hex
    · simp only [isExpLetter, Bool.false_eq_true, if_false, decide_eq_false_iff_not, not_or]
      constructor <;> (rintro rfl; simp [isBaseDigit, isDecDigit, isHexLetter] at h)
    · simp only [isExpLetter, if_true, decide_eq_false_iff_not, not_or]
      constructor <;> (rintro rfl; simp [isBaseDigit, isDecDigit, isHexLetter] at h)

theorem isExpLetter_not_mantissa (hex : Bool) (c : Char) (h : isExpLetter hex c = true) :
    (isBaseDigit hex c || decide (c = '_') || decide (c = '.')) = false := by
  cases hb : isBaseDigit hex c with
  | true =>
    rw [(isBaseDigit_not_other hex c hb).2.2] at h
    cases h
  | false =>
    have h1 : c ≠ '_' := by
      rintro rfl
      cases hex <;> simp [isExpLetter] at h
    have h2 : c ≠ '.' := by
      rintro rfl
      cases hex <;> simp [isExpLetter] at h
    simp [h1, h2]

theorem readMantissa_mantissa (hex : Bool) (m : Str) :
    ∀ (st : MantState) (rest : Str),
      m.all (fun c => isBaseDigit hex c || decide (c = '_') || decide (c = '.')) = true →
      m.count '.' + (if st.sawdot = true then 1 else 0) ≤ 1 →
      (∀ c cs, rest = c :: cs →
        (isBaseDigit hex c || decide (c = '_') || decide (c = '.')) = false) →
      (readMantissa hex st (m ++ rest)).2 = rest ∧
        (readMantissa hex st (m ++ rest)).1.sawdigits =
          (st.sawdigits || m.any (isBaseDigit hex)) ∧
        (readMantissa hex st (m ++ rest)).1.underscores =
          (st.underscores || m.any (fun c => decide (c = '_'))) := by
  induction m with
  | nil =>
    intro st rest _ _ hrest
    cases rest with
    | nil => simp [readMantissa]
    | cons c cs =>
      have hc := hrest c cs rfl
      simp only [Bool.or_eq_false_iff, decide_eq_false_iff_not, isBaseDigit] at hc
      obtain ⟨⟨⟨h1, h2⟩, h3⟩, h4⟩ := hc
      rw [List.nil_append, readMantissa, if_neg h3, if_neg h4]
      simp [h1, h2]
  | cons c m ih =>
    intro st rest hall hcount hrest
    rw [List.all_cons, Bool.and_eq_true] at hall
    obtain ⟨hc, hm⟩ := hall
    rw [List.cons_append, readMantissa]
    by_cases h1 : c = '_'
    · rw [if_pos h1]
      have hcnt : m.count '.' + (if st.sawdot = true then 1 else 0) ≤ 1 := by
        rw [List.count_cons, h1] at hcount
        simpa using hcount
      obtain ⟨e1, e2, e3⟩ := ih { st with underscores := true } rest hm hcnt hrest
      refine ⟨e1, ?_, ?_⟩
      · rw [e2, List.any_cons]
        have : isBaseDigit hex c = false := by
          cases hb : isBaseDigit hex c with
          | false => rfl
          | true => exact absurd h1 (isBaseDigit_not_other hex c hb).1
        rw [this, Bool.false_or]
      · rw [e3, List.any_cons]
        simp [h1]
    · rw [if_neg h1]
      by_cases h2 : c = '.'
      · rw [if_pos h2]
        have hsd : st.sawdot = false := by
          cases hs : st.sawdot with
          | false => rfl
          | true =>
            rw [List.count_cons, h2, hs] at hcount
            simp at hcount
        rw [hsd]
        simp only [Bool.false_eq_true, if_false]
        have hcnt : m.count '.' +
            (if ({ st with sawdot := true } : MantState).sawdot = true then 1 else 0) ≤ 1 := by
          rw [List.count_cons, h2, hsd] at hcount
          simpa using hcount
        obtain ⟨e1, e2, e3⟩ := ih { st with sawdot := true } rest hm hcnt hrest
        refine ⟨e1, ?_, ?_⟩
        · rw [e2, List.any_cons]
          have : isBaseDigit hex c = false := by
            cases hb : isBaseDigit hex c with
            | false => rfl
            | true => exact absurd h2 (isBaseDigit_not_other hex c hb).2.1
          rw [this, Bool.false_or]
        · rw [e3, List.any_cons]
          simp [h1]
      · rw [if_neg h2]
        have hcnt : ∀ st2 : MantState, st2.sawdot = st.sawdot →
            m.count '.' + (if st2.sawdot = true then 1 else 0) ≤ 1 := by
          intro st2 hst
          rw [List.count_cons] at hcount
          rw [hst]
          have : (c == '.') = false := by simp [h2]
          rw [this] at hcount
          simpa using hcount
        have hbd : isBaseDigit hex c = true := by
          simpa [h1, h2] using hc
        by_cases h3 : isDecDigit c = true
        · rw [if_pos h3]
          obtain ⟨e1, e2, e3⟩ := ih
            { st with
              sawdigits := true
              mant := st.mant * (if hex then 16 else 10) + (c.toNat - 0x30)
              frac := if st.sawdot then st.frac + 1 else st.frac } rest hm (hcnt _ rfl) hrest
          refine ⟨e1, ?_, ?_⟩
          · rw [e2, List.any_cons, hbd]
            simp
          · rw [e3, List.any_cons]
            simp [h1]
        · rw [if_neg h3]
          have h4 : (hex && isHexLetter c) = true := by
            simpa [isBaseDigit, h3] using hbd
          rw [if_pos h4]
          obtain ⟨e1, e2, e3⟩ := ih
            { st with
              sawdigits := true
              mant := st.mant * 16 + ((asciiLower c).toNat - 0x61 + 10)
              frac := if st.sawdot then st.frac + 1 else st.frac } rest hm (hcnt _ rfl) hrest
          refine ⟨e1, ?_, ?_⟩
          · rw [e2, List.any_cons, hbd]
            simp
          · rw [e3, List.any_cons]
            simp [h1]

theorem readMantissa_split (hex : Bool) (s : Str) :
    ∀ st : MantState, ∃ m : Str,
      s = m ++ (readMantissa hex st s).2 ∧
      m.all (fun c => isBaseDigit hex c || decide (c = '_') || decide (c = '.')) = true ∧
      m.count '.' + (if st.sawdot = true then 1 else 0) ≤ 1 ∧
      (readMantissa hex st s).1.sawdigits = (st.sawdigits || m.any (isBaseDigit hex)) ∧
      (readMantissa hex st s).1.underscores =
        (st.underscores || m.any (fun c => decide (c = '_'))) := by
  induction s with
  | nil =>
    intro st
    refine ⟨[], rfl, rfl, ?_, by simp [readMantissa], by simp [readMantissa]⟩
    split_ifs <;> simp
  | cons c cs ih =>
    intro st
    have hstop : (∃ m : Str,
        c :: cs = m ++ (st, c :: cs).2 ∧
        m.all (fun c => isBaseDigit hex c || decide (c = '_') || decide (c = '.')) = true ∧
        m.count '.' + (if st.sawdot = true then 1 else 0) ≤ 1 ∧
        (st, c :: cs).1.sawdigits = (st.sawdigits || m.any (isBaseDigit hex)) ∧
        (st, c :: cs).1.underscores =
          (st.underscores || m.any (fun c => decide (c = '_')))) := by
      refine ⟨[], rfl, rfl, ?_, by simp, by simp⟩
      split_ifs <;> simp
    rw [readMantissa]
    by_cases h1 : c = '_'
    · rw [if_pos h1]
      obtain ⟨m, e0, e1, e2, e3, e4⟩ := ih { st with underscores := true }
      refine ⟨c :: m, by rw [List.cons_append, ← e0], ?_, ?_, ?_, ?_⟩
      · rw [List.all_cons, e1]
        simp [h1]
      · rw [List.count_cons, h1]
        simpa using e2
      · rw [e3, List.any_cons]
        have : isBaseDigit hex c = false := by
          cases hb : isBaseDigit hex c with
          | false => rfl
          | true => exact absurd h1 (isBaseDigit_not_other hex c hb).1
        rw [this, Bool.false_or]
      · rw [e4, List.any_cons]
        simp [h1]
    · rw [if_neg h1]
      by_cases h2 : c = '.'
      · rw [if_pos h2]
        by_cases hs : st.sawdot = true
        · rw [if_pos hs]
          exact hstop
        · rw [if_neg hs]
          obtain ⟨m, e0, e1, e2, e3, e4⟩ := ih { st with sawdot := true }
          refine ⟨c :: m, by rw [List.cons_append, ← e0], ?_, ?_, ?_, ?_⟩
          · rw [List.all_cons, e1]
            simp [h2]
          · rw [List.count_cons, h2, if_neg hs]
            simpa using e2
          · rw [e3, List.any_cons]
            have : isBaseDigit hex c = false := by
              cases hb : isBaseDigit hex c with
              | false => rfl
              | true => exact absurd h2 (isBaseDigit_not_other hex c hb).2.1
            rw [this, Bool.false_or]
          · rw [e4, List.any_cons]
            simp [h1]
      · rw [if_neg h2]
        have hne : (c == '.') = false := by simp [h2]
        by_cases h3 : isDecDigit c = true
        · rw [if_pos h3]
          obtain ⟨m, e0, e1, e2, e3, e4⟩ := ih
            { st with
              sawdigits := true
              mant := st.mant * (if hex then 16 else 10) + (c.toNat - 0x30)
              frac := if st.sawdot then st.frac + 1 else st.frac }
          refine ⟨c :: m, by rw [List.cons_append, ← e0], ?_, ?_, ?_, ?_⟩
          · rw [List.all_cons, e1]
            simp [isBaseDigit, h3]
          · rw [List.count_cons, hne]
            simpa using e2
          · rw [e3, List.any_cons]
            simp [isBaseDigit, h3]
          · rw [e4, List.any_cons]
            simp [h1]
        · rw [if_neg h3]
          by_cases h4 : (hex && isHexLetter c) = true
          · rw [if_pos h4]
            obtain ⟨m, e0, e1, e2, e3, e4⟩ := ih
              { st with
                sawdigits := true
                mant := st.mant * 16 + ((asciiLower c).toNat - 0x61 + 10)
                frac := if st.sawdot then st.frac + 1 else st.frac }
            refine ⟨c :: m, by rw [List.cons_append, ← e0], ?_, ?_, ?_, ?_⟩
            · rw [List.all_cons, e1]
              simp [isBaseDigit, h4]
            · rw [List.count_cons, hne]
              simpa using e2
            · rw [e3, List.any_cons]
              simp [isBaseDigit, h4]
            · rw [e4, List.any_cons]
              simp [h1]
          · rw [if_neg h4]
            exact hstop

theorem readExpDigits_rest (s : Str) :
    ∀ (e : Nat) (us : Bool),
      ((readExpDigits e us s).2.2 = [] ↔
        s.all (fun c => isDecDigit c || decide (c = '_')) = true) ∧
      ((readExpDigits e us s).2.2 = [] →
        (readExpDigits e us s).2.1 = (us || s.any (fun c => decide (c = '_')))) := by
  induction s with
  | nil => intro e us; simp [readExpDigits]
  | cons c cs ih =>
    intro e us
    rw [readExpDigits]
    by_cases h1 : c = '_'
    · rw [if_pos h1]
      obtain ⟨i1, i2⟩ := ih e true
      refine ⟨?_, ?_⟩
      · rw [i1, List.all_cons]
        simp [h1]
      · intro h
        rw [i2 h, List.any_cons]
        simp [h1]
    · rw [if_neg h1]
      by_cases h2 : isDecDigit c = true
      · rw [if_pos h2]
        obtain ⟨i1, i2⟩ := ih (if e < 10000 then e * 10 + (c.toNat - 0x30) else e) us
        refine ⟨?_, ?_⟩
        · rw [i1, List.all_cons]
          simp [h2]
        · intro h
          rw [i2 h, List.any_cons]
          simp [h1]
      · rw [if_neg h2]
        refine ⟨?_, ?_⟩
        · rw [List.all_cons]
          simp [h1, h2]
        · intro h
          cases h

theorem stripSign_any_underscore (e : Str) :
    (stripSign e).any (fun c => decide (c = '_')) = e.any (fun c => decide (c = '_')) := by
  unfold stripSign
  split <;> simp

theorem readExponent_eq (e : Str) :
    readExponent e =
      match stripSign e with
      | [] => none
      | d :: ds =>
        if isDecDigit d then
          some (if e.head? = some '-' then -((readExpDigits 0 false (d :: ds)).1 : Int)
              else ((readExpDigits 0 false (d :: ds)).1 : Int),
            (readExpDigits 0 false (d :: ds)).2.1, (readExpDigits 0 false (d :: ds)).2.2)
        else none := by
  cases e with
  | nil => rfl
  | cons c cs =>
    unfold readExponent
    by_cases hp : c = '+'
    · subst hp
      cases cs <;> simp [stripSign]
    · by_cases hm : c = '-'
      · subst hm
        cases cs <;> simp [stripSign]
      · have hs : stripSign (c :: cs) = c :: cs := by
          unfold stripSign
          split
          · next h => cases h; exact absurd rfl hp
          · next h => cases h; exact absurd rfl hm
          · rfl
        rw [hs]
        simp [hp, hm]

theorem readExponent_accepts (e : Str) :
    ((∃ x, readExponent e = some x ∧ x.2.2 = []) ↔ isExponentTail e = true) ∧
      (∀ x, readExponent e = some x → x.2.2 = [] →
        x.2.1 = e.any (fun c => decide (c = '_'))) := by
  rw [readExponent_eq]
  unfold isExponentTail
  have hany := stripSign_any_underscore e
  cases hs : stripSign e with
  | nil => simp
  | cons d ds =>
    rw [hs] at hany
    by_cases hd : isDecDigit d = true
    · have hne : d ≠ '_' := by
        rintro rfl
        simp [isDecDigit] at hd
      have hrd : readExpDigits 0 false (d :: ds) =
          readExpDigits (if 0 < 10000 then 0 * 10 + (d.toNat - 0x30) else 0) false ds := by
        rw [readExpDigits, if_neg hne, if_pos hd]
      obtain ⟨i1, i2⟩ := readExpDigits_rest ds
        (if 0 < 10000 then 0 * 10 + (d.toNat - 0x30) else 0) false
      simp only [hd, if_true, Bool.true_and]
      rw [hrd]
      refine ⟨?_, ?_⟩
      · constructor
        · rintro ⟨x, hx, hx2⟩
          cases hx
          exact i1.mp hx2
        · intro h
          exact ⟨_, rfl, i1.mpr h⟩
      · intro x hx hx2
        cases hx
        rw [i2 hx2, ← hany, List.any_cons]
        simp [hne]
    · simp [hd]

theorem underscoresBetweenDigits_underscore (hex prev : Bool) (cs : Str) :
    underscoresBetweenDigits hex prev ('_' :: cs) =
      (prev && (match cs with
        | [] => false
        | d :: _ => isBaseDigit hex d) && underscoresBetweenDigits hex false cs) := by
  cases cs <;> rfl

theorem underscoresBetweenDigits_other (hex prev : Bool) (c : Char) (cs : Str) (h : c ≠ '_') :
    underscoresBetweenDigits hex prev (c :: cs) =
      underscoresBetweenDigits hex (isBaseDigit hex c) cs := by
  show (if c = '_' then _ else _) = _
  rw [if_neg h]

theorem underscoreScan_eq (hex : Bool) (s : Str) :
    (∀ saw : Char, saw ≠ '_' →
      underscoreScan hex saw s = underscoresBetweenDigits hex (saw == '0') s) ∧
      underscoreScan hex '_' s =
        ((match s with
          | [] => false
          | d :: _ => isBaseDigit hex d) && underscoresBetweenDigits hex false s) := by
  induction s with
  | nil =>
    refine ⟨fun saw hs => ?_, ?_⟩
    · simp [underscoreScan, underscoresBetweenDigits, hs]
    · simp [underscoreScan]
  | cons c cs ih =>
    obtain ⟨ih2, ih1⟩ := ih
    by_cases hd : isBaseDigit hex c = true
    · have hne := (isBaseDigit_not_other hex c hd).1
      have hd2 : (isDecDigit c || (hex && isHexLetter c)) = true := hd
      refine ⟨fun saw _ => ?_, ?_⟩
      · rw [underscoreScan, if_pos hd2, underscoresBetweenDigits_other hex _ c cs hne, hd,
          ih2 '0' (by decide)]
        rfl
      · rw [underscoreScan, if_pos hd2, underscoresBetweenDigits_other hex _ c cs hne, hd,
          ih2 '0' (by decide)]
        simp [hd]
    · have hd2 : ¬ (isDecDigit c || (hex && isHexLetter c)) = true := hd
      have hdf : isBaseDigit hex c = false := by
        cases h : isBaseDigit hex c with
        | false => rfl
        | true => exact absurd h hd
      by_cases hu : c = '_'
      · refine ⟨fun saw hs => ?_, ?_⟩
        · subst hu
          rw [underscoreScan, if_neg hd2, if_pos rfl, underscoresBetweenDigits_underscore]
          by_cases h0 : saw = '0'
          · subst h0
            rw [ih1]
            simp
          · have : (saw != '0') = true := by simp [h0]
            rw [if_pos this]
            have : (saw == '0') = false := by simp [h0]
            rw [this]
            simp
        · rw [underscoreScan, if_neg hd2, if_pos hu]
          simp [hdf]
      · refine ⟨fun saw hs => ?_, ?_⟩
        · have : ¬ ((saw == '_') = true) := by simp [hs]
          rw [underscoreScan, if_neg hd2, if_neg hu, if_neg this,
            underscoresBetweenDigits_other hex _ c cs hu, hdf, ih2 '!' (by decide)]
          rfl
        · rw [underscoreScan, if_neg hd2, if_neg hu]
          simp [hdf]

theorem underscoresBetweenDigits_of_none (hex : Bool) (s : Str) :
    ∀ prev : Bool, s.any (fun c => decide (c = '_')) = false →
      underscoresBetweenDigits hex prev s = true := by
  induction s with
  | nil => intro _ _; rfl
  | cons c cs ih =>
    intro prev h
    rw [List.any_cons, Bool.or_eq_false_iff] at h
    have hc : c ≠ '_' := by simpa using h.1
    rw [underscoresBetweenDigits_other hex _ c cs hc]
    exact ih _ h.2

theorem dropWhile_head_not (p : Char → Bool) (s : Str) :
    ∀ c cs, s.dropWhile p = c :: cs → p c = false := by
  induction s with
  | nil => intro c cs h; cases h
  | cons a s ih =>
    intro c cs h
    rw [List.dropWhile_cons] at h
    by_cases ha : p a = true
    · rw [if_pos ha] at h
      exact ih c cs h
    · rw [if_neg ha] at h
      cases h
      simpa using ha

theorem takeWhile_dropWhile_stop (p : Char → Bool) (m : Str) (hm : ∀ c ∈ m, p c = true)
    (rest : Str) (hrest : ∀ c cs, rest = c :: cs → p c = false) :
    (m ++ rest).takeWhile p = m ∧ (m ++ rest).dropWhile p = rest := by
  induction m with
  | nil =>
    cases rest with
    | nil => exact ⟨rfl, rfl⟩
    | cons c cs =>
      have := hrest c cs rfl
      rw [List.nil_append, List.takeWhile_cons, List.dropWhile_cons, this]
      exact ⟨rfl, rfl⟩
  | cons a m ih =>
    have ha := hm a (List.mem_cons_self _ _)
    obtain ⟨i1, i2⟩ := ih (fun c hc => hm c (List.mem_cons_of_mem _ hc))
    rw [List.cons_append, List.takeWhile_cons, List.dropWhile_cons, ha, i1, i2]
    exact ⟨rfl, rfl⟩

theorem mantissa_not_expLetter (hex : Bool) (m : Str)
    (hm : m.all (fun c => isBaseDigit hex c || decide (c = '_') || decide (c = '.')) = true) :
    ∀ c ∈ m, (!isExpLetter hex c) = true := by
  intro c hc
  have h1 := List.all_eq_true.mp hm c hc
  cases he : isExpLetter hex c with
  | false => rfl
  | true =>
    rw [isExpLetter_not_mantissa hex c he] at h1
    cases h1

theorem atExpChar_cons (hex : Bool) (c : Char) (cs : Str) :
    atExpChar hex (c :: cs) = isExpLetter hex c := by
  cases hex <;> simp [atExpChar, isExpLetter]

theorem isExpLetter_ne_underscore (hex : Bool) (c : Char) (h : isExpLetter hex c = true) :
    c ≠ '_' := by
  rintro rfl
  cases hex <;> simp [isExpLetter] at h

/-- The scanner on the body of a literal: the mantissa is read up to the
exponent letter. -/
theorem isLiteralBody_readMantissa (hex : Bool) (s2 : Str) (h : isLiteralBody hex s2 = true) :
    (readMantissa hex ⟨false, false, false, 0, 0⟩ s2).1.sawdigits = true ∧
      (readMantissa hex ⟨false, false, false, 0, 0⟩ s2).2 =
        s2.dropWhile (fun c => !isExpLetter hex c) ∧
      (readMantissa hex ⟨false, false, false, 0, 0⟩ s2).1.underscores =
        (s2.takeWhile fun c => !isExpLetter hex c).any (fun c => decide (c = '_')) := by
  unfold isLiteralBody isMantissa at h
  simp only [Bool.and_eq_true, decide_eq_true_eq] at h
  obtain ⟨⟨⟨hall, hcnt⟩, hany⟩, _⟩ := h
  have hrest : ∀ c cs, s2.dropWhile (fun c => !isExpLetter hex c) = c :: cs →
      (isBaseDigit hex c || decide (c = '_') || decide (c = '.')) = false := by
    intro c cs hc
    have := dropWhile_head_not _ s2 c cs hc
    exact isExpLetter_not_mantissa hex c (by simpa using this)
  have key := readMantissa_mantissa hex (s2.takeWhile fun c => !isExpLetter hex c)
    ⟨false, false, false, 0, 0⟩ (s2.dropWhile fun c => !isExpLetter hex c) hall
    (by simpa using hcnt) hrest
  rw [List.takeWhile_append_dropWhile] at key
  obtain ⟨k1, k2, k3⟩ := key
  refine ⟨?_, k1, ?_⟩
  · rw [k2, hany]
    rfl
  · rw [k3]
    rfl

/-- The body of a text is a literal body exactly when the scanner reads a
mantissa with a digit and then either an exponent that takes up the rest or,
in base 10, nothing. -/
theorem isLiteralBody_iff (hex : Bool) (s2 : Str) :
    isLiteralBody hex s2 = true ↔
      (readMantissa hex ⟨false, false, false, 0, 0⟩ s2).1.sawdigits = true ∧
        ((atExpChar hex (readMantissa hex ⟨false, false, false, 0, 0⟩ s2).2 = true ∧
            ∃ x, readExponent (readMantissa hex ⟨false, false, false, 0, 0⟩ s2).2.tail = some x ∧
              x.2.2 = []) ∨
          (atExpChar hex (readMantissa hex ⟨false, false, false, 0, 0⟩ s2).2 = false ∧
            hex = false ∧ (readMantissa hex ⟨false, false, false, 0, 0⟩ s2).2 = [])) := by
  constructor
  · intro h
    obtain ⟨k1, k2, _⟩ := isLiteralBody_readMantissa hex s2 h
    refine ⟨k1, ?_⟩
    unfold isLiteralBody at h
    rw [Bool.and_eq_true] at h
    have h2 := h.2
    rw [k2]
    cases hd : s2.dropWhile (fun c => !isExpLetter hex c) with
    | nil =>
      rw [hd] at h2
      right
      exact ⟨rfl, by simpa using h2, rfl⟩
    | cons c tail =>
      rw [hd] at h2
      left
      have hc := dropWhile_head_not _ s2 c tail hd
      refine ⟨by rw [atExpChar_cons]; simpa using hc, ?_⟩
      exact (readExponent_accepts tail).1.mpr h2
  · rintro ⟨hsd, hcase⟩
    obtain ⟨m, e0, e1, e2, e3, _⟩ := readMantissa_split hex s2 ⟨false, false, false, 0, 0⟩
    have hany : m.any (isBaseDigit hex) = true := by
      rw [e3] at hsd
      simpa using hsd
    have hcnt : m.count '.' ≤ 1 := by simpa using e2
    have hmant : isMantissa hex m = true := by
      unfold isMantissa
      rw [e1, hany]
      simp [hcnt]
    rcases hcase with ⟨hexp, x, hx, hx2⟩ | ⟨_, hh, hr⟩
    · cases hr : (readMantissa hex ⟨false, false, false, 0, 0⟩ s2).2 with
      | nil =>
        rw [hr] at hexp
        cases hexp
      | cons c tail =>
        rw [hr] at hexp hx e0
        rw [atExpChar_cons] at hexp
        obtain ⟨t1, t2⟩ := takeWhile_dropWhile_stop (fun c => !isExpLetter hex c) m
          (mantissa_not_expLetter hex m e1) (c :: tail)
          (fun c2 cs2 hc2 => by cases hc2; simp [hexp])
        unfold isLiteralBody
        rw [e0, t1, t2, hmant]
        exact (readExponent_accepts tail).1.mp ⟨x, hx, hx2⟩
    · rw [hr, List.append_nil] at e0
      obtain ⟨t1, t2⟩ := takeWhile_dropWhile_stop (fun c => !isExpLetter hex c) m
        (mantissa_not_expLetter hex m e1) [] (fun c2 cs2 hc2 => by cases hc2)
      rw [List.append_nil] at t1 t2
      unfold isLiteralBody
      rw [e0, t1, t2, hmant, hh]
      rfl

/-- The underscore flag of the scanner on a literal body: it is set exactly
when the body holds an underscore. -/
theorem readMantissa_underscores (hex : Bool) (s2 : Str) :
    ((readMantissa hex ⟨false, false, false, 0, 0⟩ s2).2 = [] →
      (readMantissa hex ⟨false, false, false, 0, 0⟩ s2).1.underscores =
        s2.any (fun c => decide (c = '_'))) ∧
      (atExpChar hex (readMantissa hex ⟨false, false, false, 0, 0⟩ s2).2 = true →
        ∀ x, readExponent (readMantissa hex ⟨false, false, false, 0, 0⟩ s2).2.tail = some x →
          x.2.2 = [] →
          ((readMantissa hex ⟨false, false, false, 0, 0⟩ s2).1.underscores || x.2.1) =
            s2.any (fun c => decide (c = '_'))) := by
  obtain ⟨m, e0, _, _, _, e4⟩ := readMantissa_split hex s2 ⟨false, false, false, 0, 0⟩
  refine ⟨fun hr => ?_, fun hexp x hx hx2 => ?_⟩
  · rw [hr, List.append_nil] at e0
    rw [e4, ← e0]
    rfl
  · cases hr : (readMantissa hex ⟨false, false, false, 0, 0⟩ s2).2 with
    | nil =>
      rw [hr] at hexp
      cases hexp
    | cons c tail =>
      rw [hr] at hexp hx e0
      rw [atExpChar_cons] at hexp
      have hne := isExpLetter_ne_underscore hex c hexp
      have hflag := (readExponent_accepts tail).2 x hx hx2
      conv_rhs => rw [e0]
      rw [List.any_append, List.any_cons, e4, hflag]
      simp [hne]

theorem hasHexPrefix_true (s : Str) (h : hasHexPrefix s = true) :
    ∃ x d rest, s = '0' :: x :: d :: rest ∧ (x = 'x' ∨ x = 'X') := by
  unfold hasHexPrefix at h
  split at h
  · next x d rest => exact ⟨x, d, rest, rfl, by simpa using h⟩
  · cases h

theorem underscoreOK_hex (t : Str) (x d : Char) (rest : Str)
    (h : stripSign t = '0' :: x :: d :: rest) (hx : x = 'x' ∨ x = 'X') :
    underscoreOK t = underscoresBetweenDigits true true (d :: rest) := by
  have hd : decide (x = 'x' ∨ x = 'X') = true := by simpa using hx
  unfold underscoreOK
  split
  · next c t2 heq =>
    rw [h] at heq
    cases heq
    rw [if_pos (Or.inr (Or.inr (Or.inr (Or.inr hx)))), hd,
      (underscoreScan_eq true (d :: rest)).1 '0' (by decide)]
    rfl
  · next hne => exact absurd h (hne x (d :: rest))

theorem isLiteralBody_base_prefix (c : Char) (t : Str)
    (hc : c = 'b' ∨ c = 'B' ∨ c = 'o' ∨ c = 'O' ∨ c = 'x' ∨ c = 'X') :
    isLiteralBody false ('0' :: c :: t) = false := by
  have h0 : (!isExpLetter false '0') = true := by decide
  have h1 : (!isExpLetter false c) = true := by
    rcases hc with h | h | h | h | h | h <;> (subst h; decide)
  have h2 : (isBaseDigit false c || decide (c = '_') || decide (c = '.')) = false := by
    rcases hc with h | h | h | h | h | h <;> (subst h; decide)
  unfold isLiteralBody isMantissa
  rw [List.takeWhile_cons, if_pos h0, List.takeWhile_cons, if_pos h1, List.all_cons,
    List.all_cons, h2]
  simp

theorem underscoreOK_dec (t : Str) (hb : isLiteralBody false (stripSign t) = true) :
    underscoreOK t = underscoresBetweenDigits false false (stripSign t) := by
  have hscan : underscoreScan false '^' (stripSign t) =
      underscoresBetweenDigits false false (stripSign t) := by
    rw [(underscoreScan_eq false (stripSign t)).1 '^' (by decide)]
    rfl
  unfold underscoreOK
  split
  · next c t2 heq =>
    by_cases hc : c = 'b' ∨ c = 'B' ∨ c = 'o' ∨ c = 'O' ∨ c = 'x' ∨ c = 'X'
    · rw [heq, isLiteralBody_base_prefix c t2 hc] at hb
      cases hb
    · rw [if_neg hc]
      exact hscan
  · exact hscan

/-- The scanner accepts a whole text exactly when it reads a mantissa with a
digit, then an exponent up to the end or (in base 10) nothing, and the
underscores found pass `underscoreOK`. -/
theorem readFloat_full_iff (t : Str) (ht : t ≠ []) (hex : Bool) (s2 : Str)
    (hhex : hasHexPrefix (stripSign t) = hex)
    (hs2 : (if hex = true then (stripSign t).drop 2 else stripSign t) = s2) :
    (∃ lit, readFloat t = some (lit, [])) ↔
      (readMantissa hex ⟨false, false, false, 0, 0⟩ s2).1.sawdigits = true ∧
        ((atExpChar hex (readMantissa hex ⟨false, false, false, 0, 0⟩ s2).2 = true ∧
            ∃ x, readExponent (readMantissa hex ⟨false, false, false, 0, 0⟩ s2).2.tail = some x ∧
              x.2.2 = [] ∧
              (((readMantissa hex ⟨false, false, false, 0, 0⟩ s2).1.underscores || x.2.1) = true →
                underscoreOK t = true)) ∨
          (atExpChar hex (readMantissa hex ⟨false, false, false, 0, 0⟩ s2).2 = false ∧
            hex = false ∧ (readMantissa hex ⟨false, false, false, 0, 0⟩ s2).2 = [] ∧
            ((readMantissa hex ⟨false, false, false, 0, 0⟩ s2).1.underscores = true →
              underscoreOK t = true))) := by
  unfold readFloat
  rw [if_neg ht]
  dsimp only
  rw [hhex, hs2]
  generalize readMantissa hex ⟨false, false, false, 0, 0⟩ s2 = r
  by_cases hsd : r.1.sawdigits = true
  · rw [if_pos hsd]
    by_cases hexp : atExpChar hex r.2 = true
    · rw [if_pos hexp]
      cases hre : readExponent r.2.tail with
      | none =>
        dsimp only
        constructor
        · rintro ⟨_, h⟩
          cases h
        · rintro ⟨_, ⟨_, x, hx, _⟩ | ⟨h, _⟩⟩
          · cases hx
          · rw [hexp] at h
            cases h
      | some x =>
        dsimp only
        by_cases hx2 : x.2.2 = []
        · rw [hx2]
          simp only [List.length_nil, Nat.sub_zero, List.take_length]
          by_cases hflag : (r.1.underscores || x.2.1) = true
          · by_cases hok : underscoreOK t = true
            · rw [hflag, hok]
              simp only [Bool.not_true, Bool.and_false, Bool.false_eq_true, if_false]
              exact ⟨fun _ => ⟨hsd, Or.inl ⟨hexp, x, rfl, hx2, fun _ => trivial⟩⟩,
                fun _ => ⟨_, rfl⟩⟩
            · have hok2 : underscoreOK t = false := by
                cases h : underscoreOK t with
                | false => rfl
                | true => exact absurd h hok
              rw [hflag, hok2]
              simp only [Bool.not_false, Bool.and_true, if_true]
              constructor
              · rintro ⟨_, h⟩
                cases h
              · rintro ⟨_, ⟨_, y, hy, _, hy3⟩ | ⟨h, _⟩⟩
                · cases hy
                  exact absurd (hy3 hflag) (by simp)
                · rw [hexp] at h
                  cases h
          · have hflag2 : (r.1.underscores || x.2.1) = false := by
              cases h : (r.1.underscores || x.2.1) with
              | false => rfl
              | true => exact absurd h hflag
            rw [hflag2]
            simp only [Bool.false_and, Bool.false_eq_true, if_false]
            exact ⟨fun _ => ⟨hsd, Or.inl ⟨hexp, x, rfl, hx2, fun h => absurd h hflag⟩⟩,
              fun _ => ⟨_, rfl⟩⟩
        · constructor
          · rintro ⟨lit, h⟩
            exfalso
            split at h
            · cases h
            · exact hx2 (congrArg Prod.snd (Option.some.inj h))
          · rintro ⟨_, ⟨_, y, hy, hy2, _⟩ | ⟨h, _⟩⟩
            · cases hy
              exact absurd hy2 hx2
            · rw [hexp] at h
              cases h
    · rw [if_neg hexp]
      have hexp2 : atExpChar hex r.2 = false := by
        cases h : atExpChar hex r.2 with
        | false => rfl
        | true => exact absurd h hexp
      by_cases hh : hex = true
      · rw [if_pos hh]
        constructor
        · rintro ⟨_, h⟩
          cases h
        · rintro ⟨_, ⟨h, _⟩ | ⟨_, h, _⟩⟩
          · exact absurd h hexp
          · rw [hh] at h
            cases h
      · rw [if_neg hh]
        have hh2 : hex = false := by
          cases hex with
          | false => rfl
          | true => exact absurd rfl hh
        by_cases hr2 : r.2 = []
        · rw [hr2]
          simp only [List.length_nil, Nat.sub_zero, List.take_length]
          by_cases hflag : r.1.underscores = true
          · by_cases hok : underscoreOK t = true
            · rw [hflag, hok]
              simp only [Bool.not_true, Bool.and_false, Bool.false_eq_true, if_false]
              exact ⟨fun _ => ⟨hsd, Or.inr ⟨by rw [← hr2]; exact hexp2, hh2, trivial,
                fun _ => trivial⟩⟩, fun _ => ⟨_, rfl⟩⟩
            · have hok2 : underscoreOK t = false := by
                cases h : underscoreOK t with
                | false => rfl
                | true => exact absurd h hok
              rw [hflag, hok2]
              simp only [Bool.not_false, Bool.and_true, if_true]
              constructor
              · rintro ⟨_, h⟩
                cases h
              · rintro ⟨_, ⟨h, _⟩ | ⟨_, _, _, h⟩⟩
                · rw [← hr2, hexp2] at h
                  cases h
                · exact absurd (h trivial) (by simp)
          · have hflag2 : r.1.underscores = false := by
              cases h : r.1.underscores with
              | false => rfl
              | true => exact absurd h hflag
            rw [hflag2]
            simp only [Bool.false_and, Bool.false_eq_true, if_false]
            exact ⟨fun _ => ⟨hsd, Or.inr ⟨by rw [← hr2]; exact hexp2, hh2, trivial,
              fun h => by cases h⟩⟩, fun _ => ⟨_, rfl⟩⟩
        · constructor
          · rintro ⟨lit, h⟩
            exfalso
            split at h
            · cases h
            · exact hr2 (congrArg Prod.snd (Option.some.inj h))
          · rintro ⟨_, ⟨h, _⟩ | ⟨_, _, h, _⟩⟩
            · exact absurd h hexp
            · exact absurd h hr2
  · rw [if_neg hsd]
    constructor
    · rintro ⟨_, h⟩
      cases h
    · rintro ⟨h, _⟩
      exact absurd h hsd

theorem isNumericLiteral_eq (t : Str) (hex : Bool) (s2 : Str)
    (hhex : hasHexPrefix (stripSign t) = hex)
    (hs2 : (if hex = true then (stripSign t).drop 2 else stripSign t) = s2) :
    isNumericLiteral t = (isLiteralBody hex s2 && underscoresBetweenDigits hex hex s2) := by
  cases hex with
  | true =>
    obtain ⟨x, d, rest, h, hx⟩ := hasHexPrefix_true _ hhex
    rw [if_pos rfl, h] at hs2
    subst hs2
    unfold isNumericLiteral
    split
    · next x2 d2 rest2 heq =>
      rw [h] at heq
      cases heq
      rw [if_pos hx]
      rfl
    · next hne => exact absurd h (hne x d rest)
  | false =>
    rw [if_neg (by decide)] at hs2
    subst hs2
    unfold isNumericLiteral
    split
    · next x2 d2 rest2 heq =>
      by_cases hx : x2 = 'x' ∨ x2 = 'X'
      · rw [heq] at hhex
        have : hasHexPrefix ('0' :: x2 :: d2 :: rest2) = true := by
          unfold hasHexPrefix
          simpa using hx
        rw [this] at hhex
        cases hhex
      · rw [if_neg hx]
    · rfl

/-- The scanner `readFloat` accepts a text in full exactly when the text is a
numeric literal. -/
theorem readFloat_accepts_iff (t : Str) :
    (∃ lit, readFloat t = some (lit, [])) ↔ isNumericLiteral t = true := by
  by_cases ht : t = []
  · subst ht
    constructor
    · rintro ⟨_, h⟩
      cases h
    · intro h
      cases h
  · generalize hhex : hasHexPrefix (stripSign t) = hex
    generalize hs2 : (if hex = true then (stripSign t).drop 2 else stripSign t) = s2
    rw [isNumericLiteral_eq t hex s2 hhex hs2, readFloat_full_iff t ht hex s2 hhex hs2,
      Bool.and_eq_true]
    have huok : isLiteralBody hex s2 = true →
        underscoreOK t = underscoresBetweenDigits hex hex s2 := by
      intro hb
      cases hex with
      | true =>
        obtain ⟨x, d, rest, h, hx⟩ := hasHexPrefix_true _ hhex
        rw [if_pos rfl, h] at hs2
        subst hs2
        exact underscoreOK_hex t x d rest h hx
      | false =>
        rw [if_neg (by decide)] at hs2
        subst hs2
        exact underscoreOK_dec t hb
    have hfl := readMantissa_underscores hex s2
    constructor
    · rintro ⟨hsd, hc⟩
      have hb : isLiteralBody hex s2 = true := by
        refine (isLiteralBody_iff hex s2).mpr ⟨hsd, ?_⟩
        rcases hc with ⟨a, x, b, c, _⟩ | ⟨a, b, c, _⟩
        · exact Or.inl ⟨a, x, b, c⟩
        · exact Or.inr ⟨a, b, c⟩
      refine ⟨hb, ?_⟩
      by_cases hany : s2.any (fun c => decide (c = '_')) = true
      · rw [← huok hb]
        rcases hc with ⟨a, x, b, c, d⟩ | ⟨a, b, c, d⟩
        · exact d (by rw [hfl.2 a x b c]; exact hany)
        · exact d (by rw [hfl.1 c]; exact hany)
      · refine underscoresBetweenDigits_of_none hex s2 hex ?_
        cases h : s2.any (fun c => decide (c = '_')) with
        | false => rfl
        | true => exact absurd h hany
    · rintro ⟨hb, hu⟩
      obtain ⟨hsd, hc⟩ := (isLiteralBody_iff hex s2).mp hb
      refine ⟨hsd, ?_⟩
      rcases hc with ⟨a, x, b, c⟩ | ⟨a, b, c⟩
      · exact Or.inl ⟨a, x, b, c, fun _ => by rw [huok hb]; exact hu⟩
      · exact Or.inr ⟨a, b, c, fun _ => by rw [huok hb]; exact hu⟩

theorem ParseFloat_none_of_not_literal (fmt : FloatFormat) (t : Str)
    (hlit : isNumericLiteral t = false)
    (hword : t.map asciiLower ∉ specialWords) : ParseFloat fmt t = none := by
  unfold ParseFloat
  cases hs : special t with
  | some x =>
    dsimp only
    by_cases hn : x.2 = t.length
    · exact absurd (special_full t x.1 x.2 hs hn) hword
    · rw [if_neg hn]
  | none =>
    dsimp only
    cases hr : readFloat t with
    | none => rfl
    | some y =>
      dsimp only
      by_cases hy : y.2 = []
      · have := (readFloat_accepts_iff t).mp ⟨y.1, by rw [hr, ← hy]⟩
        rw [hlit] at this
        cases this
      · rw [if_pos hy]

/-- C17, as stated, fails: the word `nan` is not a numeric literal (`readFloat`
rejects it), yet `strconv.ParseFloat` accepts it as a special word and
`parseSize` returns NaN without an error; likewise `inf` gives an infinite
size. -/
theorem parseSize_accepts_nan :
    readFloat "nan".toList = none ∧ parseSize "nan".toList = some GoFloat.nan ∧
      parseSize " Infpx".toList = some (GoFloat.inf false) := by
  decide

/-- C17, amended. `parseSize` returns an error for every input whose text,
after trimming white space and removing one trailing `px`, is not a numeric
literal, unless that text is one of the special words `inf`, `infinity`
(possibly signed) or `nan` in any letter case: so for words such as `abc`, the
empty string, `px` alone, other unit suffixes (`10em`, `50%`, `10PX`), a number
followed by a space (`10 px`), and malformed numbers such as `1.2.3`, a lone
point, `0x10` (a base-16 mantissa without exponent) and `abc1`. The numeric
literals, `isNumericLiteral`, are exactly the texts that `readFloat` accepts
in full (`readFloat_accepts_iff`). -/
theorem parseSize_error (s : Str)
    (hlit : isNumericLiteral (TrimSuffix (TrimSpace s) "px".toList) = false)
    (hword : (TrimSuffix (TrimSpace s) "px".toList).map asciiLower ∉ specialWords) :
    parseSize s = none := by
  rw [parseSize_of_trim s _ rfl]
  exact ParseFloat_none_of_not_literal float32 _ hlit hword

theorem parseSize_error_witness :
    parseSize "abc".toList = none ∧ parseSize [] = none ∧ parseSize "px".toList = none ∧
      parseSize "10em".toList = none ∧ parseSize "50%".toList = none ∧
      parseSize "10PX".toList = none ∧ parseSize "10 px".toList = none ∧
      parseSize "1.2.3".toList = none ∧ parseSize ".".toList = none ∧
      parseSize "0x10".toList = none ∧ parseSize "abc1".toList = none ∧
      parseSize "1_px".toList = none ∧ parseSize " 1e px ".toList = none :=
  ⟨parseSize_error "abc".toList (by decide) (by decide),
    parseSize_error [] (by decide) (by decide),
    parseSize_error "px".toList (by decide) (by decide),
    parseSize_error "10em".toList (by decide) (by decide),
    parseSize_error "50%".toList (by decide) (by decide),
    parseSize_error "10PX".toList (by decide) (by decide),
    parseSize_error "10 px".toList (by decide) (by decide),
    parseSize_error "1.2.3".toList (by decide) (by decide),
    parseSize_error ".".toList (by decide) (by decide),
    parseSize_error "0x10".toList (by decide) (by decide),
    parseSize_error "abc1".toList (by decide) (by decide),
    parseSize_error "1_px".toList (by decide) (by decide),
    parseSize_error " 1e px ".toList (by decide) (by decide)⟩

/-! ## The build: unknown tags, box children, border slots -/

section BuildTheorems

theorem buildElement_of_unrecognised (tk : Toolkit) (b : BuilderState) (elem : Element)
    (h : elem.tag ∉ recognisedTags) : buildElement tk b elem = (b, none) := by
  cases elem with
  | mk tag ID cls sty text attrs children content =>
    simp only [recognisedTags, Element.tag, List.mem_cons, List.mem_singleton, not_or,
      List.not_mem_nil, not_false_eq_true, and_true] at h
    obtain ⟨h1, h2, h3, h4, h5, h6, h7, h8, h9, h10, h11, h12, h13, h14, h15, h16, h17⟩ := h
    rw [buildElement]
    simp only [h1, h2, h3, h4, h5, h6, h7, h8, h9, h10, h11, h12, h13, h14, h15, h16, h17,
      if_false]

theorem buildElement_of_recognised (tk : Toolkit) (b : BuilderState) (elem : Element)
    (h : elem.tag ∈ recognisedTags) : ∃ obj, (buildElement tk b elem).2 = some obj := by
  cases elem with
  | mk tag ID cls sty text attrs children content =>
    simp only [recognisedTags, Element.tag, List.mem_cons, List.mem_singleton,
      List.not_mem_nil, or_false] at h
    rcases h with h | h | h | h | h | h | h | h | h | h | h | h | h | h | h | h | h <;>
      (subst h; exact ⟨_, rfl⟩)

theorem buildElement_none_iff (tk : Toolkit) (b : BuilderState) (elem : Element) :
    (buildElement tk b elem).2 = none ↔ elem.tag ∉ recognisedTags := by
  constructor
  · intro h hmem
    obtain ⟨obj, hobj⟩ := buildElement_of_recognised tk b elem hmem
    rw [hobj] at h
    cases h
  · intro h
    rw [buildElement_of_unrecognised tk b elem h]

theorem buildElement_VBox (tk : Toolkit) (b : BuilderState) (elem : Element)
    (h : elem.tag = "VBox".toList) :
    buildElement tk b elem = finishElement (buildChildren tk b elem.Children).1 elem.ID
      (CanvasObject.VBox (buildChildren tk b elem.Children).2) := by
  cases elem with
  | mk tag ID cls sty text attrs children content =>
    simp only [Element.tag] at h
    subst h
    rfl

theorem buildElement_HBox (tk : Toolkit) (b : BuilderState) (elem : Element)
    (h : elem.tag = "HBox".toList) :
    buildElement tk b elem = finishElement (buildChildren tk b elem.Children).1 elem.ID
      (CanvasObject.HBox (buildChildren tk b elem.Children).2) := by
  cases elem with
  | mk tag ID cls sty text attrs children content =>
    simp only [Element.tag] at h
    subst h
    rfl

theorem buildElement_Grid (tk : Toolkit) (b : BuilderState) (elem : Element)
    (h : elem.tag = "Grid".toList) :
    buildElement tk b elem = finishElement (buildChildren tk b elem.Children).1 elem.ID
      (CanvasObject.GridWithColumns (gridColumns elem) (buildChildren tk b elem.Children).2) := by
  cases elem with
  | mk tag ID cls sty text attrs children content =>
    simp only [Element.tag] at h
    subst h
    rfl

theorem buildElement_Border (tk : Toolkit) (b : BuilderState) (elem : Element)
    (h : elem.tag = "Border".toList) :
    buildElement tk b elem =
      finishElement (buildBorderChildren tk b BorderSlots.empty elem.Children).1 elem.ID
        (CanvasObject.Border (buildBorderChildren tk b BorderSlots.empty elem.Children).2.top
          (buildBorderChildren tk b BorderSlots.empty elem.Children).2.bottom
          (buildBorderChildren tk b BorderSlots.empty elem.Children).2.left
          (buildBorderChildren tk b BorderSlots.empty elem.Children).2.right
          (buildBorderChildren tk b BorderSlots.empty elem.Children).2.center) := by
  cases elem with
  | mk tag ID cls sty text attrs children content =>
    simp only [Element.tag] at h
    subst h
    rfl

theorem buildChildren_cons (tk : Toolkit) (b : BuilderState) (child : Element)
    (rest : List Element) :
    buildChildren tk b (child :: rest) =
      match (buildElement tk b child).2 with
      | some obj =>
        ((buildChildren tk (buildElement tk b child).1 rest).1,
          obj :: (buildChildren tk (buildElement tk b child).1 rest).2)
      | none => buildChildren tk (buildElement tk b child).1 rest := by
  rw [buildChildren]

theorem buildBorderChildren_cons (tk : Toolkit) (b : BuilderState) (slots : BorderSlots)
    (child : Element) (rest : List Element) :
    buildBorderChildren tk b slots (child :: rest) =
      match (buildElement tk b child).2 with
      | some obj =>
        buildBorderChildren tk (buildElement tk b child).1
          (slots.assign (child.getAttr "position".toList) obj) rest
      | none => buildBorderChildren tk (buildElement tk b child).1 slots rest := by
  rw [buildBorderChildren]

theorem buildChildren_objects (tk : Toolkit) (children : List Element) :
    ∀ b : BuilderState,
      (buildChildren tk b children).2 = (buildEach tk b children).filterMap fun r => r.2 := by
  induction children with
  | nil => intro b; rfl
  | cons child rest ih =>
    intro b
    rw [buildChildren_cons, buildEach, List.filterMap_cons]
    cases hr : (buildElement tk b child).2 with
    | none => simp only [ih]
    | some obj => simp only [ih]

theorem buildEach_results (tk : Toolkit) (children : List Element) :
    ∀ b : BuilderState,
      List.Forall₂ (fun child r => r.2 = none ↔ child.tag ∉ recognisedTags) children
        (buildEach tk b children) := by
  induction children with
  | nil => intro b; exact List.Forall₂.nil
  | cons child rest ih =>
    intro b
    rw [buildEach]
    exact List.Forall₂.cons (buildElement_none_iff tk b child) (ih _)

theorem getLast?_cons_getD {α : Type} (a : α) (l : List α) :
    (a :: l).getLast? = some (l.getLast?.getD a) := by
  cases l with
  | nil => rfl
  | cons x t =>
    rw [List.getLast?_cons_cons]
    cases h : (x :: t).getLast? with
    | none => simp at h
    | some y => rfl

theorem lastBuilt_cons (p : Str → Bool) (child : Element) (rest : List Element)
    (r : BuilderState × Option CanvasObject)
    (results : List (BuilderState × Option CanvasObject)) :
    lastBuilt p (child :: rest) (r :: results) =
      match lastBuilt p rest results with
      | some o => some o
      | none => if p (child.getAttr "position".toList) = true then r.2 else none := by
  unfold lastBuilt
  rw [List.zip_cons_cons, List.filter_cons]
  by_cases hp : p (child.getAttr "position".toList) = true
  · simp only [hp, if_true, List.filterMap_cons]
    cases hr : r.2 with
    | none =>
      simp only []
      cases (List.filterMap (fun q : Element × BuilderState × Option CanvasObject => q.2.2)
        (List.filter (fun q => p (q.1.getAttr "position".toList)) (rest.zip results))).getLast?
        <;> rfl
    | some o =>
      simp only []
      rw [getLast?_cons_getD]
      cases (List.filterMap (fun q : Element × BuilderState × Option CanvasObject => q.2.2)
        (List.filter (fun q => p (q.1.getAttr "position".toList)) (rest.zip results))).getLast?
        <;> rfl
  · simp only [hp, if_false, Bool.false_eq_true]
    cases (List.filterMap (fun q : Element × BuilderState × Option CanvasObject => q.2.2)
      (List.filter (fun q => p (q.1.getAttr "position".toList)) (rest.zip results))).getLast?
      <;> rfl

theorem buildBorderChildren_slot (tk : Toolkit) (slot : BorderSlots → Option CanvasObject)
    (p : Str → Bool)
    (hslot : ∀ (s : BorderSlots) (pos : Str) (obj : CanvasObject),
      slot (s.assign pos obj) = if p pos = true then some obj else slot s)
    (children : List Element) :
    ∀ (b : BuilderState) (slots : BorderSlots),
      slot (buildBorderChildren tk b slots children).2 =
        match lastBuilt p children (buildEach tk b children) with
        | some o => some o
        | none => slot slots := by
  induction children with
  | nil => intro b slots; rfl
  | cons child rest ih =>
    intro b slots
    rw [buildBorderChildren_cons, buildEach, lastBuilt_cons]
    cases hr : (buildElement tk b child).2 with
    | none =>
      simp only []
      rw [ih]
      cases lastBuilt p rest (buildEach tk (buildElement tk b child).1 rest) with
      | none => simp
      | some o => rfl
    | some obj =>
      simp only []
      rw [ih, hslot]
      cases lastBuilt p rest (buildEach tk (buildElement tk b child).1 rest) with
      | none => split_ifs <;> rfl
      | some o => rfl

theorem assign_top (s : BorderSlots) (pos : Str) (obj : CanvasObject) :
    (s.assign pos obj).top =
      if (decide (pos = "top".toList)) = true then some obj else s.top := by
  unfold BorderSlots.assign
  by_cases h1 : pos = "top".toList
  · simp [h1]
  · simp only [h1, if_false, decide_False, Bool.false_eq_true]
    split_ifs <;> rfl

theorem assign_bottom (s : BorderSlots) (pos : Str) (obj : CanvasObject) :
    (s.assign pos obj).bottom =
      if (decide (pos = "bottom".toList)) = true then some obj else s.bottom := by
  unfold BorderSlots.assign
  by_cases h1 : pos = "bottom".toList
  · subst h1
    simp only [decide_True, if_true]
    rfl
  · simp only [h1, if_false, decide_False, Bool.false_eq_true]
    split_ifs <;> rfl

theorem assign_left (s : BorderSlots) (pos : Str) (obj : CanvasObject) :
    (s.assign pos obj).left =
      if (decide (pos = "left".toList)) = true then some obj else s.left := by
  unfold BorderSlots.assign
  by_cases h1 : pos = "left".toList
  · subst h1
    simp only [decide_True, if_true]
    rfl
  · simp only [h1, if_false, decide_False, Bool.false_eq_true]
    split_ifs <;> rfl

theorem assign_right (s : BorderSlots) (pos : Str) (obj : CanvasObject) :
    (s.assign pos obj).right =
      if (decide (pos = "right".toList)) = true then some obj else s.right := by
  unfold BorderSlots.assign
  by_cases h1 : pos = "right".toList
  · subst h1
    simp only [decide_True, if_true]
    rfl
  · simp only [h1, if_false, decide_False, Bool.false_eq_true]
    split_ifs <;> rfl

theorem assign_center (s : BorderSlots) (pos : Str) (obj : CanvasObject) :
    (s.assign pos obj).center =
      if (decide (pos = "center".toList) || decide (pos = [])) = true then some obj
      else s.center := by
  unfold BorderSlots.assign
  by_cases h1 : pos = "center".toList
  · subst h1
    simp only [decide_True, Bool.true_or, if_true]
    rfl
  · by_cases h2 : pos = []
    · subst h2
      simp only [decide_True, Bool.or_true, if_true]
      rfl
    · simp only [h1, h2, or_self, if_false, decide_False, Bool.or_self, Bool.false_eq_true]
      split_ifs <;> rfl

/-- C18. `Build` returns an error exactly when the tag of the root element is
not one of the recognised tags; it then returns no object and leaves the
builder, hence the table of ids, as it was; and when the root tag is recognised
it returns an object whatever tags occur below the root. -/
theorem Build_error_iff_root_unrecognised (tk : Toolkit) (b : BuilderState) (layout : Layout) :
    ((Build tk b layout).2 = none ↔ layout.Root.tag ∉ recognisedTags) ∧
      (layout.Root.tag ∉ recognisedTags → Build tk b layout = (b, none)) ∧
      (layout.Root.tag ∈ recognisedTags → ∃ obj, (Build tk b layout).2 = some obj) :=
  ⟨buildElement_none_iff tk b layout.Root, buildElement_of_unrecognised tk b layout.Root,
    buildElement_of_recognised tk b layout.Root⟩

theorem Build_error_iff_root_unrecognised_witness :
    Build testKit NewBuilder unknownRootLayout = (NewBuilder, none) ∧
      (∃ obj, (Build testKit NewBuilder ⟨[], mixedBox⟩).2 = some obj) ∧
      (Build testKit NewBuilder ⟨[], mixedBox⟩).2 =
        some (CanvasObject.VBox
          [CanvasObject.GridWithColumns 3 [CanvasObject.Label [] TextAlign.Leading false false],
            CanvasObject.Button "OK".toList "save".toList "ok".toList]) :=
  ⟨(Build_error_iff_root_unrecognised testKit NewBuilder unknownRootLayout).2.1 (by decide),
    (Build_error_iff_root_unrecognised testKit NewBuilder ⟨[], mixedBox⟩).2.2 (by decide), rfl⟩

/-- C19. For an element with tag `VBox`, `HBox` or `Grid` the build returns the
container of its kind whose objects are exactly the objects of the children
built without error, in document order, each child being built with the
builder its elder sibling left; the build of a child fails exactly when its
tag is not recognised, and such a child is left out while the container is
still returned. -/
theorem buildElement_box_children (tk : Toolkit) (b : BuilderState) (elem : Element) :
    ∃ objs : List CanvasObject,
      objs = (buildEach tk b elem.Children).filterMap (fun r => r.2) ∧
      List.Forall₂ (fun child r => r.2 = none ↔ child.tag ∉ recognisedTags) elem.Children
        (buildEach tk b elem.Children) ∧
      (elem.tag = "VBox".toList → (buildElement tk b elem).2 = some (CanvasObject.VBox objs)) ∧
      (elem.tag = "HBox".toList → (buildElement tk b elem).2 = some (CanvasObject.HBox objs)) ∧
      (elem.tag = "Grid".toList →
        (buildElement tk b elem).2 =
          some (CanvasObject.GridWithColumns (gridColumns elem) objs)) := by
  refine ⟨_, rfl, buildEach_results tk elem.Children b, ?_, ?_, ?_⟩
  · intro hv
    rw [buildElement_VBox tk b elem hv, ← buildChildren_objects]
    rfl
  · intro hv
    rw [buildElement_HBox tk b elem hv, ← buildChildren_objects]
    rfl
  · intro hv
    rw [buildElement_Grid tk b elem hv, ← buildChildren_objects]
    rfl

theorem buildElement_box_children_witness :
    mixedBox.tag = "VBox".toList ∧
      (buildEach testKit NewBuilder mixedBox.Children).map (fun r => r.2) =
        [some (CanvasObject.GridWithColumns 3
            [CanvasObject.Label [] TextAlign.Leading false false]),
          none, some (CanvasObject.Button "OK".toList "save".toList "ok".toList)] ∧
      (buildElement testKit NewBuilder mixedBox).2 =
        some (CanvasObject.VBox
          [CanvasObject.GridWithColumns 3 [CanvasObject.Label [] TextAlign.Leading false false],
            CanvasObject.Button "OK".toList "save".toList "ok".toList]) ∧
      ∃ objs : List CanvasObject,
        objs = (buildEach testKit NewBuilder mixedBox.Children).filterMap (fun r => r.2) ∧
        List.Forall₂ (fun child r => r.2 = none ↔ child.tag ∉ recognisedTags)
          mixedBox.Children (buildEach testKit NewBuilder mixedBox.Children) ∧
        (buildElement testKit NewBuilder mixedBox).2 = some (CanvasObject.VBox objs) :=
  ⟨rfl, rfl, rfl,
    (buildElement_box_children testKit NewBuilder mixedBox).imp
      fun _ hx => ⟨hx.1, hx.2.1, hx.2.2.1 rfl⟩⟩

/-- C20, as stated, fails: in the border `middleBorder` the child with
`position="middle"` is built without error, yet the border is made with an
empty center slot; that child is assigned to no slot. -/
theorem buildBorder_middle_unassigned :
    (buildElement testKit NewBuilder
        (mkElem "Label" "" [("position", "middle")] [] "M")).2 =
        some (CanvasObject.Label "M".toList TextAlign.Leading false false) ∧
      (buildElement testKit NewBuilder middleBorder).2 =
        some (CanvasObject.Border
          (some (CanvasObject.Label "T".toList TextAlign.Leading false false))
          none none none none) :=
  ⟨rfl, rfl⟩

/-- C20, amended. In a Border element every child built without error whose
`position` attribute is absent, empty or `center` is assigned to the center
slot, so that the border is made with the last such child as its center; the
slots `top`, `bottom`, `left` and `right` likewise hold the last child built
with that position, and a child with any other position (such as `middle`) is
assigned to no slot. -/
theorem buildBorder_slots (tk : Toolkit) (b : BuilderState) (elem : Element)
    (h : elem.tag = "Border".toList) :
    (buildElement tk b elem).2 =
      some (CanvasObject.Border
        (lastBuilt (fun pos => decide (pos = "top".toList)) elem.Children
          (buildEach tk b elem.Children))
        (lastBuilt (fun pos => decide (pos = "bottom".toList)) elem.Children
          (buildEach tk b elem.Children))
        (lastBuilt (fun pos => decide (pos = "left".toList)) elem.Children
          (buildEach tk b elem.Children))
        (lastBuilt (fun pos => decide (pos = "right".toList)) elem.Children
          (buildEach tk b elem.Children))
        (lastBuilt (fun pos => decide (pos = "center".toList) || decide (pos = []))
          elem.Children (buildEach tk b elem.Children))) := by
  rw [buildElement_Border tk b elem h]
  have e1 := buildBorderChildren_slot tk BorderSlots.top _ assign_top elem.Children b
    BorderSlots.empty
  have e2 := buildBorderChildren_slot tk BorderSlots.bottom _ assign_bottom elem.Children b
    BorderSlots.empty
  have e3 := buildBorderChildren_slot tk BorderSlots.left _ assign_left elem.Children b
    BorderSlots.empty
  have e4 := buildBorderChildren_slot tk BorderSlots.right _ assign_right elem.Children b
    BorderSlots.empty
  have e5 := buildBorderChildren_slot tk BorderSlots.center _ assign_center elem.Children b
    BorderSlots.empty
  have hnone : ∀ o : Option CanvasObject,
      (match o with
        | some x => some x
        | none => none) = o := by
    intro o
    cases o <;> rfl
  simp only [BorderSlots.empty, hnone] at e1 e2 e3 e4 e5
  simp only [finishElement, BorderSlots.empty, e1, e2, e3, e4, e5]

theorem buildBorder_slots_witness :
    centerBorder.tag = "Border".toList ∧
      (buildElement testKit NewBuilder centerBorder).2 =
        some (CanvasObject.Border none
          (some (CanvasObject.Label "B".toList TextAlign.Leading false false)) none none
          (some (CanvasObject.Label "C".toList TextAlign.Leading false false))) ∧
      lastBuilt (fun pos => decide (pos = "center".toList) || decide (pos = []))
          centerBorder.Children (buildEach testKit NewBuilder centerBorder.Children) =
        some (CanvasObject.Label "C".toList TextAlign.Leading false false) ∧
      (buildElement testKit NewBuilder centerBorder).2 =
        some (CanvasObject.Border
          (lastBuilt (fun pos => decide (pos = "top".toList)) centerBorder.Children
            (buildEach testKit NewBuilder centerBorder.Children))
          (lastBuilt (fun pos => decide (pos = "bottom".toList)) centerBorder.Children
            (buildEach testKit NewBuilder centerBorder.Children))
          (lastBuilt (fun pos => decide (pos = "left".toList)) centerBorder.Children
            (buildEach testKit NewBuilder centerBorder.Children))
          (lastBuilt (fun pos => decide (pos = "right".toList)) centerBorder.Children
            (buildEach testKit NewBuilder centerBorder.Children))
          (lastBuilt (fun pos => decide (pos = "center".toList) || decide (pos = []))
            centerBorder.Children (buildEach testKit NewBuilder centerBorder.Children))) :=
  ⟨rfl, rfl, rfl, buildBorder_slots testKit NewBuilder centerBorder rfl⟩

end BuildTheorems

/-! ## The table of ids -/

section IdTable

theorem storeElement_elements_ne (b : BuilderState) (ID id : Str) (obj : CanvasObject)
    (h : id ≠ ID) : (storeElement b ID obj).elements id = b.elements id := by
  unfold storeElement
  split_ifs
  · rfl
  · simp only [GoMap.set]
    rw [if_neg h]

theorem storeElement_elements_self (b : BuilderState) (ID : Str) (obj : CanvasObject)
    (h : ID ≠ []) : (storeElement b ID obj).elements ID = some obj := by
  unfold storeElement
  rw [if_neg h]
  simp [GoMap.set]

theorem registerWidget_elements (b : BuilderState) (ID : Str) (w : CanvasObject) :
    (registerWidget b ID w).elements = b.elements := by
  unfold registerWidget BuilderState.GetBindingContext
  split_ifs
  · rfl
  · cases b.bindingContext <;> rfl

theorem GetBindingContext_elements (b : BuilderState) :
    b.GetBindingContext.1.elements = b.elements := by
  unfold BuilderState.GetBindingContext
  cases b.bindingContext <;> rfl

theorem buildCheckbox_elements_ne (tk : Toolkit) (b : BuilderState) (elem : Element)
    (style : GoMap Str) (id : Str) (h : id ≠ elem.ID) :
    (buildCheckbox tk b elem style).1.elements id = b.elements id := by
  unfold buildCheckbox
  simp only [storeElement_elements_ne _ _ _ _ h, registerWidget_elements]
  split_ifs
  · rfl
  · exact congrFun (GetBindingContext_elements b) id

theorem buildSelect_elements_ne (tk : Toolkit) (b : BuilderState) (elem : Element)
    (style : GoMap Str) (id : Str) (h : id ≠ elem.ID) :
    (buildSelect tk b elem style).1.elements id = b.elements id := by
  unfold buildSelect
  simp only [storeElement_elements_ne _ _ _ _ h, registerWidget_elements]
  split_ifs
  · rfl
  · exact congrFun (GetBindingContext_elements b) id

theorem buildProgressBar_elements_ne (tk : Toolkit) (b : BuilderState) (elem : Element)
    (style : GoMap Str) (id : Str) (h : id ≠ elem.ID) :
    (buildProgressBar tk b elem style).1.elements id = b.elements id := by
  unfold buildProgressBar
  simp only [storeElement_elements_ne _ _ _ _ h, registerWidget_elements]
  split_ifs
  · rfl
  · exact congrFun (GetBindingContext_elements b) id

theorem buildSlider_elements_ne (tk : Toolkit) (b : BuilderState) (elem : Element)
    (style : GoMap Str) (id : Str) (h : id ≠ elem.ID) :
    (buildSlider tk b elem style).1.elements id = b.elements id := by
  unfold buildSlider
  simp only [storeElement_elements_ne _ _ _ _ h, registerWidget_elements]
  split_ifs
  · rfl
  · exact congrFun (GetBindingContext_elements b) id

theorem buildRadioGroup_elements_ne (tk : Toolkit) (b : BuilderState) (elem : Element)
    (style : GoMap Str) (id : Str) (h : id ≠ elem.ID) :
    (buildRadioGroup tk b elem style).1.elements id = b.elements id := by
  unfold buildRadioGroup
  simp only [storeElement_elements_ne _ _ _ _ h, registerWidget_elements]

theorem buildImage_elements_ne (tk : Toolkit) (b : BuilderState) (elem : Element)
    (style : GoMap Str) (id : Str) (h : id ≠ elem.ID) :
    (buildImage tk b elem style).1.elements id = b.elements id := by
  unfold buildImage
  by_cases hs : elem.getAttr "src".toList = []
  · rw [if_pos hs]
  · rw [if_neg hs]
    cases NewImageWidget tk (elem.getAttr "src".toList) with
    | none => rfl
    | some img =>
      simp only [storeElement_elements_ne _ _ _ _ h]
      by_cases hi : elem.ID = []
      · simp only [hi, if_true]
      · simp only [hi, if_false]

theorem buildElement_finish (tk : Toolkit) (b : BuilderState) (elem : Element)
    (h : elem.tag ∈ recognisedTags) :
    ∃ (b1 : BuilderState) (obj : CanvasObject),
      buildElement tk b elem = finishElement b1 elem.ID obj := by
  cases elem with
  | mk tag ID cls sty text attrs children content =>
    simp only [recognisedTags, Element.tag, List.mem_cons, List.mem_singleton,
      List.not_mem_nil, or_false] at h
    rcases h with h | h | h | h | h | h | h | h | h | h | h | h | h | h | h | h | h <;>
      (subst h; exact ⟨_, _, rfl⟩)

theorem buildElement_leaf (tk : Toolkit) (b : BuilderState) (elem : Element)
    (h : elem.tag ∈ recognisedTags)
    (hc : elem.tag ∉ ["VBox".toList, "HBox".toList, "Grid".toList, "Border".toList]) :
    ∃ (b1 : BuilderState) (obj : CanvasObject),
      buildElement tk b elem = finishElement b1 elem.ID obj ∧
        ∀ id, id ≠ elem.ID → b1.elements id = b.elements id := by
  cases elem with
  | mk tag ID cls sty text attrs children content =>
    simp only [recognisedTags, Element.tag, List.mem_cons, List.mem_singleton,
      List.not_mem_nil, or_false] at h
    simp only [Element.tag, List.mem_cons, List.mem_singleton, List.not_mem_nil, or_false,
      not_or] at hc
    obtain ⟨c1, c2, c3, c4⟩ := hc
    rcases h with h | h | h | h | h | h | h | h | h | h | h | h | h | h | h | h | h
    · exact absurd h c1
    · exact absurd h c2
    · exact absurd h c3
    · exact absurd h c4
    · subst h; exact ⟨b, _, rfl, fun _ _ => rfl⟩
    · subst h; exact ⟨b, _, rfl, fun _ _ => rfl⟩
    · subst h; exact ⟨b, _, rfl, fun _ _ => rfl⟩
    · subst h; exact ⟨b, _, rfl, fun _ _ => rfl⟩
    · subst h; exact ⟨b, _, rfl, fun _ _ => rfl⟩
    · subst h; exact ⟨b, _, rfl, fun _ _ => rfl⟩
    · subst h; exact ⟨b, _, rfl, fun _ _ => rfl⟩
    · subst h; exact ⟨_, _, rfl, fun id hid => buildCheckbox_elements_ne tk b _ _ id hid⟩
    · subst h; exact ⟨_, _, rfl, fun id hid => buildSelect_elements_ne tk b _ _ id hid⟩
    · subst h; exact ⟨_, _, rfl, fun id hid => buildProgressBar_elements_ne tk b _ _ id hid⟩
    · subst h; exact ⟨_, _, rfl, fun id hid => buildSlider_elements_ne tk b _ _ id hid⟩
    · subst h; exact ⟨_, _, rfl, fun id hid => buildImage_elements_ne tk b _ _ id hid⟩
    · subst h; exact ⟨_, _, rfl, fun id hid => buildRadioGroup_elements_ne tk b _ _ id hid⟩

theorem buildElement_elements_self (tk : Toolkit) (b : BuilderState) (elem : Element)
    (h : elem.tag ∈ recognisedTags) (hid : elem.ID ≠ []) :
    (buildElement tk b elem).1.elements elem.ID = (buildElement tk b elem).2 := by
  obtain ⟨b1, obj, e⟩ := buildElement_finish tk b elem h
  rw [e]
  exact storeElement_elements_self b1 elem.ID obj hid

mutual
theorem buildElement_elements_frame (tk : Toolkit) (id : Str) :
    ∀ (elem : Element) (b : BuilderState), id ∉ elem.ids →
      (buildElement tk b elem).1.elements id = b.elements id
  | Element.mk tag ID cls sty text attrs children content, b, h => by
    rw [Element.ids, List.mem_cons, not_or] at h
    obtain ⟨hne, hch⟩ := h
    by_cases hr : tag ∈ recognisedTags
    · by_cases hc : tag ∈ ["VBox".toList, "HBox".toList, "Grid".toList, "Border".toList]
      · simp only [List.mem_cons, List.mem_singleton, List.not_mem_nil, or_false] at hc
        rcases hc with hc | hc | hc | hc
        · rw [buildElement_VBox tk b (Element.mk tag ID cls sty text attrs children content) hc]
          exact (storeElement_elements_ne _ _ _ _ hne).trans
            (buildChildren_elements_frame tk id children b hch)
        · rw [buildElement_HBox tk b (Element.mk tag ID cls sty text attrs children content) hc]
          exact (storeElement_elements_ne _ _ _ _ hne).trans
            (buildChildren_elements_frame tk id children b hch)
        · rw [buildElement_Grid tk b (Element.mk tag ID cls sty text attrs children content) hc]
          exact (storeElement_elements_ne _ _ _ _ hne).trans
            (buildChildren_elements_frame tk id children b hch)
        · rw [buildElement_Border tk b (Element.mk tag ID cls sty text attrs children content) hc]
          exact (storeElement_elements_ne _ _ _ _ hne).trans
            (buildBorderChildren_elements_frame tk id children b BorderSlots.empty hch)
      · obtain ⟨b1, obj, e, hf⟩ := buildElement_leaf tk b
          (Element.mk tag ID cls sty text attrs children content) hr hc
        rw [e]
        exact (storeElement_elements_ne _ _ _ _ hne).trans (hf id hne)
    · rw [buildElement_of_unrecognised tk b (Element.mk tag ID cls sty text attrs children content) hr]
theorem buildChildren_elements_frame (tk : Toolkit) (id : Str) :
    ∀ (children : List Element) (b : BuilderState), id ∉ Element.idsOfList children →
      (buildChildren tk b children).1.elements id = b.elements id
  | [], b, _ => rfl
  | child :: rest, b, h => by
    rw [Element.idsOfList, List.mem_append, not_or] at h
    rw [buildChildren_cons]
    have h1 := buildElement_elements_frame tk id child b h.1
    have h2 := buildChildren_elements_frame tk id rest (buildElement tk b child).1 h.2
    cases (buildElement tk b child).2 with
    | none => exact h2.trans h1
    | some obj => exact h2.trans h1
theorem buildBorderChildren_elements_frame (tk : Toolkit) (id : Str) :
    ∀ (children : List Element) (b : BuilderState) (slots : BorderSlots),
      id ∉ Element.idsOfList children →
      (buildBorderChildren tk b slots children).1.elements id = b.elements id
  | [], b, _, _ => rfl
  | child :: rest, b, slots, h => by
    rw [Element.idsOfList, List.mem_append, not_or] at h
    rw [buildBorderChildren_cons]
    have h1 := buildElement_elements_frame tk id child b h.1
    cases hr : (buildElement tk b child).2 with
    | none =>
      exact (buildBorderChildren_elements_frame tk id rest (buildElement tk b child).1 slots
        h.2).trans h1
    | some obj =>
      exact (buildBorderChildren_elements_frame tk id rest (buildElement tk b child).1
        (slots.assign (child.getAttr "position".toList) obj) h.2).trans h1
end

theorem buildChildren_append_fst (tk : Toolkit) (l1 l2 : List Element) :
    ∀ b : BuilderState,
      (buildChildren tk b (l1 ++ l2)).1 = (buildChildren tk (buildChildren tk b l1).1 l2).1 := by
  induction l1 with
  | nil => intro b; rfl
  | cons child rest ih =>
    intro b
    rw [List.cons_append, buildChildren_cons, buildChildren_cons]
    cases (buildElement tk b child).2 with
    | none => exact ih _
    | some obj => exact ih _

theorem buildChildren_elements_later (tk : Toolkit) (id : Str) (post : List Element) :
    ∀ b : BuilderState, (∀ e ∈ post, e.tag ∉ recognisedTags ∨ id ∉ e.ids) →
      (buildChildren tk b post).1.elements id = b.elements id := by
  induction post with
  | nil => intro b _; rfl
  | cons child rest ih =>
    intro b h
    have h1 : (buildElement tk b child).1.elements id = b.elements id := by
      rcases h child (List.mem_cons_self _ _) with hu | hf
      · rw [buildElement_of_unrecognised tk b child hu]
      · exact buildElement_elements_frame tk id child b hf
    have h2 := ih (buildElement tk b child).1 (fun e he => h e (List.mem_cons_of_mem _ he))
    rw [buildChildren_cons]
    cases (buildElement tk b child).2 with
    | none => exact h2.trans h1
    | some obj => exact h2.trans h1

theorem buildChildren_elements_last (tk : Toolkit) (b : BuilderState) (pre post : List Element)
    (c : Element) (hne : c.ID ≠ []) (hc : c.tag ∈ recognisedTags)
    (hpost : ∀ e ∈ post, e.tag ∉ recognisedTags ∨ c.ID ∉ e.ids) :
    (buildChildren tk b (pre ++ c :: post)).1.elements c.ID =
      (buildElement tk (buildChildren tk b pre).1 c).2 := by
  rw [buildChildren_append_fst, buildChildren_cons]
  have h1 := buildElement_elements_self tk (buildChildren tk b pre).1 c hc hne
  have h2 := buildChildren_elements_later tk c.ID post
    (buildElement tk (buildChildren tk b pre).1 c).1 hpost
  cases hr : (buildElement tk (buildChildren tk b pre).1 c).2 with
  | none => rw [hr] at h1; exact h2.trans h1
  | some obj => rw [hr] at h1; exact h2.trans h1

theorem buildElement_box_state (tk : Toolkit) (b : BuilderState) (elem : Element)
    (h : elem.tag = "VBox".toList ∨ elem.tag = "HBox".toList ∨ elem.tag = "Grid".toList) :
    ∃ obj, buildElement tk b elem =
      finishElement (buildChildren tk b elem.Children).1 elem.ID obj := by
  rcases h with h | h | h
  · exact ⟨_, buildElement_VBox tk b elem h⟩
  · exact ⟨_, buildElement_HBox tk b elem h⟩
  · exact ⟨_, buildElement_Grid tk b elem h⟩

/-- C21, as stated, fails. In `nestedDupLayout` the id `a` is carried by one
child of the root box, the label, yet after the build `GetElement` gives the
button below the later sibling, which was built afterwards. In `lostDupLayout`
the last child carrying `a` has an unrecognised tag: building it returns no
object, and `GetElement` gives the label before it. -/
theorem GetElement_not_last_sibling :
    ((Build testKit NewBuilder nestedDupLayout).2.isSome = true ∧
        nestedDupLayout.Root.Children.map Element.ID = ["a".toList, []] ∧
        (buildElement testKit NewBuilder (mkElem "Label" "a" [] [] "first")).2 =
          some (CanvasObject.Label "first".toList TextAlign.Leading false false) ∧
        (Build testKit NewBuilder nestedDupLayout).1.GetElement "a".toList =
          some (CanvasObject.Button "second".toList [] "a".toList)) ∧
      ((Build testKit NewBuilder lostDupLayout).2.isSome = true ∧
        lostDupLayout.Root.Children.map Element.ID = ["a".toList, "a".toList] ∧
        (buildElement testKit NewBuilder (mkElem "Widget" "a" [] [] "second")).2 = none ∧
        (Build testKit NewBuilder lostDupLayout).1.GetElement "a".toList =
          some (CanvasObject.Label "first".toList TextAlign.Leading false false)) :=
  ⟨⟨rfl, rfl, rfl, rfl⟩, rfl, rfl, rfl, rfl⟩

/-- C21, amended. After a successful `Build` of a layout whose root is a box
container, for a non-empty id carried by a child `c` of the root with a
recognised tag, such that every later child either has an unrecognised tag
(its build fails) or carries the id neither itself nor below it, and such that
the root does not carry the id: `GetElement(id)` is the object returned by
building `c` (with the builder as its elder siblings left it), whatever was
stored under the id before. -/
theorem GetElement_last_built_sibling (tk : Toolkit) (b : BuilderState) (layout : Layout)
    (pre post : List Element) (c : Element) (id : Str)
    (hbox : layout.Root.tag = "VBox".toList ∨ layout.Root.tag = "HBox".toList ∨
      layout.Root.tag = "Grid".toList)
    (hch : layout.Root.Children = pre ++ c :: post)
    (hid : c.ID = id) (hne : id ≠ []) (hc : c.tag ∈ recognisedTags)
    (hpost : ∀ e ∈ post, e.tag ∉ recognisedTags ∨ id ∉ e.ids)
    (hroot : layout.Root.ID ≠ id) :
    ∃ obj, (buildElement tk (buildChildren tk b pre).1 c).2 = some obj ∧
      (Build tk b layout).2.isSome = true ∧
      (Build tk b layout).1.GetElement id = some obj := by
  subst hid
  obtain ⟨obj, hobj⟩ := buildElement_of_recognised tk (buildChildren tk b pre).1 c hc
  obtain ⟨box, hb⟩ := buildElement_box_state tk b layout.Root hbox
  refine ⟨obj, hobj, ?_, ?_⟩
  · unfold Build
    rw [hb]
    rfl
  · unfold Build BuilderState.GetElement
    rw [hb]
    show (storeElement _ _ _).elements c.ID = some obj
    rw [storeElement_elements_ne _ _ _ _ (Ne.symm hroot), hch,
      buildChildren_elements_last tk b pre post c hne hc hpost, hobj]

theorem GetElement_last_built_sibling_witness :
    (Build testKit NewBuilder dupLayout).1.GetElement "a".toList =
        some (CanvasObject.Entry "third".toList false false [] "a".toList) ∧
      ∃ obj, (buildElement testKit
            (buildChildren testKit NewBuilder
              [mkElem "Label" "a" [] [] "first", mkElem "Button" "a" [] [] "second"]).1
            (mkElem "Entry" "a" [("placeholder", "third")] [] "")).2 = some obj ∧
        (Build testKit NewBuilder dupLayout).2.isSome = true ∧
        (Build testKit NewBuilder dupLayout).1.GetElement "a".toList = some obj :=
  ⟨rfl, GetElement_last_built_sibling testKit NewBuilder dupLayout
    [mkElem "Label" "a" [] [] "first", mkElem "Button" "a" [] [] "second"]
    [mkElem "Label" "b" [] [] "other"] (mkElem "Entry" "a" [("placeholder", "third")] [] "")
    "a".toList (Or.inl rfl) rfl rfl (by decide) (by decide)
    (fun e he => Or.inr (by
      rw [List.mem_singleton] at he
      subst he
      decide))
    (by decide)⟩

theorem buildBorderChildren_fst (tk : Toolkit) (children : List Element) :
    ∀ (b : BuilderState) (slots : BorderSlots),
      (buildBorderChildren tk b slots children).1 = (buildChildren tk b children).1 := by
  induction children with
  | nil => intro b slots; rfl
  | cons child rest ih =>
    intro b slots
    rw [buildBorderChildren_cons, buildChildren_cons]
    cases (buildElement tk b child).2 with
    | none => exact ih _ _
    | some obj => exact ih _ _

theorem buildElement_container_state (tk : Toolkit) (b : BuilderState) (elem : Element)
    (h : elem.tag ∈ containerTags) :
    ∃ obj, buildElement tk b elem =
      finishElement (buildChildren tk b elem.Children).1 elem.ID obj := by
  simp only [containerTags, List.mem_cons, List.mem_singleton, List.not_mem_nil,
    or_false] at h
  rcases h with h | h | h | h
  · exact ⟨_, buildElement_VBox tk b elem h⟩
  · exact ⟨_, buildElement_HBox tk b elem h⟩
  · exact ⟨_, buildElement_Grid tk b elem h⟩
  · rw [buildElement_Border tk b elem h, buildBorderChildren_fst]
    exact ⟨_, rfl⟩

mutual
theorem buildElement_stored_frame (tk : Toolkit) (id : Str) :
    ∀ (elem : Element) (b : BuilderState), id ∉ elem.storedIds →
      (buildElement tk b elem).1.elements id = b.elements id
  | Element.mk tag ID cls sty text attrs children content, b, h => by
    by_cases hr : tag ∈ recognisedTags
    · by_cases hc : tag ∈ containerTags
      · rw [Element.storedIds, if_pos hc, List.mem_append, not_or, List.mem_singleton] at h
        obtain ⟨obj, hobj⟩ := buildElement_container_state tk b
          (Element.mk tag ID cls sty text attrs children content) hc
        rw [hobj]
        exact (storeElement_elements_ne _ _ _ _ h.2).trans
          (buildChildren_stored_frame tk id children b h.1)
      · rw [Element.storedIds, if_neg hc, if_pos hr, List.mem_singleton] at h
        obtain ⟨b1, obj, e, hf⟩ := buildElement_leaf tk b
          (Element.mk tag ID cls sty text attrs children content) hr hc
        rw [e]
        exact (storeElement_elements_ne _ _ _ _ h).trans (hf id h)
    · rw [buildElement_of_unrecognised tk b (Element.mk tag ID cls sty text attrs children content) hr]
theorem buildChildren_stored_frame (tk : Toolkit) (id : Str) :
    ∀ (children : List Element) (b : BuilderState), id ∉ Element.storedIdsOfList children →
      (buildChildren tk b children).1.elements id = b.elements id
  | [], b, _ => rfl
  | child :: rest, b, h => by
    rw [Element.storedIdsOfList, List.mem_append, not_or] at h
    rw [buildChildren_cons]
    have h1 := buildElement_stored_frame tk id child b h.1
    have h2 := buildChildren_stored_frame tk id rest (buildElement tk b child).1 h.2
    cases (buildElement tk b child).2 with
    | none => exact h2.trans h1
    | some obj => exact h2.trans h1
end

/-- What is stored under `id` when the build of `root` ends is what the build
of `c` stored, when no element built after `c` is stored under `id`. -/
theorem BuiltLast_elements (tk : Toolkit) (id : Str) (c : Element) (s : BuilderState)
    (root : Element) (b : BuilderState) (h : BuiltLast tk id c s root b) :
    (buildElement tk b root).1.elements id = (buildElement tk s c).1.elements id := by
  induction h with
  | here => rfl
  | within root b pre post e hc hid hch hpost _ ih =>
    obtain ⟨obj, hobj⟩ := buildElement_container_state tk b root hc
    rw [hobj]
    show (storeElement _ _ _).elements id = _
    rw [storeElement_elements_ne _ _ _ _ (Ne.symm hid), hch, buildChildren_append_fst,
      buildChildren_cons]
    have h2 := buildChildren_stored_frame tk id post
      (buildElement tk (buildChildren tk b pre).1 e).1 hpost
    cases hr : (buildElement tk (buildChildren tk b pre).1 e).2 with
    | none => exact h2.trans ih
    | some o => exact h2.trans ih

theorem BuiltLast_built (tk : Toolkit) (id : Str) (c : Element) (s : BuilderState)
    (root : Element) (b : BuilderState) (h : BuiltLast tk id c s root b)
    (hc : c.tag ∈ recognisedTags) : ((buildElement tk b root).2).isSome = true := by
  induction h with
  | here =>
    obtain ⟨obj, hobj⟩ := buildElement_of_recognised tk s c hc
    rw [hobj]
    rfl
  | within root b pre post e hroot _ _ _ _ _ =>
    obtain ⟨obj, hobj⟩ := buildElement_container_state tk b root hroot
    rw [hobj]
    rfl

theorem containerTags_recognised (tag : Str) (h : tag ∈ containerTags) :
    tag ∈ recognisedTags := by
  simp only [containerTags, List.mem_cons, List.mem_singleton, List.not_mem_nil,
    or_false] at h
  rcases h with h | h | h | h <;> (subst h; decide)

/-- C27, as stated, fails. In `overwrittenBoxLayout` the container `HBox` and
the label below it carry the id `x`, and so does the label that follows the
container; after the build `GetElement("x")` gives that later label, which is
neither the object of the container nor the label below it. In
`nestedBoxLayout` the box above the container carries the id as well and is
stored after it: `GetElement("x")` gives that outer box. In `unbuiltBoxLayout`
the container stands below a label, whose children are not built:
`GetElement("x")` gives nothing. -/
theorem GetElement_container_overwritten :
    ((Build testKit NewBuilder overwrittenBoxLayout).2.isSome = true ∧
      overwrittenBoxLayout.Root.Children.map Element.tag = ["HBox".toList, "Label".toList] ∧
      overwrittenBoxLayout.Root.Children.map Element.ids =
        [["x".toList, "x".toList], ["x".toList]] ∧
      (buildElement testKit NewBuilder
          (mkElem "HBox" "x" [] [mkElem "Label" "x" [] [] "inner"] "")).2 =
        some (CanvasObject.HBox
          [CanvasObject.Label "inner".toList TextAlign.Leading false false]) ∧
      (Build testKit NewBuilder overwrittenBoxLayout).1.GetElement "x".toList =
        some (CanvasObject.Label "later".toList TextAlign.Leading false false) ∧
      (Build testKit NewBuilder overwrittenBoxLayout).1.GetElement "x".toList ≠
        (buildElement testKit NewBuilder
          (mkElem "HBox" "x" [] [mkElem "Label" "x" [] [] "inner"] "")).2) ∧
      ((Build testKit NewBuilder nestedBoxLayout).2.isSome = true ∧
        nestedBoxLayout.Root.Children =
          [mkElem "HBox" "x" [] [mkElem "Label" "x" [] [] "inner"] ""] ∧
        (Build testKit NewBuilder nestedBoxLayout).1.GetElement "x".toList =
          some (CanvasObject.VBox [CanvasObject.HBox
            [CanvasObject.Label "inner".toList TextAlign.Leading false false]])) ∧
      ((Build testKit NewBuilder unbuiltBoxLayout).2.isSome = true ∧
        unbuiltBoxLayout.Root.Children =
          [mkElem "HBox" "x" [] [mkElem "Label" "x" [] [] "inner"] ""] ∧
        (Build testKit NewBuilder unbuiltBoxLayout).1.GetElement "x".toList = none) :=
  ⟨⟨rfl, rfl, rfl, rfl, rfl, fun h => by cases h⟩, ⟨rfl, rfl, rfl⟩, rfl, rfl, rfl⟩

/-- C27, amended. When a container element `c` (`VBox`, `HBox`, `Grid`,
`Border`) carries a non-empty id, is built during `Build` (it is the root, or
a child of a container that is built, and so on up to the root), and no
element built after it is stored under the id (no later sibling of `c` or of
an element above it, nothing built below such a sibling, and no element above
`c`), then after `Build` `GetElement(id)` returns the object of the container,
whatever ids the elements below it carry: `buildElement` stores the container
under its id after the loop over its children has ended. -/
theorem GetElement_container (tk : Toolkit) (b : BuilderState) (layout : Layout)
    (c : Element) (s : BuilderState) (id : Str)
    (hpath : BuiltLast tk id c s layout.Root b)
    (hc : c.tag ∈ containerTags) (hid : c.ID = id) (hne : id ≠ []) :
    ∃ obj, (buildElement tk s c).2 = some obj ∧
      (buildElement tk s c).1 = storeElement (buildChildren tk s c.Children).1 c.ID obj ∧
      (Build tk b layout).2.isSome = true ∧
      (Build tk b layout).1.GetElement id = some obj := by
  subst hid
  obtain ⟨obj, hobj⟩ := buildElement_container_state tk s c hc
  refine ⟨obj, by rw [hobj]; rfl, by rw [hobj]; rfl,
    BuiltLast_built tk c.ID c s layout.Root b hpath (containerTags_recognised _ hc), ?_⟩
  unfold Build BuilderState.GetElement
  rw [BuiltLast_elements tk c.ID c s layout.Root b hpath, hobj]
  exact storeElement_elements_self _ _ _ hne

theorem GetElement_container_witness :
    ((Build testKit NewBuilder sharedIdLayout).1.GetElement "main".toList =
        some (CanvasObject.VBox
          [CanvasObject.Label "child".toList TextAlign.Leading false false,
            CanvasObject.GridWithColumns 2
              [CanvasObject.Label "below".toList TextAlign.Leading false false]]) ∧
      ∃ obj, (buildElement testKit NewBuilder sharedIdLayout.Root).2 = some obj ∧
        (buildElement testKit NewBuilder sharedIdLayout.Root).1 =
          storeElement (buildChildren testKit NewBuilder sharedIdLayout.Root.Children).1
            sharedIdLayout.Root.ID obj ∧
        (Build testKit NewBuilder sharedIdLayout).2.isSome = true ∧
        (Build testKit NewBuilder sharedIdLayout).1.GetElement "main".toList = some obj) ∧
      ((Build testKit NewBuilder innerBoxLayout).1.GetElement "x".toList =
        some (CanvasObject.HBox
          [CanvasObject.Label "inner".toList TextAlign.Leading false false]) ∧
      ∃ obj, (buildElement testKit
            (buildChildren testKit NewBuilder [mkElem "Label" "a" [] [] "first"]).1
            (mkElem "HBox" "x" [] [mkElem "Label" "x" [] [] "inner"] "")).2 = some obj ∧
        (buildElement testKit
            (buildChildren testKit NewBuilder [mkElem "Label" "a" [] [] "first"]).1
            (mkElem "HBox" "x" [] [mkElem "Label" "x" [] [] "inner"] "")).1 =
          storeElement
            (buildChildren testKit
              (buildChildren testKit NewBuilder [mkElem "Label" "a" [] [] "first"]).1
              (mkElem "HBox" "x" [] [mkElem "Label" "x" [] [] "inner"] "").Children).1
            (mkElem "HBox" "x" [] [mkElem "Label" "x" [] [] "inner"] "").ID obj ∧
        (Build testKit NewBuilder innerBoxLayout).2.isSome = true ∧
        (Build testKit NewBuilder innerBoxLayout).1.GetElement "x".toList = some obj) :=
  ⟨⟨rfl, GetElement_container testKit NewBuilder sharedIdLayout sharedIdLayout.Root NewBuilder
      "main".toList BuiltLast.here (by decide) rfl (by decide)⟩,
    rfl, GetElement_container testKit NewBuilder innerBoxLayout
      (mkElem "HBox" "x" [] [mkElem "Label" "x" [] [] "inner"] "")
      (buildChildren testKit NewBuilder [mkElem "Label" "a" [] [] "first"]).1 "x".toList
      (BuiltLast.within innerBoxLayout.Root NewBuilder [mkElem "Label" "a" [] [] "first"]
        [mkElem "Label" "b" [] [mkElem "Label" "x" [] [] "unbuilt"] "last"]
        (mkElem "HBox" "x" [] [mkElem "Label" "x" [] [] "inner"] "")
        (by decide) (by decide) rfl (by decide) BuiltLast.here)
      (by decide) rfl (by decide)⟩

end IdTable

/-! ## Events: callbacks and the event handler -/

section Events

theorem storeElement_tables (b : BuilderState) (ID : Str) (obj : CanvasObject) :
    (storeElement b ID obj).eventCallbacks = b.eventCallbacks ∧
      (storeElement b ID obj).entryCallbacks = b.entryCallbacks ∧
      (storeElement b ID obj).eventHandler = b.eventHandler := by
  unfold storeElement
  split_ifs <;> exact ⟨rfl, rfl, rfl⟩

theorem GetBindingContext_tables (b : BuilderState) :
    b.GetBindingContext.1.eventCallbacks = b.eventCallbacks ∧
      b.GetBindingContext.1.entryCallbacks = b.entryCallbacks ∧
      b.GetBindingContext.1.eventHandler = b.eventHandler := by
  unfold BuilderState.GetBindingContext
  cases b.bindingContext <;> exact ⟨rfl, rfl, rfl⟩

theorem registerWidget_tables (b : BuilderState) (ID : Str) (w : CanvasObject) :
    (registerWidget b ID w).eventCallbacks = b.eventCallbacks ∧
      (registerWidget b ID w).entryCallbacks = b.entryCallbacks ∧
      (registerWidget b ID w).eventHandler = b.eventHandler := by
  unfold registerWidget
  split_ifs
  · exact ⟨rfl, rfl, rfl⟩
  · exact GetBindingContext_tables b

theorem tables_trans {a b c : BuilderState}
    (h1 : a.eventCallbacks = b.eventCallbacks ∧ a.entryCallbacks = b.entryCallbacks ∧
      a.eventHandler = b.eventHandler)
    (h2 : b.eventCallbacks = c.eventCallbacks ∧ b.entryCallbacks = c.entryCallbacks ∧
      b.eventHandler = c.eventHandler) :
    a.eventCallbacks = c.eventCallbacks ∧ a.entryCallbacks = c.entryCallbacks ∧
      a.eventHandler = c.eventHandler :=
  ⟨h1.1.trans h2.1, h1.2.1.trans h2.2.1, h1.2.2.trans h2.2.2⟩

theorem buildCheckbox_tables (tk : Toolkit) (b : BuilderState) (elem : Element)
    (style : GoMap Str) :
    (buildCheckbox tk b elem style).1.eventCallbacks = b.eventCallbacks ∧
      (buildCheckbox tk b elem style).1.entryCallbacks = b.entryCallbacks ∧
      (buildCheckbox tk b elem style).1.eventHandler = b.eventHandler := by
  unfold buildCheckbox
  refine tables_trans (storeElement_tables _ _ _)
    (tables_trans (registerWidget_tables _ _ _) ?_)
  by_cases hb : elem.getAttr "bind".toList = []
  · simp only [hb, if_true, and_self]
  · simp only [hb, if_false]
    exact GetBindingContext_tables b

theorem buildSelect_tables (tk : Toolkit) (b : BuilderState) (elem : Element)
    (style : GoMap Str) :
    (buildSelect tk b elem style).1.eventCallbacks = b.eventCallbacks ∧
      (buildSelect tk b elem style).1.entryCallbacks = b.entryCallbacks ∧
      (buildSelect tk b elem style).1.eventHandler = b.eventHandler := by
  unfold buildSelect
  refine tables_trans (storeElement_tables _ _ _)
    (tables_trans (registerWidget_tables _ _ _) ?_)
  by_cases hb : elem.getAttr "bind".toList = []
  · simp only [hb, if_true, and_self]
  · simp only [hb, if_false]
    exact GetBindingContext_tables b

theorem buildProgressBar_tables (tk : Toolkit) (b : BuilderState) (elem : Element)
    (style : GoMap Str) :
    (buildProgressBar tk b elem style).1.eventCallbacks = b.eventCallbacks ∧
      (buildProgressBar tk b elem style).1.entryCallbacks = b.entryCallbacks ∧
      (buildProgressBar tk b elem style).1.eventHandler = b.eventHandler := by
  unfold buildProgressBar
  refine tables_trans (storeElement_tables _ _ _)
    (tables_trans (registerWidget_tables _ _ _) ?_)
  by_cases hb : elem.getAttr "bind".toList = []
  · simp only [hb, if_true, and_self]
  · simp only [hb, if_false]
    exact GetBindingContext_tables b

theorem buildSlider_tables (tk : Toolkit) (b : BuilderState) (elem : Element)
    (style : GoMap Str) :
    (buildSlider tk b elem style).1.eventCallbacks = b.eventCallbacks ∧
      (buildSlider tk b elem style).1.entryCallbacks = b.entryCallbacks ∧
      (buildSlider tk b elem style).1.eventHandler = b.eventHandler := by
  unfold buildSlider
  refine tables_trans (storeElement_tables _ _ _)
    (tables_trans (registerWidget_tables _ _ _) ?_)
  by_cases hb : elem.getAttr "bind".toList = []
  · simp only [hb, if_true, and_self]
  · simp only [hb, if_false]
    exact GetBindingContext_tables b

theorem buildRadioGroup_tables (tk : Toolkit) (b : BuilderState) (elem : Element)
    (style : GoMap Str) :
    (buildRadioGroup tk b elem style).1.eventCallbacks = b.eventCallbacks ∧
      (buildRadioGroup tk b elem style).1.entryCallbacks = b.entryCallbacks ∧
      (buildRadioGroup tk b elem style).1.eventHandler = b.eventHandler := by
  unfold buildRadioGroup
  exact tables_trans (storeElement_tables _ _ _) (registerWidget_tables _ _ _)

theorem buildImage_tables (tk : Toolkit) (b : BuilderState) (elem : Element)
    (style : GoMap Str) :
    (buildImage tk b elem style).1.eventCallbacks = b.eventCallbacks ∧
      (buildImage tk b elem style).1.entryCallbacks = b.entryCallbacks ∧
      (buildImage tk b elem style).1.eventHandler = b.eventHandler := by
  unfold buildImage
  by_cases hs : elem.getAttr "src".toList = []
  · rw [if_pos hs]
    exact ⟨rfl, rfl, rfl⟩
  · rw [if_neg hs]
    cases NewImageWidget tk (elem.getAttr "src".toList) with
    | none => exact ⟨rfl, rfl, rfl⟩
    | some img =>
      refine tables_trans (storeElement_tables _ _ _) ?_
      by_cases hi : elem.ID = []
      · simp only [hi, if_true, and_self]
      · simp only [hi, if_false, and_self]

theorem buildElement_leaf_tables (tk : Toolkit) (b : BuilderState) (elem : Element)
    (h : elem.tag ∈ recognisedTags)
    (hc : elem.tag ∉ ["VBox".toList, "HBox".toList, "Grid".toList, "Border".toList]) :
    (buildElement tk b elem).1.eventCallbacks = b.eventCallbacks ∧
      (buildElement tk b elem).1.entryCallbacks = b.entryCallbacks ∧
      (buildElement tk b elem).1.eventHandler = b.eventHandler := by
  cases elem with
  | mk tag ID cls sty text attrs children content =>
    simp only [recognisedTags, Element.tag, List.mem_cons, List.mem_singleton,
      List.not_mem_nil, or_false] at h
    simp only [Element.tag, List.mem_cons, List.mem_singleton, List.not_mem_nil, or_false,
      not_or] at hc
    obtain ⟨c1, c2, c3, c4⟩ := hc
    rcases h with h | h | h | h | h | h | h | h | h | h | h | h | h | h | h | h | h
    · exact absurd h c1
    · exact absurd h c2
    · exact absurd h c3
    · exact absurd h c4
    · subst h; exact storeElement_tables _ _ _
    · subst h; exact storeElement_tables _ _ _
    · subst h; exact storeElement_tables _ _ _
    · subst h; exact storeElement_tables _ _ _
    · subst h; exact storeElement_tables _ _ _
    · subst h; exact storeElement_tables _ _ _
    · subst h; exact storeElement_tables _ _ _
    · subst h
      exact tables_trans (storeElement_tables _ _ _) (buildCheckbox_tables tk b _ _)
    · subst h
      exact tables_trans (storeElement_tables _ _ _) (buildSelect_tables tk b _ _)
    · subst h
      exact tables_trans (storeElement_tables _ _ _) (buildProgressBar_tables tk b _ _)
    · subst h
      exact tables_trans (storeElement_tables _ _ _) (buildSlider_tables tk b _ _)
    · subst h
      exact tables_trans (storeElement_tables _ _ _) (buildImage_tables tk b _ _)
    · subst h
      exact tables_trans (storeElement_tables _ _ _) (buildRadioGroup_tables tk b _ _)

mutual
theorem buildElement_tables (tk : Toolkit) :
    ∀ (elem : Element) (b : BuilderState),
      (buildElement tk b elem).1.eventCallbacks = b.eventCallbacks ∧
        (buildElement tk b elem).1.entryCallbacks = b.entryCallbacks ∧
        (buildElement tk b elem).1.eventHandler = b.eventHandler
  | Element.mk tag ID cls sty text attrs children content, b => by
    by_cases hr : tag ∈ recognisedTags
    · by_cases hc : tag ∈ ["VBox".toList, "HBox".toList, "Grid".toList, "Border".toList]
      · simp only [List.mem_cons, List.mem_singleton, List.not_mem_nil, or_false] at hc
        rcases hc with hc | hc | hc | hc
        · rw [buildElement_VBox tk b (Element.mk tag ID cls sty text attrs children content) hc]
          exact tables_trans (storeElement_tables _ _ _) (buildChildren_tables tk children b)
        · rw [buildElement_HBox tk b (Element.mk tag ID cls sty text attrs children content) hc]
          exact tables_trans (storeElement_tables _ _ _) (buildChildren_tables tk children b)
        · rw [buildElement_Grid tk b (Element.mk tag ID cls sty text attrs children content) hc]
          exact tables_trans (storeElement_tables _ _ _) (buildChildren_tables tk children b)
        · rw [buildElement_Border tk b (Element.mk tag ID cls sty text attrs children content)
            hc]
          exact tables_trans (storeElement_tables _ _ _)
            (buildBorderChildren_tables tk children b BorderSlots.empty)
      · exact buildElement_leaf_tables tk b
          (Element.mk tag ID cls sty text attrs children content) hr hc
    · rw [buildElement_of_unrecognised tk b
        (Element.mk tag ID cls sty text attrs children content) hr]
      exact ⟨rfl, rfl, rfl⟩
theorem buildChildren_tables (tk : Toolkit) :
    ∀ (children : List Element) (b : BuilderState),
      (buildChildren tk b children).1.eventCallbacks = b.eventCallbacks ∧
        (buildChildren tk b children).1.entryCallbacks = b.entryCallbacks ∧
        (buildChildren tk b children).1.eventHandler = b.eventHandler
  | [], _ => ⟨rfl, rfl, rfl⟩
  | child :: rest, b => by
    rw [buildChildren_cons]
    have h1 := buildElement_tables tk child b
    have h2 := buildChildren_tables tk rest (buildElement tk b child).1
    cases (buildElement tk b child).2 with
    | none => exact tables_trans h2 h1
    | some obj => exact tables_trans h2 h1
theorem buildBorderChildren_tables (tk : Toolkit) :
    ∀ (children : List Element) (b : BuilderState) (slots : BorderSlots),
      (buildBorderChildren tk b slots children).1.eventCallbacks = b.eventCallbacks ∧
        (buildBorderChildren tk b slots children).1.entryCallbacks = b.entryCallbacks ∧
        (buildBorderChildren tk b slots children).1.eventHandler = b.eventHandler
  | [], _, _ => ⟨rfl, rfl, rfl⟩
  | child :: rest, b, slots => by
    rw [buildBorderChildren_cons]
    have h1 := buildElement_tables tk child b
    cases hr : (buildElement tk b child).2 with
    | none =>
      exact tables_trans (buildBorderChildren_tables tk rest (buildElement tk b child).1 slots) h1
    | some obj =>
      exact tables_trans (buildBorderChildren_tables tk rest (buildElement tk b child).1
        (slots.assign (child.getAttr "position".toList) obj)) h1
end

theorem buildElement_Button (tk : Toolkit) (b : BuilderState) (elem : Element)
    (h : elem.tag = "Button".toList) :
    buildElement tk b elem =
      finishElement b elem.ID
        (CanvasObject.Button (elemText elem) (elem.getAttr "onclick".toList) elem.ID) := by
  cases elem with
  | mk tag ID cls sty text attrs children content =>
    simp only [Element.tag] at h
    subst h
    rfl

theorem buildElement_Entry (tk : Toolkit) (b : BuilderState) (elem : Element)
    (h : elem.tag = "Entry".toList) :
    buildElement tk b elem =
      finishElement b elem.ID
        (CanvasObject.Entry (elem.getAttr "placeholder".toList)
          (decide (elem.getAttr "password".toList = "true".toList))
          (decide (elem.getAttr "multiline".toList = "true".toList))
          (elem.getAttr "onchange".toList) elem.ID) := by
  cases elem with
  | mk tag ID cls sty text attrs children content =>
    simp only [Element.tag] at h
    subst h
    rfl

theorem buildElement_Checkbox (tk : Toolkit) (b : BuilderState) (elem : Element)
    (h : elem.tag = "Checkbox".toList) :
    buildElement tk b elem =
      finishElement (buildCheckbox tk b elem (computeStyle b.toBuilder elem)).1 elem.ID
        (buildCheckbox tk b elem (computeStyle b.toBuilder elem)).2 := by
  cases elem with
  | mk tag ID cls sty text attrs children content =>
    simp only [Element.tag] at h
    subst h
    rfl

theorem buildElement_Select (tk : Toolkit) (b : BuilderState) (elem : Element)
    (h : elem.tag = "Select".toList) :
    buildElement tk b elem =
      finishElement (buildSelect tk b elem (computeStyle b.toBuilder elem)).1 elem.ID
        (buildSelect tk b elem (computeStyle b.toBuilder elem)).2 := by
  cases elem with
  | mk tag ID cls sty text attrs children content =>
    simp only [Element.tag] at h
    subst h
    rfl

theorem buildElement_Slider (tk : Toolkit) (b : BuilderState) (elem : Element)
    (h : elem.tag = "Slider".toList) :
    buildElement tk b elem =
      finishElement (buildSlider tk b elem (computeStyle b.toBuilder elem)).1 elem.ID
        (buildSlider tk b elem (computeStyle b.toBuilder elem)).2 := by
  cases elem with
  | mk tag ID cls sty text attrs children content =>
    simp only [Element.tag] at h
    subst h
    rfl

theorem buildElement_RadioGroup (tk : Toolkit) (b : BuilderState) (elem : Element)
    (h : elem.tag = "RadioGroup".toList) :
    buildElement tk b elem =
      finishElement (buildRadioGroup tk b elem (computeStyle b.toBuilder elem)).1 elem.ID
        (buildRadioGroup tk b elem (computeStyle b.toBuilder elem)).2 := by
  cases elem with
  | mk tag ID cls sty text attrs children content =>
    simp only [Element.tag] at h
    subst h
    rfl

theorem applyMinSize_widget (tk : Toolkit) (obj : CanvasObject) (style : GoMap Str)
    (hs : ∀ size, obj.SetMinSize size = none) (hw : obj.widget = obj) :
    (applyMinSize tk obj style).widget = obj := by
  unfold applyMinSize
  simp only [hs]
  split_ifs
  · exact hw
  · rfl

theorem applyMinSize_widget_Check (tk : Toolkit) (style : GoMap Str) (label : Str)
    (checked : Bool) (cl : Option ChangeClosure) (bound : Option Nat) :
    (applyMinSize tk (CanvasObject.Check label checked cl bound) style).widget =
      CanvasObject.Check label checked cl bound :=
  applyMinSize_widget tk _ style (fun _ => rfl) rfl

theorem applyMinSize_widget_Slider (tk : Toolkit) (style : GoMap Str)
    (min max value step : GoFloat) (cl : Option ChangeClosure) (bound : Option Nat) :
    (applyMinSize tk (CanvasObject.Slider min max value step cl bound) style).widget =
      CanvasObject.Slider min max value step cl bound :=
  applyMinSize_widget tk _ style (fun _ => rfl) rfl

theorem applyMinSize_widget_Select (tk : Toolkit) (style : GoMap Str) (options : List Str)
    (selected : Str) (cl : Option ChangeClosure) (bound : Option Nat) :
    (applyMinSize tk (CanvasObject.Select options selected cl bound) style).widget =
      CanvasObject.Select options selected cl bound :=
  applyMinSize_widget tk _ style (fun _ => rfl) rfl

theorem applyMinSize_widget_RadioGroup (tk : Toolkit) (style : GoMap Str)
    (options : List Str) (selected : Str) (cl : Option ChangeClosure) :
    (applyMinSize tk (CanvasObject.RadioGroup options selected cl) style).widget =
      CanvasObject.RadioGroup options selected cl :=
  applyMinSize_widget tk _ style (fun _ => rfl) rfl

theorem buildCheckbox_widget (tk : Toolkit) (b : BuilderState) (elem : Element)
    (style : GoMap Str) :
    ∃ label checked bound,
      (buildCheckbox tk b elem style).2.widget =
        CanvasObject.Check label checked
          (changeClosure b.eventCallbacks (elem.getAttr "onchange".toList) elem.ID) bound ∧
      (elem.getAttr "bind".toList = [] → bound = none) := by
  unfold buildCheckbox
  refine ⟨_, _, _, applyMinSize_widget_Check tk style _ _ _ _, ?_⟩
  intro hb
  simp only [hb, if_true]

theorem buildSlider_widget (tk : Toolkit) (b : BuilderState) (elem : Element)
    (style : GoMap Str) :
    ∃ min max value step bound,
      (buildSlider tk b elem style).2.widget =
        CanvasObject.Slider min max value step
          (changeClosure b.eventCallbacks (elem.getAttr "onchange".toList) elem.ID) bound ∧
      (elem.getAttr "bind".toList = [] → bound = none) := by
  unfold buildSlider
  refine ⟨_, _, _, _, _, applyMinSize_widget_Slider tk style _ _ _ _ _ _, ?_⟩
  intro hb
  simp only [hb, if_true]

theorem buildSelect_widget (tk : Toolkit) (b : BuilderState) (elem : Element)
    (style : GoMap Str) :
    ∃ options selected bound,
      (buildSelect tk b elem style).2.widget =
        CanvasObject.Select options selected
          (changeClosure b.entryCallbacks (elem.getAttr "onchange".toList) elem.ID) bound ∧
      (elem.getAttr "bind".toList = [] → bound = none) := by
  unfold buildSelect
  refine ⟨_, _, _, applyMinSize_widget_Select tk style _ _ _ _, ?_⟩
  intro hb
  simp only [hb, if_true]

theorem buildRadioGroup_widget (tk : Toolkit) (b : BuilderState) (elem : Element)
    (style : GoMap Str) :
    ∃ options selected,
      (buildRadioGroup tk b elem style).2.widget =
        CanvasObject.RadioGroup options selected
          (changeClosure b.entryCallbacks (elem.getAttr "onchange".toList) elem.ID) := by
  unfold buildRadioGroup
  exact ⟨_, _, applyMinSize_widget_RadioGroup tk style _ _ _⟩

theorem changeClosure_none (table : GoMap Nat) (onchange ID : Str)
    (h : onchange = [] ∨ table onchange = none) : changeClosure table onchange ID = none := by
  unfold changeClosure
  rcases h with h | h
  · rw [if_pos h]
  · split_ifs
    · rfl
    · rw [h]

theorem changeClosure_some (table : GoMap Nat) (onchange ID : Str) (cb : Nat)
    (hne : onchange ≠ []) (h : table onchange = some cb) :
    changeClosure table onchange ID = some ⟨onchange, cb, ID⟩ := by
  unfold changeClosure
  rw [if_neg hne, h]

theorem buttonTapped_of_callback (b : BuilderState) (btn : CanvasObject) (onclick ID : Str)
    (cb : Nat) (hne : onclick ≠ []) (h : b.eventCallbacks onclick = some cb) :
    buttonTapped b btn onclick ID = [Invocation.callback cb ⟨onclick, btn, ID, []⟩] := by
  unfold buttonTapped
  rw [if_pos hne, h]

theorem buttonTapped_of_handler (b : BuilderState) (btn : CanvasObject) (onclick ID : Str)
    (handler : EventHandler) (h : onclick = [] ∨ b.eventCallbacks onclick = none)
    (hh : b.eventHandler = some handler) (hid : ID ≠ []) :
    buttonTapped b btn onclick ID = [Invocation.OnButtonTapped handler ID] := by
  have e : (if onclick ≠ [] then b.eventCallbacks onclick else none) = none := by
    rcases h with h | h
    · rw [if_neg (not_not.mpr h)]
    · split_ifs
      · exact h
      · rfl
  unfold buttonTapped
  rw [e, hh]
  simp only [if_pos hid]

theorem entryChanged_of_callback (b : BuilderState) (entry : CanvasObject)
    (onchange ID value : Str) (cb : Nat) (hne : onchange ≠ [])
    (h : b.entryCallbacks onchange = some cb) :
    entryChanged b entry onchange ID value =
      [Invocation.callback cb ⟨onchange, entry, ID, value⟩] := by
  unfold entryChanged
  rw [if_pos hne, h]

theorem entryChanged_of_handler (b : BuilderState) (entry : CanvasObject)
    (onchange ID value : Str) (handler : EventHandler)
    (h : onchange = [] ∨ b.entryCallbacks onchange = none)
    (hh : b.eventHandler = some handler) (hid : ID ≠ []) :
    entryChanged b entry onchange ID value = [Invocation.OnEntryChanged handler ID value] := by
  have e : (if onchange ≠ [] then b.entryCallbacks onchange else none) = none := by
    rcases h with h | h
    · rw [if_neg (not_not.mpr h)]
    · split_ifs
      · exact h
      · rfl
  unfold entryChanged
  rw [e, hh]
  simp only [if_pos hid]

theorem entryChanged_no_callback (b : BuilderState) (entry : CanvasObject)
    (onchange ID value : Str) (h : b.entryCallbacks onchange = none) (cb : Nat)
    (ctx : EventContext) :
    Invocation.callback cb ctx ∉ entryChanged b entry onchange ID value := by
  have e : (if onchange ≠ [] then b.entryCallbacks onchange else none) = none := by
    split_ifs
    · exact h
    · rfl
  unfold entryChanged
  rw [e]
  cases b.eventHandler with
  | none => simp
  | some handler =>
    by_cases hid : ID = []
    · simp [hid]
    · simp [hid]

theorem On_eventCallbacks_self (b : BuilderState) (name : Str) (cb : ButtonCallback) :
    (b.On name cb).eventCallbacks name = some cb := by
  simp [BuilderState.On, GoMap.set]

/-- C22, as stated, fails. The button of `eventLayout`, built when no
callback is registered, invokes nothing when tapped; after `On("go", 7)` a tap
of that same button invokes callback 7. Built with callback 5 registered, it
invokes 5; after `On("go", 7)` replaces it, it invokes 7. -/
theorem Button_callback_registered_late :
    (Build testKit NewBuilder eventLayout).1.GetElement "b1".toList =
        some (CanvasObject.Button "Go".toList "go".toList "b1".toList) ∧
      (CanvasObject.Button "Go".toList "go".toList "b1".toList).Tapped
          (Build testKit NewBuilder eventLayout).1 = [] ∧
      (CanvasObject.Button "Go".toList "go".toList "b1".toList).Tapped
          ((Build testKit NewBuilder eventLayout).1.On "go".toList 7) =
        [Invocation.callback 7
          ⟨"go".toList, CanvasObject.Button "Go".toList "go".toList "b1".toList,
            "b1".toList, []⟩] ∧
      (CanvasObject.Button "Go".toList "go".toList "b1".toList).Tapped
          (Build testKit (NewBuilder.On "go".toList 5) eventLayout).1 =
        [Invocation.callback 5
          ⟨"go".toList, CanvasObject.Button "Go".toList "go".toList "b1".toList,
            "b1".toList, []⟩] ∧
      (CanvasObject.Button "Go".toList "go".toList "b1".toList).Tapped
          ((Build testKit (NewBuilder.On "go".toList 5) eventLayout).1.On "go".toList 7) =
        [Invocation.callback 7
          ⟨"go".toList, CanvasObject.Button "Go".toList "go".toList "b1".toList,
            "b1".toList, []⟩] :=
  ⟨rfl, rfl, rfl, rfl, rfl⟩

/-- C22, amended. The callback for the `onclick` name of a Button is looked up
when the button is tapped, not when it is built: whatever was registered when
the button was built, a tap invokes the callback the table holds under that
name at the time of the tap, so that registering or replacing a callback with
`On` after the build changes what a later tap of the button invokes. -/
theorem Button_tap_uses_current_callback (tk : Toolkit) (b : BuilderState) (elem : Element)
    (htag : elem.tag = "Button".toList) (hon : elem.getAttr "onclick".toList ≠ []) :
    ∃ btn, (buildElement tk b elem).2 = some btn ∧
      (∀ (s : BuilderState) (cb : ButtonCallback),
        s.eventCallbacks (elem.getAttr "onclick".toList) = some cb →
        btn.Tapped s =
          [Invocation.callback cb ⟨elem.getAttr "onclick".toList, btn, elem.ID, []⟩]) ∧
      (∀ (s : BuilderState) (cb : ButtonCallback),
        btn.Tapped (s.On (elem.getAttr "onclick".toList) cb) =
          [Invocation.callback cb ⟨elem.getAttr "onclick".toList, btn, elem.ID, []⟩]) := by
  rw [buildElement_Button tk b elem htag]
  refine ⟨_, rfl, ?_, ?_⟩
  · intro s cb h
    exact buttonTapped_of_callback s _ _ _ cb hon h
  · intro s cb
    exact buttonTapped_of_callback _ _ _ _ cb hon (On_eventCallbacks_self s _ cb)

theorem Button_tap_uses_current_callback_witness :
    goButton.tag = "Button".toList ∧ goButton.getAttr "onclick".toList ≠ [] ∧
      ∃ btn, (buildElement testKit (NewBuilder.On "go".toList 5) goButton).2 = some btn ∧
        btn.Tapped
            ((Build testKit (NewBuilder.On "go".toList 5) eventLayout).1.On
              (goButton.getAttr "onclick".toList) 7) =
          [Invocation.callback 7 ⟨goButton.getAttr "onclick".toList, btn, goButton.ID, []⟩] :=
  ⟨rfl, by decide,
    (Button_tap_uses_current_callback testKit (NewBuilder.On "go".toList 5) goButton rfl
      (by decide)).imp fun _ hx => ⟨hx.1, hx.2.2 _ 7⟩⟩

/-- C23. For a Button whose `onclick` attribute names a callback registered
with `On` before `Build`, a tap after the build invokes that callback, once,
with an `EventContext` whose `EventName` is the `onclick` value and whose
`TargetID` is the id of the element, and invokes nothing else (not
`OnButtonTapped`); when no callback is registered under the name, an event
handler is set and the id is non-empty, the tap calls `OnButtonTapped(id)`. -/
theorem Button_tap_invokes (tk : Toolkit) (b : BuilderState) (layout : Layout) (elem : Element)
    (htag : elem.tag = "Button".toList) :
    ∃ btn, (∀ s, (buildElement tk s elem).2 = some btn) ∧
      (∀ cb : ButtonCallback, elem.getAttr "onclick".toList ≠ [] →
        btn.Tapped (Build tk (b.On (elem.getAttr "onclick".toList) cb) layout).1 =
          [Invocation.callback cb ⟨elem.getAttr "onclick".toList, btn, elem.ID, []⟩]) ∧
      (∀ handler : EventHandler, b.eventCallbacks (elem.getAttr "onclick".toList) = none →
        b.eventHandler = some handler → elem.ID ≠ [] →
        btn.Tapped (Build tk b layout).1 = [Invocation.OnButtonTapped handler elem.ID]) := by
  refine ⟨CanvasObject.Button (elemText elem) (elem.getAttr "onclick".toList) elem.ID,
    fun s => by rw [buildElement_Button tk s elem htag]; rfl, ?_, ?_⟩
  · intro cb hon
    have ht := (buildElement_tables tk layout.Root
      (b.On (elem.getAttr "onclick".toList) cb)).1
    refine buttonTapped_of_callback _ _ _ _ cb hon ?_
    unfold Build
    rw [ht]
    exact On_eventCallbacks_self b _ cb
  · intro handler hnone hh hid
    have ht := buildElement_tables tk layout.Root b
    refine buttonTapped_of_handler _ _ _ _ handler (Or.inr ?_) ?_ hid
    · unfold Build
      rw [ht.1]
      exact hnone
    · unfold Build
      rw [ht.2.2]
      exact hh

theorem Button_tap_invokes_witness :
    goButton.tag = "Button".toList ∧
      (∃ btn, (buildElement testKit NewBuilder goButton).2 = some btn ∧
        btn.Tapped
            (Build testKit (NewBuilder.On (goButton.getAttr "onclick".toList) 5)
              eventLayout).1 =
          [Invocation.callback 5
            ⟨goButton.getAttr "onclick".toList, btn, goButton.ID, []⟩]) ∧
      (∃ btn, (buildElement testKit NewBuilder goButton).2 = some btn ∧
        btn.Tapped (Build testKit (NewBuilder.SetEventHandler 9) eventLayout).1 =
          [Invocation.OnButtonTapped 9 goButton.ID]) :=
  ⟨rfl,
    (Button_tap_invokes testKit NewBuilder eventLayout goButton rfl).imp
      fun _ hx => ⟨hx.1 _, hx.2.1 5 (by decide)⟩,
    (Button_tap_invokes testKit (NewBuilder.SetEventHandler 9) eventLayout goButton rfl).imp
      fun _ hx => ⟨hx.1 _, hx.2.2 9 rfl rfl (by decide)⟩⟩

theorem Changed_Check_none (fmt : GoFloat → Str) (s : BuilderState) (label : Str)
    (checked : Bool) (bound : Option Nat) (v : NewValue) :
    (CanvasObject.Check label checked none bound).Changed fmt s v = [] := by
  cases v <;> rfl

theorem Changed_Slider_none (fmt : GoFloat → Str) (s : BuilderState)
    (min max value step : GoFloat) (bound : Option Nat) (v : NewValue) :
    (CanvasObject.Slider min max value step none bound).Changed fmt s v = [] := by
  cases v <;> rfl

theorem Changed_Select_none (fmt : GoFloat → Str) (s : BuilderState) (options : List Str)
    (selected : Str) (bound : Option Nat) (v : NewValue) :
    (CanvasObject.Select options selected none bound).Changed fmt s v = [] := by
  cases v <;> rfl

theorem Changed_RadioGroup_none (fmt : GoFloat → Str) (s : BuilderState)
    (options : List Str) (selected : Str) (v : NewValue) :
    (CanvasObject.RadioGroup options selected none).Changed fmt s v = [] := by
  cases v <;> rfl

theorem Checkbox_silent (tk : Toolkit) (b : BuilderState) (elem : Element)
    (fmt : GoFloat → Str) (htag : elem.tag = "Checkbox".toList)
    (h : elem.getAttr "onchange".toList = [] ∨
      b.eventCallbacks (elem.getAttr "onchange".toList) = none) :
    ∃ obj, (buildElement tk b elem).2 = some obj ∧
      ∀ (s : BuilderState) (v : NewValue), obj.widget.Changed fmt s v = [] := by
  rw [buildElement_Checkbox tk b elem htag]
  refine ⟨_, rfl, ?_⟩
  intro s v
  obtain ⟨label, checked, bound, hw, _⟩ :=
    buildCheckbox_widget tk b elem (computeStyle b.toBuilder elem)
  rw [hw, changeClosure_none _ _ _ h]
  exact Changed_Check_none fmt s label checked bound v

theorem Slider_silent (tk : Toolkit) (b : BuilderState) (elem : Element)
    (fmt : GoFloat → Str) (htag : elem.tag = "Slider".toList)
    (h : elem.getAttr "onchange".toList = [] ∨
      b.eventCallbacks (elem.getAttr "onchange".toList) = none) :
    ∃ obj, (buildElement tk b elem).2 = some obj ∧
      ∀ (s : BuilderState) (v : NewValue), obj.widget.Changed fmt s v = [] := by
  rw [buildElement_Slider tk b elem htag]
  refine ⟨_, rfl, ?_⟩
  intro s v
  obtain ⟨min, max, value, step, bound, hw, _⟩ :=
    buildSlider_widget tk b elem (computeStyle b.toBuilder elem)
  rw [hw, changeClosure_none _ _ _ h]
  exact Changed_Slider_none fmt s min max value step bound v

theorem Select_silent (tk : Toolkit) (b : BuilderState) (elem : Element)
    (fmt : GoFloat → Str) (htag : elem.tag = "Select".toList)
    (h : elem.getAttr "onchange".toList = [] ∨
      b.entryCallbacks (elem.getAttr "onchange".toList) = none) :
    ∃ obj, (buildElement tk b elem).2 = some obj ∧
      ∀ (s : BuilderState) (v : NewValue), obj.widget.Changed fmt s v = [] := by
  rw [buildElement_Select tk b elem htag]
  refine ⟨_, rfl, ?_⟩
  intro s v
  obtain ⟨options, selected, bound, hw, _⟩ :=
    buildSelect_widget tk b elem (computeStyle b.toBuilder elem)
  rw [hw, changeClosure_none _ _ _ h]
  exact Changed_Select_none fmt s options selected bound v

theorem RadioGroup_silent (tk : Toolkit) (b : BuilderState) (elem : Element)
    (fmt : GoFloat → Str) (htag : elem.tag = "RadioGroup".toList)
    (h : elem.getAttr "onchange".toList = [] ∨
      b.entryCallbacks (elem.getAttr "onchange".toList) = none) :
    ∃ obj, (buildElement tk b elem).2 = some obj ∧
      ∀ (s : BuilderState) (v : NewValue), obj.widget.Changed fmt s v = [] := by
  rw [buildElement_RadioGroup tk b elem htag]
  refine ⟨_, rfl, ?_⟩
  intro s v
  obtain ⟨options, selected, hw⟩ :=
    buildRadioGroup_widget tk b elem (computeStyle b.toBuilder elem)
  rw [hw, changeClosure_none _ _ _ h]
  exact Changed_RadioGroup_none fmt s options selected v

/-- C24, as stated, fails. In `eventLayout`, built with an event handler set
and no callback registered, the checkbox `c1` has a nil `OnChanged`: a change
of its value invokes nothing, where the entry `e1` calls `OnEntryChanged`. -/
theorem Checkbox_change_no_handler :
    (Build testKit (NewBuilder.SetEventHandler 9) eventLayout).1.GetElement "c1".toList =
        some (CanvasObject.Check "Check".toList false none none) ∧
      (CanvasObject.Check "Check".toList false none none).Changed testFormat
          (Build testKit (NewBuilder.SetEventHandler 9) eventLayout).1
          (NewValue.checked true) = [] ∧
      (Build testKit (NewBuilder.SetEventHandler 9) eventLayout).1.GetElement "e1".toList =
        some (CanvasObject.Entry [] false false "typed".toList "e1".toList) ∧
      (CanvasObject.Entry [] false false "typed".toList "e1".toList).Changed testFormat
          (Build testKit (NewBuilder.SetEventHandler 9) eventLayout).1
          (NewValue.text "x".toList) =
        [Invocation.OnEntryChanged 9 "e1".toList "x".toList] :=
  ⟨rfl, rfl, rfl, rfl⟩

/-- C24, amended. For an Entry with a non-empty id, when an event handler is
set and no callback is registered under the `onchange` name of the element
(or it has no `onchange` attribute), a change of the text invokes
`OnEntryChanged` of the handler with the id and the new value. For a
Checkbox or Slider (callbacks of `On`) and a Select or RadioGroup (callbacks
of `OnEntry`) built when no callback is registered under the `onchange` name,
a change of value invokes nothing, the event handler included. -/
theorem change_without_callback (tk : Toolkit) (b : BuilderState) (elem : Element)
    (fmt : GoFloat → Str) (hid : elem.ID ≠ []) :
    (elem.tag = "Entry".toList →
      ∃ entry, (buildElement tk b elem).2 = some entry ∧
        ∀ (s : BuilderState) (handler : EventHandler) (value : Str),
          s.eventHandler = some handler →
          (elem.getAttr "onchange".toList = [] ∨
            s.entryCallbacks (elem.getAttr "onchange".toList) = none) →
          entry.Changed fmt s (NewValue.text value) =
            [Invocation.OnEntryChanged handler elem.ID value]) ∧
      ((elem.tag = "Checkbox".toList ∨ elem.tag = "Slider".toList) →
        (elem.getAttr "onchange".toList = [] ∨
          b.eventCallbacks (elem.getAttr "onchange".toList) = none) →
        ∃ obj, (buildElement tk b elem).2 = some obj ∧
          ∀ (s : BuilderState) (v : NewValue), obj.widget.Changed fmt s v = []) ∧
      ((elem.tag = "Select".toList ∨ elem.tag = "RadioGroup".toList) →
        (elem.getAttr "onchange".toList = [] ∨
          b.entryCallbacks (elem.getAttr "onchange".toList) = none) →
        ∃ obj, (buildElement tk b elem).2 = some obj ∧
          ∀ (s : BuilderState) (v : NewValue), obj.widget.Changed fmt s v = []) := by
  refine ⟨?_, ?_, ?_⟩
  · intro htag
    rw [buildElement_Entry tk b elem htag]
    refine ⟨_, rfl, ?_⟩
    intro s handler value hh hno
    exact entryChanged_of_handler s _ _ _ value handler hno hh hid
  · rintro (htag | htag) h
    · exact Checkbox_silent tk b elem fmt htag h
    · exact Slider_silent tk b elem fmt htag h
  · rintro (htag | htag) h
    · exact Select_silent tk b elem fmt htag h
    · exact RadioGroup_silent tk b elem fmt htag h

theorem change_without_callback_witness :
    typedEntry.ID ≠ [] ∧ typedCheckbox.ID ≠ [] ∧
      (∃ entry, (buildElement testKit NewBuilder typedEntry).2 = some entry ∧
        entry.Changed testFormat
            (Build testKit (NewBuilder.SetEventHandler 9) eventLayout).1
            (NewValue.text "x".toList) =
          [Invocation.OnEntryChanged 9 typedEntry.ID "x".toList]) ∧
      (∃ obj, (buildElement testKit (NewBuilder.SetEventHandler 9) typedCheckbox).2 =
          some obj ∧
        ∀ (s : BuilderState) (v : NewValue), obj.widget.Changed testFormat s v = []) :=
  ⟨by decide, by decide,
    ((change_without_callback testKit NewBuilder typedEntry testFormat (by decide)).1 rfl).imp
      fun _ hx => ⟨hx.1, hx.2 _ 9 _ rfl (Or.inr rfl)⟩,
    (change_without_callback testKit (NewBuilder.SetEventHandler 9) typedCheckbox testFormat
      (by decide)).2.1 (Or.inl rfl) (Or.inr rfl)⟩

/-- C28. A Checkbox and a Slider resolve their `onchange` name, when they are
built, in the table of callbacks `On` fills: with no entry there under the
name (whatever `OnEntry` registered) a change of value invokes nothing, and with
an entry (and no `bind` attribute) it invokes that callback. A Select and a
RadioGroup do the same with the table `OnEntry` fills. An Entry looks its
name up in the table of `OnEntry` when its text changes: with no entry there
(whatever `On` registered) no callback is invoked, and with an entry that
callback is. -/
theorem onchange_tables (tk : Toolkit) (b : BuilderState) (elem : Element)
    (fmt : GoFloat → Str) :
    ((elem.tag = "Checkbox".toList ∨ elem.tag = "Slider".toList) →
      ∃ obj, (buildElement tk b elem).2 = some obj ∧
        (b.eventCallbacks (elem.getAttr "onchange".toList) = none →
          ∀ (s : BuilderState) (v : NewValue), obj.widget.Changed fmt s v = []) ∧
        (∀ cb : ButtonCallback, elem.getAttr "onchange".toList ≠ [] →
          elem.getAttr "bind".toList = [] →
          b.eventCallbacks (elem.getAttr "onchange".toList) = some cb →
          (elem.tag = "Checkbox".toList → ∀ (s : BuilderState) (c : Bool),
            obj.widget.Changed fmt s (NewValue.checked c) =
              [Invocation.callback cb
                ⟨elem.getAttr "onchange".toList, obj.widget, elem.ID, FormatBool c⟩]) ∧
          (elem.tag = "Slider".toList → ∀ (s : BuilderState) (x : GoFloat),
            obj.widget.Changed fmt s (NewValue.number x) =
              [Invocation.callback cb
                ⟨elem.getAttr "onchange".toList, obj.widget, elem.ID, fmt x⟩]))) ∧
    ((elem.tag = "Select".toList ∨ elem.tag = "RadioGroup".toList) →
      ∃ obj, (buildElement tk b elem).2 = some obj ∧
        (b.entryCallbacks (elem.getAttr "onchange".toList) = none →
          ∀ (s : BuilderState) (v : NewValue), obj.widget.Changed fmt s v = []) ∧
        (∀ cb : EntryCallback, elem.getAttr "onchange".toList ≠ [] →
          (elem.tag = "Select".toList → elem.getAttr "bind".toList = []) →
          b.entryCallbacks (elem.getAttr "onchange".toList) = some cb →
          ∀ (s : BuilderState) (value : Str),
            obj.widget.Changed fmt s (NewValue.text value) =
              [Invocation.callback cb
                ⟨elem.getAttr "onchange".toList, obj.widget, elem.ID, value⟩])) ∧
    (elem.tag = "Entry".toList →
      ∃ entry, (buildElement tk b elem).2 = some entry ∧
        (∀ (s : BuilderState) (value : Str),
          s.entryCallbacks (elem.getAttr "onchange".toList) = none →
          ∀ (cb : Nat) (ctx : EventContext),
            Invocation.callback cb ctx ∉ entry.Changed fmt s (NewValue.text value)) ∧
        (∀ (s : BuilderState) (value : Str) (cb : EntryCallback),
          elem.getAttr "onchange".toList ≠ [] →
          s.entryCallbacks (elem.getAttr "onchange".toList) = some cb →
          entry.Changed fmt s (NewValue.text value) =
            [Invocation.callback cb
              ⟨elem.getAttr "onchange".toList, entry, elem.ID, value⟩])) := by
  refine ⟨?_, ?_, ?_⟩
  · rintro (htag | htag)
    · rw [buildElement_Checkbox tk b elem htag]
      obtain ⟨label, checked, bound, hw, hb⟩ :=
        buildCheckbox_widget tk b elem (computeStyle b.toBuilder elem)
      refine ⟨_, rfl, ?_, ?_⟩
      · intro h s v
        rw [hw, changeClosure_none _ _ _ (Or.inr h)]
        exact Changed_Check_none fmt s label checked bound v
      · intro cb hne hbind h
        refine ⟨fun _ s c => ?_, fun h2 => absurd (htag.symm.trans h2) (by decide)⟩
        rw [hw, changeClosure_some _ _ _ cb hne h, hb hbind]
        rfl
    · rw [buildElement_Slider tk b elem htag]
      obtain ⟨min, max, value, step, bound, hw, hb⟩ :=
        buildSlider_widget tk b elem (computeStyle b.toBuilder elem)
      refine ⟨_, rfl, ?_, ?_⟩
      · intro h s v
        rw [hw, changeClosure_none _ _ _ (Or.inr h)]
        exact Changed_Slider_none fmt s min max value step bound v
      · intro cb hne hbind h
        refine ⟨fun h2 => absurd (htag.symm.trans h2) (by decide), fun _ s x => ?_⟩
        rw [hw, changeClosure_some _ _ _ cb hne h, hb hbind]
        rfl
  · rintro (htag | htag)
    · rw [buildElement_Select tk b elem htag]
      obtain ⟨options, selected, bound, hw, hb⟩ :=
        buildSelect_widget tk b elem (computeStyle b.toBuilder elem)
      refine ⟨_, rfl, ?_, ?_⟩
      · intro h s v
        rw [hw, changeClosure_none _ _ _ (Or.inr h)]
        exact Changed_Select_none fmt s options selected bound v
      · intro cb hne hbind h s value
        rw [hw, changeClosure_some _ _ _ cb hne h, hb (hbind htag)]
        rfl
    · rw [buildElement_RadioGroup tk b elem htag]
      obtain ⟨options, selected, hw⟩ :=
        buildRadioGroup_widget tk b elem (computeStyle b.toBuilder elem)
      refine ⟨_, rfl, ?_, ?_⟩
      · intro h s v
        rw [hw, changeClosure_none _ _ _ (Or.inr h)]
        exact Changed_RadioGroup_none fmt s options selected v
      · intro cb hne _ h s value
        rw [hw, changeClosure_some _ _ _ cb hne h]
        rfl
  · intro htag
    rw [buildElement_Entry tk b elem htag]
    refine ⟨_, rfl, ?_, ?_⟩
    · intro s value h cb ctx
      exact entryChanged_no_callback s _ _ _ value h cb ctx
    · intro s value cb hne h
      exact entryChanged_of_callback s _ _ _ value cb hne h

theorem onchange_tables_witness :
    (∃ obj, (buildElement testKit (NewBuilder.OnEntry "typed".toList 3) typedCheckbox).2 =
        some obj ∧
      ∀ (s : BuilderState) (v : NewValue), obj.widget.Changed testFormat s v = []) ∧
    (∃ obj, (buildElement testKit (NewBuilder.On "typed".toList 4) typedCheckbox).2 =
        some obj ∧
      ∀ (s : BuilderState) (c : Bool),
        obj.widget.Changed testFormat s (NewValue.checked c) =
          [Invocation.callback 4
            ⟨typedCheckbox.getAttr "onchange".toList, obj.widget, typedCheckbox.ID,
              FormatBool c⟩]) ∧
    (∃ obj, (buildElement testKit (NewBuilder.On "go".toList 5) goSelect).2 = some obj ∧
      ∀ (s : BuilderState) (v : NewValue), obj.widget.Changed testFormat s v = []) ∧
    (∃ entry, (buildElement testKit NewBuilder typedEntry).2 = some entry ∧
      ∀ (cb : Nat) (ctx : EventContext),
        Invocation.callback cb ctx ∉
          entry.Changed testFormat (NewBuilder.On "typed".toList 4)
            (NewValue.text "x".toList)) :=
  ⟨((onchange_tables testKit (NewBuilder.OnEntry "typed".toList 3) typedCheckbox
      testFormat).1 (Or.inl rfl)).imp fun _ hx => ⟨hx.1, hx.2.1 rfl⟩,
    ((onchange_tables testKit (NewBuilder.On "typed".toList 4) typedCheckbox
      testFormat).1 (Or.inl rfl)).imp
      fun _ hx => ⟨hx.1, (hx.2.2 4 (by decide) rfl rfl).1 rfl⟩,
    ((onchange_tables testKit (NewBuilder.On "go".toList 5) goSelect
      testFormat).2.1 (Or.inl rfl)).imp fun _ hx => ⟨hx.1, hx.2.1 rfl⟩,
    ((onchange_tables testKit NewBuilder typedEntry testFormat).2.2 rfl).imp
      fun _ hx => ⟨hx.1, hx.2.1 _ _ rfl⟩⟩

end Events

/-! ## Binding cells, sizes and the loading of rules -/

section Cells

theorem existing_eq_some (bc : BindingContext) (key : Str) (i : Nat) (d : DataItem) :
    bc.existing key = some (i, d) ↔ bc.data key = some i ∧ bc.cells.get? i = some d := by
  unfold BindingContext.existing
  cases h1 : bc.data key with
  | none => simp
  | some j =>
    cases h2 : bc.cells.get? j with
    | none =>
      simp only [h2, Option.some.injEq, false_iff, not_and, reduceCtorEq]
      intro hj
      subst hj
      rw [h2]
      simp
    | some e =>
      simp only [h2, Option.some.injEq, Prod.mk.injEq]
      constructor
      · rintro ⟨rfl, rfl⟩
        exact ⟨rfl, h2⟩
      · rintro ⟨rfl, h3⟩
        rw [h2] at h3
        exact ⟨rfl, Option.some.inj h3⟩

theorem existing_set (bc : BindingContext) (key : Str) (i : Nat) (d x : DataItem)
    (h : bc.existing key = some (i, d)) :
    BindingContext.existing { bc with cells := bc.cells.set i x } key = some (i, x) := by
  rw [existing_eq_some] at h ⊢
  refine ⟨h.1, ?_⟩
  have hlt : i < bc.cells.length := by
    by_contra hge
    have : bc.cells.get? i = none := List.get?_eq_none.mpr (Nat.le_of_not_lt hge)
    rw [this] at h
    cases h.2
  simp [hlt]

theorem existing_bindNew (bc : BindingContext) (key : Str) (item : DataItem) :
    (bc.bindNew key item).1.existing key = some (bc.cells.length, item) := by
  rw [existing_eq_some]
  simp [BindingContext.bindNew, GoMap.set]

theorem cells_bindNew (bc : BindingContext) (key : Str) (item : DataItem) (i : Nat)
    (d : DataItem) (h : bc.cells.get? i = some d) :
    (bc.bindNew key item).1.cells.get? i = some d := by
  have hlt : i < bc.cells.length := by
    by_contra hge
    have : bc.cells.get? i = none := List.get?_eq_none.mpr (Nat.le_of_not_lt hge)
    rw [this] at h
    cases h
  simp only [BindingContext.bindNew]
  rw [List.get?_eq_getElem?, List.getElem?_append_left hlt, ← List.get?_eq_getElem?]
  exact h

theorem BindString_same (bc : BindingContext) (key : Str) (i : Nat) (old value : Str)
    (h : bc.existing key = some (i, DataItem.String old)) :
    (bc.BindString key value).2 = i ∧ (bc.BindString key value).1.data = bc.data ∧
      (bc.BindString key value).1.cells.length = bc.cells.length ∧
      (bc.BindString key value).1.GetString key = some value := by
  have e : bc.BindString key value =
      ({ bc with cells := bc.cells.set i (DataItem.String value) }, i) := by
    unfold BindingContext.BindString
    rw [h]
  rw [e]
  refine ⟨rfl, rfl, by simp, ?_⟩
  unfold BindingContext.GetString
  rw [existing_set bc key i _ _ h]

theorem BindInt_same (bc : BindingContext) (key : Str) (i : Nat) (old value : Int)
    (h : bc.existing key = some (i, DataItem.Int old)) :
    (bc.BindInt key value).2 = i ∧ (bc.BindInt key value).1.data = bc.data ∧
      (bc.BindInt key value).1.cells.length = bc.cells.length ∧
      (bc.BindInt key value).1.GetInt key = some value := by
  have e : bc.BindInt key value =
      ({ bc with cells := bc.cells.set i (DataItem.Int value) }, i) := by
    unfold BindingContext.BindInt
    rw [h]
  rw [e]
  refine ⟨rfl, rfl, by simp, ?_⟩
  unfold BindingContext.GetInt
  rw [existing_set bc key i _ _ h]

theorem BindFloat_same (bc : BindingContext) (key : Str) (i : Nat) (old value : GoFloat)
    (h : bc.existing key = some (i, DataItem.Float old)) :
    (bc.BindFloat key value).2 = i ∧ (bc.BindFloat key value).1.data = bc.data ∧
      (bc.BindFloat key value).1.cells.length = bc.cells.length ∧
      (bc.BindFloat key value).1.GetFloat key = some value := by
  have e : bc.BindFloat key value =
      ({ bc with cells := bc.cells.set i (DataItem.Float value) }, i) := by
    unfold BindingContext.BindFloat
    rw [h]
  rw [e]
  refine ⟨rfl, rfl, by simp, ?_⟩
  unfold BindingContext.GetFloat
  rw [existing_set bc key i _ _ h]

theorem BindBool_same (bc : BindingContext) (key : Str) (i : Nat) (old value : Bool)
    (h : bc.existing key = some (i, DataItem.Bool old)) :
    (bc.BindBool key value).2 = i ∧ (bc.BindBool key value).1.data = bc.data ∧
      (bc.BindBool key value).1.cells.length = bc.cells.length ∧
      (bc.BindBool key value).1.GetBool key = some value := by
  have e : bc.BindBool key value =
      ({ bc with cells := bc.cells.set i (DataItem.Bool value) }, i) := by
    unfold BindingContext.BindBool
    rw [h]
  rw [e]
  refine ⟨rfl, rfl, by simp, ?_⟩
  unfold BindingContext.GetBool
  rw [existing_set bc key i _ _ h]

theorem BindString_other (bc : BindingContext) (key : Str) (i : Nat) (d : DataItem)
    (value : Str) (h : bc.existing key = some (i, d)) (hd : ∀ old, d ≠ DataItem.String old) :
    (bc.BindString key value).2 = bc.cells.length ∧ (bc.BindString key value).2 ≠ i ∧
      (bc.BindString key value).1.existing key =
        some (bc.cells.length, DataItem.String value) ∧
      (bc.BindString key value).1.cells.get? i = some d ∧
      (bc.BindString key value).1.GetString key = some value ∧
      (bc.BindString key value).1.GetInt key = none ∧
      (bc.BindString key value).1.GetFloat key = none ∧
      (bc.BindString key value).1.GetBool key = none := by
  have e : bc.BindString key value = bc.bindNew key (DataItem.String value) := by
    unfold BindingContext.BindString
    rw [h]
    cases d with
    | String old => exact absurd rfl (hd old)
    | _ => rfl
  have hcell := ((existing_eq_some bc key i d).mp h).2
  have hlt : i < bc.cells.length := by
    by_contra hge
    have : bc.cells.get? i = none := List.get?_eq_none.mpr (Nat.le_of_not_lt hge)
    rw [this] at hcell
    cases hcell
  have hx := existing_bindNew bc key (DataItem.String value)
  rw [e]
  refine ⟨rfl, fun hc => ?_, hx, cells_bindNew bc key _ i d hcell, ?_, ?_, ?_, ?_⟩
  · have h2 : bc.cells.length = i := hc
    omega
  · unfold BindingContext.GetString
    rw [hx]
  · unfold BindingContext.GetInt
    rw [hx]
  · unfold BindingContext.GetFloat
    rw [hx]
  · unfold BindingContext.GetBool
    rw [hx]

theorem BindInt_other (bc : BindingContext) (key : Str) (i : Nat) (d : DataItem)
    (value : Int) (h : bc.existing key = some (i, d)) (hd : ∀ old, d ≠ DataItem.Int old) :
    (bc.BindInt key value).2 = bc.cells.length ∧ (bc.BindInt key value).2 ≠ i ∧
      (bc.BindInt key value).1.existing key =
        some (bc.cells.length, DataItem.Int value) ∧
      (bc.BindInt key value).1.cells.get? i = some d ∧
      (bc.BindInt key value).1.GetInt key = some value ∧
      (bc.BindInt key value).1.GetString key = none ∧
      (bc.BindInt key value).1.GetFloat key = none ∧
      (bc.BindInt key value).1.GetBool key = none := by
  have e : bc.BindInt key value = bc.bindNew key (DataItem.Int value) := by
    unfold BindingContext.BindInt
    rw [h]
    cases d with
    | Int old => exact absurd rfl (hd old)
    | _ => rfl
  have hcell := ((existing_eq_some bc key i d).mp h).2
  have hlt : i < bc.cells.length := by
    by_contra hge
    have : bc.cells.get? i = none := List.get?_eq_none.mpr (Nat.le_of_not_lt hge)
    rw [this] at hcell
    cases hcell
  have hx := existing_bindNew bc key (DataItem.Int value)
  rw [e]
  refine ⟨rfl, fun hc => ?_, hx, cells_bindNew bc key _ i d hcell, ?_, ?_, ?_, ?_⟩
  · have h2 : bc.cells.length = i := hc
    omega
  · unfold BindingContext.GetInt
    rw [hx]
  · unfold BindingContext.GetString
    rw [hx]
  · unfold BindingContext.GetFloat
    rw [hx]
  · unfold BindingContext.GetBool
    rw [hx]

theorem BindFloat_other (bc : BindingContext) (key : Str) (i : Nat) (d : DataItem)
    (value : GoFloat) (h : bc.existing key = some (i, d)) (hd : ∀ old, d ≠ DataItem.Float old) :
    (bc.BindFloat key value).2 = bc.cells.length ∧ (bc.BindFloat key value).2 ≠ i ∧
      (bc.BindFloat key value).1.existing key =
        some (bc.cells.length, DataItem.Float value) ∧
      (bc.BindFloat key value).1.cells.get? i = some d ∧
      (bc.BindFloat key value).1.GetFloat key = some value ∧
      (bc.BindFloat key value).1.GetString key = none ∧
      (bc.BindFloat key value).1.GetInt key = none ∧
      (bc.BindFloat key value).1.GetBool key = none := by
  have e : bc.BindFloat key value = bc.bindNew key (DataItem.Float value) := by
    unfold BindingContext.BindFloat
    rw [h]
    cases d with
    | Float old => exact absurd rfl (hd old)
    | _ => rfl
  have hcell := ((existing_eq_some bc key i d).mp h).2
  have hlt : i < bc.cells.length := by
    by_contra hge
    have : bc.cells.get? i = none := List.get?_eq_none.mpr (Nat.le_of_not_lt hge)
    rw [this] at hcell
    cases hcell
  have hx := existing_bindNew bc key (DataItem.Float value)
  rw [e]
  refine ⟨rfl, fun hc => ?_, hx, cells_bindNew bc key _ i d hcell, ?_, ?_, ?_, ?_⟩
  · have h2 : bc.cells.length = i := hc
    omega
  · unfold BindingContext.GetFloat
    rw [hx]
  · unfold BindingContext.GetString
    rw [hx]
  · unfold BindingContext.GetInt
    rw [hx]
  · unfold BindingContext.GetBool
    rw [hx]

theorem BindBool_other (bc : BindingContext) (key : Str) (i : Nat) (d : DataItem)
    (value : Bool) (h : bc.existing key = some (i, d)) (hd : ∀ old, d ≠ DataItem.Bool old) :
    (bc.BindBool key value).2 = bc.cells.length ∧ (bc.BindBool key value).2 ≠ i ∧
      (bc.BindBool key value).1.existing key =
        some (bc.cells.length, DataItem.Bool value) ∧
      (bc.BindBool key value).1.cells.get? i = some d ∧
      (bc.BindBool key value).1.GetBool key = some value ∧
      (bc.BindBool key value).1.GetString key = none ∧
      (bc.BindBool key value).1.GetInt key = none ∧
      (bc.BindBool key value).1.GetFloat key = none := by
  have e : bc.BindBool key value = bc.bindNew key (DataItem.Bool value) := by
    unfold BindingContext.BindBool
    rw [h]
    cases d with
    | Bool old => exact absurd rfl (hd old)
    | _ => rfl
  have hcell := ((existing_eq_some bc key i d).mp h).2
  have hlt : i < bc.cells.length := by
    by_contra hge
    have : bc.cells.get? i = none := List.get?_eq_none.mpr (Nat.le_of_not_lt hge)
    rw [this] at hcell
    cases hcell
  have hx := existing_bindNew bc key (DataItem.Bool value)
  rw [e]
  refine ⟨rfl, fun hc => ?_, hx, cells_bindNew bc key _ i d hcell, ?_, ?_, ?_, ?_⟩
  · have h2 : bc.cells.length = i := hc
    omega
  · unfold BindingContext.GetBool
    rw [hx]
  · unfold BindingContext.GetString
    rw [hx]
  · unfold BindingContext.GetInt
    rw [hx]
  · unfold BindingContext.GetFloat
    rw [hx]

/-- C25, as stated, fails: `BindInt("k", 1)` after `BindString("k", "a")`
returns a cell and reports nothing. A new cell holding 1 stands under the key,
`GetInt` returns 1, and the string cell is left behind in the store. -/
theorem BindInt_after_BindString_succeeds :
    ((NewBindingContext.BindString "k".toList "a".toList).1.BindInt "k".toList 1).2 = 1 ∧
      ((NewBindingContext.BindString "k".toList "a".toList).1.BindInt "k".toList 1).1.cells =
        [DataItem.String "a".toList, DataItem.Int 1] ∧
      ((NewBindingContext.BindString "k".toList "a".toList).1.BindInt "k".toList 1).1.GetInt
          "k".toList = some 1 ∧
      ((NewBindingContext.BindString "k".toList "a".toList).1.BindInt "k".toList
          1).1.GetString "k".toList = none := by
  decide

/-- C25, amended. Requesting a cell of one kind for a key whose cell has
another kind succeeds without any report: `BindString`, `BindInt`, `BindFloat`
and `BindBool` return a new cell of the requested kind holding the supplied
value, stored under the key in place of the old cell, which stays in the store
as it was. Afterwards the getter of the requested kind returns the value and
the getters of the other kinds report an error. -/
theorem Bind_other_kind_replaces (bc : BindingContext) (key : Str) (i : Nat) (d : DataItem)
    (h : bc.existing key = some (i, d)) :
    (∀ value : Str, (∀ old, d ≠ DataItem.String old) →
      (bc.BindString key value).2 = bc.cells.length ∧ (bc.BindString key value).2 ≠ i ∧
        (bc.BindString key value).1.existing key =
          some (bc.cells.length, DataItem.String value) ∧
        (bc.BindString key value).1.cells.get? i = some d ∧
        (bc.BindString key value).1.GetString key = some value ∧
        (bc.BindString key value).1.GetInt key = none ∧
        (bc.BindString key value).1.GetFloat key = none ∧
        (bc.BindString key value).1.GetBool key = none) ∧
    (∀ value : Int, (∀ old, d ≠ DataItem.Int old) →
      (bc.BindInt key value).2 = bc.cells.length ∧ (bc.BindInt key value).2 ≠ i ∧
        (bc.BindInt key value).1.existing key =
          some (bc.cells.length, DataItem.Int value) ∧
        (bc.BindInt key value).1.cells.get? i = some d ∧
        (bc.BindInt key value).1.GetInt key = some value ∧
        (bc.BindInt key value).1.GetString key = none ∧
        (bc.BindInt key value).1.GetFloat key = none ∧
        (bc.BindInt key value).1.GetBool key = none) ∧
    (∀ value : GoFloat, (∀ old, d ≠ DataItem.Float old) →
      (bc.BindFloat key value).2 = bc.cells.length ∧ (bc.BindFloat key value).2 ≠ i ∧
        (bc.BindFloat key value).1.existing key =
          some (bc.cells.length, DataItem.Float value) ∧
        (bc.BindFloat key value).1.cells.get? i = some d ∧
        (bc.BindFloat key value).1.GetFloat key = some value ∧
        (bc.BindFloat key value).1.GetString key = none ∧
        (bc.BindFloat key value).1.GetInt key = none ∧
        (bc.BindFloat key value).1.GetBool key = none) ∧
    (∀ value : Bool, (∀ old, d ≠ DataItem.Bool old) →
      (bc.BindBool key value).2 = bc.cells.length ∧ (bc.BindBool key value).2 ≠ i ∧
        (bc.BindBool key value).1.existing key =
          some (bc.cells.length, DataItem.Bool value) ∧
        (bc.BindBool key value).1.cells.get? i = some d ∧
        (bc.BindBool key value).1.GetBool key = some value ∧
        (bc.BindBool key value).1.GetString key = none ∧
        (bc.BindBool key value).1.GetInt key = none ∧
        (bc.BindBool key value).1.GetFloat key = none) :=
  ⟨fun value hd => BindString_other bc key i d value h hd,
    fun value hd => BindInt_other bc key i d value h hd,
    fun value hd => BindFloat_other bc key i d value h hd,
    fun value hd => BindBool_other bc key i d value h hd⟩

theorem Bind_other_kind_replaces_witness :
    (NewBindingContext.BindString "k".toList "a".toList).1.existing "k".toList =
        some (0, DataItem.String "a".toList) ∧
      ((NewBindingContext.BindString "k".toList "a".toList).1.BindInt "k".toList 1).2 = 1 ∧
      ((NewBindingContext.BindString "k".toList "a".toList).1.BindInt "k".toList 1).1.cells.get?
          0 = some (DataItem.String "a".toList) ∧
      ((NewBindingContext.BindString "k".toList "a".toList).1.BindInt "k".toList 1).1.GetInt
          "k".toList = some 1 ∧
      ((NewBindingContext.BindString "k".toList "a".toList).1.BindInt "k".toList
          1).1.GetString "k".toList = none :=
  have h := (Bind_other_kind_replaces (NewBindingContext.BindString "k".toList "a".toList).1
    "k".toList 0 (DataItem.String "a".toList) (by decide)).2.1 1
    (fun old hc => DataItem.noConfusion hc)
  ⟨by decide, h.1, h.2.2.2.1, h.2.2.2.2.1, h.2.2.2.2.2.1⟩

/-- C30. `BindString`, `BindInt`, `BindFloat` and `BindBool` called with a key
that holds a cell of the same kind return that same cell (no cell is made and
the key keeps its cell) and overwrite its value with the value supplied: the
getter of that kind then returns the new argument, whatever the cell held. -/
theorem Bind_same_kind_overwrites (bc : BindingContext) (key : Str) (i : Nat) :
    (∀ old value : Str, bc.existing key = some (i, DataItem.String old) →
      (bc.BindString key value).2 = i ∧ (bc.BindString key value).1.data = bc.data ∧
        (bc.BindString key value).1.cells.length = bc.cells.length ∧
        (bc.BindString key value).1.GetString key = some value) ∧
    (∀ old value : Int, bc.existing key = some (i, DataItem.Int old) →
      (bc.BindInt key value).2 = i ∧ (bc.BindInt key value).1.data = bc.data ∧
        (bc.BindInt key value).1.cells.length = bc.cells.length ∧
        (bc.BindInt key value).1.GetInt key = some value) ∧
    (∀ old value : GoFloat, bc.existing key = some (i, DataItem.Float old) →
      (bc.BindFloat key value).2 = i ∧ (bc.BindFloat key value).1.data = bc.data ∧
        (bc.BindFloat key value).1.cells.length = bc.cells.length ∧
        (bc.BindFloat key value).1.GetFloat key = some value) ∧
    (∀ old value : Bool, bc.existing key = some (i, DataItem.Bool old) →
      (bc.BindBool key value).2 = i ∧ (bc.BindBool key value).1.data = bc.data ∧
        (bc.BindBool key value).1.cells.length = bc.cells.length ∧
        (bc.BindBool key value).1.GetBool key = some value) :=
  ⟨fun old value h => BindString_same bc key i old value h,
    fun old value h => BindInt_same bc key i old value h,
    fun old value h => BindFloat_same bc key i old value h,
    fun old value h => BindBool_same bc key i old value h⟩

theorem Bind_same_kind_overwrites_witness :
    (NewBindingContext.BindString "k".toList "a".toList).1.GetString "k".toList =
        some "a".toList ∧
      ((NewBindingContext.BindString "k".toList "a".toList).1.BindString "k".toList
          "b".toList).2 = 0 ∧
      ((NewBindingContext.BindString "k".toList "a".toList).1.BindString "k".toList
          "b".toList).1.cells.length = 1 ∧
      ((NewBindingContext.BindString "k".toList "a".toList).1.BindString "k".toList
          "b".toList).1.GetString "k".toList = some "b".toList :=
  have h := (Bind_same_kind_overwrites (NewBindingContext.BindString "k".toList "a".toList).1
    "k".toList 0).1 "a".toList "b".toList (by decide)
  ⟨by decide, h.1, h.2.2.1, h.2.2.2⟩

end Cells

section Sizes

theorem styledSize_of_key (style : GoMap Str) (key minKey : Str) (w : GoFloat)
    (h : (style.at key ≠ [] ∧ parseSize (style.at key) = some w) ∨
      (style.at key = [] ∧ style.at minKey ≠ [] ∧ parseSize (style.at minKey) = some w)) :
    styledSize style key minKey = some w := by
  unfold styledSize
  rcases h with ⟨h1, h2⟩ | ⟨h1, h2, h3⟩
  · rw [if_pos h1, h2]
  · rw [if_neg (not_not.mpr h1), if_pos h2, h3]

theorem styledSize_unparsed (style : GoMap Str) (key minKey : Str) (h1 : style.at key ≠ [])
    (h2 : parseSize (style.at key) = none) : styledSize style key minKey = none := by
  unfold styledSize
  rw [if_pos h1, h2]

theorem styledSize_unset (style : GoMap Str) (key minKey : Str) (h1 : style.at key = [])
    (h2 : style.at minKey = []) : styledSize style key minKey = none := by
  unfold styledSize
  rw [if_neg (not_not.mpr h1), if_neg (not_not.mpr h2)]

/-- C26, as stated, fails. In the style parsed from `width: ; min-width: 50px`
the key `width` is present (with an empty value), yet `applyMinSize` takes the
width 50 from `min-width`. -/
theorem applyMinSize_empty_width :
    emptyWidthStyle "width".toList = some [] ∧
      emptyWidthStyle "min-width".toList = some "50px".toList ∧
      applyMinSize testKit plainCheck emptyWidthStyle =
        CanvasObject.FixedSize (NewSize (GoFloat.ofNat32 50) Size.zero.Height) plainCheck := by
  have h1 : styledSize emptyWidthStyle "width".toList "min-width".toList =
      some (GoFloat.ofNat32 50) := by decide
  have h2 : styledSize emptyWidthStyle "height".toList "min-height".toList = none := by decide
  refine ⟨by decide, by decide, ?_⟩
  unfold applyMinSize
  rw [h1, h2]
  rfl

theorem applyMinSize_fixed (tk : Toolkit) (obj : CanvasObject) (style : GoMap Str)
    (w h : GoFloat) (hs : ∀ size, obj.SetMinSize size = none)
    (hw : (style.at "width".toList ≠ [] ∧ parseSize (style.at "width".toList) = some w) ∨
      (style.at "width".toList = [] ∧ style.at "min-width".toList ≠ [] ∧
        parseSize (style.at "min-width".toList) = some w))
    (hh : (style.at "height".toList ≠ [] ∧ parseSize (style.at "height".toList) = some h) ∨
      (style.at "height".toList = [] ∧ style.at "min-height".toList ≠ [] ∧
        parseSize (style.at "min-height".toList) = some h)) :
    applyMinSize tk obj style = CanvasObject.FixedSize (NewSize w h) obj := by
  unfold applyMinSize
  rw [styledSize_of_key style _ _ w hw, styledSize_of_key style _ _ h hh]
  simp [hs]

/-- The builders of widgets.go for a check box, a select, a progress bar, a
slider and a radio group return what `applyMinSize` makes of the widget, a
widget without `SetMinSize`. -/
theorem buildElement_sized_widget (tk : Toolkit) (s : BuilderState) (elem : Element)
    (h : elem.tag ∈ ["Checkbox".toList, "Select".toList, "ProgressBar".toList,
      "Slider".toList, "RadioGroup".toList]) :
    ∃ widget, (∀ size, widget.SetMinSize size = none) ∧
      (buildElement tk s elem).2 =
        some (applyMinSize tk widget (computeStyle s.toBuilder elem)) := by
  cases elem with
  | mk tag ID cls sty text attrs children content =>
    simp only [Element.tag, List.mem_cons, List.mem_singleton, List.not_mem_nil,
      or_false] at h
    rcases h with h | h | h | h | h
    · subst h
      exact ⟨CanvasObject.Check _ _ _ _, fun _ => rfl, rfl⟩
    · subst h
      exact ⟨CanvasObject.Select _ _ _ _, fun _ => rfl, rfl⟩
    · subst h
      exact ⟨CanvasObject.ProgressBar _ _ _, fun _ => rfl, rfl⟩
    · subst h
      exact ⟨CanvasObject.Slider _ _ _ _ _ _, fun _ => rfl, rfl⟩
    · subst h
      exact ⟨CanvasObject.RadioGroup _ _ _, fun _ => rfl, rfl⟩

theorem sizedTags_recognised (tag : Str)
    (h : tag ∈ ["Checkbox".toList, "Select".toList, "ProgressBar".toList,
      "Slider".toList, "RadioGroup".toList]) : tag ∈ recognisedTags := by
  simp only [List.mem_cons, List.mem_singleton, List.not_mem_nil, or_false] at h
  rcases h with h | h | h | h | h <;> (subst h; decide)

/-- C26, amended. `applyMinSize` takes the width from the style key `width`
when that key has a non-empty value, and from `min-width` only when `width` is
absent or empty (likewise `height` and `min-height`), never combining the two:
a `width` that is set and does not parse leaves `min-width` unread. For an
object without `SetMinSize` and a style whose chosen values parse to `w` and
`h`, the result is the wrapper with a `fixedSizeLayout` of size `(w, h)`,
whose `MinSize` is `(w, h)`. So for a `Checkbox`, `Select`, `ProgressBar`,
`Slider` or `RadioGroup` element with a non-empty id, built during `Build`
with a computed style whose chosen values parse to `w` and `h`, and with no
element built after it stored under the id, `GetElement(id)` after `Build` is
that wrapper around the widget, of minimum size `(w, h)`. -/
theorem applyMinSize_chosen_sizes (tk : Toolkit) (obj : CanvasObject) (style : GoMap Str) :
    (∀ w h : GoFloat, (∀ size, obj.SetMinSize size = none) →
      ((style.at "width".toList ≠ [] ∧ parseSize (style.at "width".toList) = some w) ∨
        (style.at "width".toList = [] ∧ style.at "min-width".toList ≠ [] ∧
          parseSize (style.at "min-width".toList) = some w)) →
      ((style.at "height".toList ≠ [] ∧ parseSize (style.at "height".toList) = some h) ∨
        (style.at "height".toList = [] ∧ style.at "min-height".toList ≠ [] ∧
          parseSize (style.at "min-height".toList) = some h)) →
      applyMinSize tk obj style = CanvasObject.FixedSize (NewSize w h) obj ∧
        (applyMinSize tk obj style).wrapperMinSize = some (NewSize w h)) ∧
    (style.at "width".toList ≠ [] → parseSize (style.at "width".toList) = none →
      style.at "height".toList = [] → style.at "min-height".toList = [] →
      applyMinSize tk obj style = obj) ∧
    (style.at "height".toList ≠ [] → parseSize (style.at "height".toList) = none →
      style.at "width".toList = [] → style.at "min-width".toList = [] →
      applyMinSize tk obj style = obj) ∧
    (∀ (b s : BuilderState) (layout : Layout) (elem : Element) (w h : GoFloat),
      elem.tag ∈ ["Checkbox".toList, "Select".toList, "ProgressBar".toList,
        "Slider".toList, "RadioGroup".toList] →
      elem.ID ≠ [] →
      BuiltLast tk elem.ID elem s layout.Root b →
      (((computeStyle s.toBuilder elem).at "width".toList ≠ [] ∧
          parseSize ((computeStyle s.toBuilder elem).at "width".toList) = some w) ∨
        ((computeStyle s.toBuilder elem).at "width".toList = [] ∧
          (computeStyle s.toBuilder elem).at "min-width".toList ≠ [] ∧
          parseSize ((computeStyle s.toBuilder elem).at "min-width".toList) = some w)) →
      (((computeStyle s.toBuilder elem).at "height".toList ≠ [] ∧
          parseSize ((computeStyle s.toBuilder elem).at "height".toList) = some h) ∨
        ((computeStyle s.toBuilder elem).at "height".toList = [] ∧
          (computeStyle s.toBuilder elem).at "min-height".toList ≠ [] ∧
          parseSize ((computeStyle s.toBuilder elem).at "min-height".toList) = some h)) →
      ∃ widget, (∀ size, widget.SetMinSize size = none) ∧
        (buildElement tk s elem).2 =
          some (applyMinSize tk widget (computeStyle s.toBuilder elem)) ∧
        (Build tk b layout).2.isSome = true ∧
        (Build tk b layout).1.GetElement elem.ID =
          some (CanvasObject.FixedSize (NewSize w h) widget) ∧
        (CanvasObject.FixedSize (NewSize w h) widget).wrapperMinSize =
          some (NewSize w h)) := by
  refine ⟨?_, ?_, ?_, ?_⟩
  · intro w h hs hw hh
    rw [applyMinSize_fixed tk obj style w h hs hw hh]
    exact ⟨rfl, rfl⟩
  · intro h1 h2 h3 h4
    unfold applyMinSize
    rw [styledSize_unparsed style _ _ h1 h2, styledSize_unset style _ _ h3 h4]
    simp
  · intro h1 h2 h3 h4
    unfold applyMinSize
    rw [styledSize_unparsed style _ _ h1 h2, styledSize_unset style _ _ h3 h4]
    simp
  · intro b s layout elem w h htag hne hpath hw hh
    obtain ⟨widget, hs, hobj⟩ := buildElement_sized_widget tk s elem htag
    have hrec := sizedTags_recognised _ htag
    refine ⟨widget, hs, hobj, BuiltLast_built tk elem.ID elem s layout.Root b hpath hrec, ?_,
      rfl⟩
    unfold Build BuilderState.GetElement
    rw [BuiltLast_elements tk elem.ID elem s layout.Root b hpath,
      buildElement_elements_self tk s elem hrec hne, hobj,
      applyMinSize_fixed tk widget _ w h hs hw hh]

theorem applyMinSize_chosen_sizes_witness :
    (bothSizesStyle "min-width".toList = some "50px".toList ∧
      applyMinSize testKit plainCheck bothSizesStyle =
        CanvasObject.FixedSize (NewSize (GoFloat.ofNat32 200) (GoFloat.ofNat32 60))
          plainCheck ∧
      (applyMinSize testKit plainCheck bothSizesStyle).wrapperMinSize =
        some (NewSize (GoFloat.ofNat32 200) (GoFloat.ofNat32 60))) ∧
      (Build testKit NewBuilder sizedCheckLayout).1.GetElement "c1".toList =
        some (CanvasObject.FixedSize (NewSize (GoFloat.ofNat32 200) (GoFloat.ofNat32 60))
          (CanvasObject.Check "ok".toList false none none)) ∧
      ∃ widget, (∀ size, widget.SetMinSize size = none) ∧
        (buildElement testKit
            (buildChildren testKit NewBuilder [mkElem "Label" "t" [] [] "title"]).1
            sizedCheck).2 =
          some (applyMinSize testKit widget
            (computeStyle
              (buildChildren testKit NewBuilder [mkElem "Label" "t" [] [] "title"]).1.toBuilder
              sizedCheck)) ∧
        (Build testKit NewBuilder sizedCheckLayout).2.isSome = true ∧
        (Build testKit NewBuilder sizedCheckLayout).1.GetElement sizedCheck.ID =
          some (CanvasObject.FixedSize (NewSize (GoFloat.ofNat32 200) (GoFloat.ofNat32 60))
            widget) ∧
        (CanvasObject.FixedSize (NewSize (GoFloat.ofNat32 200) (GoFloat.ofNat32 60))
            widget).wrapperMinSize =
          some (NewSize (GoFloat.ofNat32 200) (GoFloat.ofNat32 60)) :=
  have h := (applyMinSize_chosen_sizes testKit plainCheck bothSizesStyle).1
    (GoFloat.ofNat32 200) (GoFloat.ofNat32 60) (fun _ => rfl)
    (Or.inl ⟨by decide, by decide⟩) (Or.inr ⟨by decide, by decide, by decide⟩)
  ⟨⟨by decide, h.1, h.2⟩, rfl,
    (applyMinSize_chosen_sizes testKit plainCheck bothSizesStyle).2.2.2 NewBuilder
      (buildChildren testKit NewBuilder [mkElem "Label" "t" [] [] "title"]).1
      sizedCheckLayout sizedCheck (GoFloat.ofNat32 200) (GoFloat.ofNat32 60)
      (by decide) (by decide)
      (BuiltLast.within sizedCheckLayout.Root NewBuilder [mkElem "Label" "t" [] [] "title"] []
        sizedCheck (by decide) (by decide) rfl (by decide) BuiltLast.here)
      (Or.inl ⟨by decide, by decide⟩) (Or.inr ⟨by decide, by decide, by decide⟩)⟩

end Sizes

section Rules

theorem loadStyle_styles_self (b : BuilderState) (r : Style) :
    (loadStyle b r).styles r.Selector = some ⟨r.Selector, parseCSS r.RawCSS, r.RawCSS⟩ := by
  simp [loadStyle, GoMap.set]

theorem loadStyle_styles_ne (b : BuilderState) (r : Style) (sel : Str)
    (h : r.Selector ≠ sel) : (loadStyle b r).styles sel = b.styles sel := by
  simp only [loadStyle, GoMap.set]
  rw [if_neg (Ne.symm h)]

theorem foldl_loadStyle_of_ne (L : List Style) (sel : Str) :
    ∀ b : BuilderState, (∀ r ∈ L, r.Selector ≠ sel) →
      (L.foldl loadStyle b).styles sel = b.styles sel := by
  induction L with
  | nil => intro b _; rfl
  | cons r rest ih =>
    intro b h
    rw [List.foldl_cons, ih _ (fun x hx => h x (List.mem_cons_of_mem _ hx)),
      loadStyle_styles_ne b r sel (h r (List.mem_cons_self _ _))]

theorem loadStyle_undefined (b : BuilderState) (r : Style) (p : Str) (sel0 : Str)
    (hb : ∀ sel s, sel ≠ sel0 → b.styles sel = some s → s.Properties p = none)
    (hr : parseCSS r.RawCSS p = none) :
    ∀ sel s, (sel ≠ sel0 ∨ r.Selector = sel0) → (loadStyle b r).styles sel = some s →
      s.Properties p = none := by
  intro sel s hsel hs
  by_cases he : r.Selector = sel
  · subst he
    rw [loadStyle_styles_self] at hs
    cases hs
    exact hr
  · rw [loadStyle_styles_ne b r sel he] at hs
    rcases hsel with h1 | h1
    · exact hb sel s h1 hs
    · exact hb sel s (fun h2 => he (h1.trans h2.symm)) hs

theorem foldl_loadStyle_undefined (L : List Style) (p : Str) :
    ∀ b : BuilderState, (∀ sel s, b.styles sel = some s → s.Properties p = none) →
      (∀ r ∈ L, parseCSS r.RawCSS p = none) →
      ∀ sel s, (L.foldl loadStyle b).styles sel = some s → s.Properties p = none := by
  induction L with
  | nil => intro b hb _; exact hb
  | cons r rest ih =>
    intro b hb hL
    rw [List.foldl_cons]
    refine ih _ ?_ (fun x hx => hL x (List.mem_cons_of_mem _ hx))
    intro sel s hs
    exact loadStyle_undefined b r p r.Selector (fun sel s _ h => hb sel s h)
      (hL r (List.mem_cons_self _ _)) sel s (Or.inr rfl) hs

theorem foldl_loadStyle_overwritten (L : List Style) (p : Str) (sel0 : Str) :
    ∀ b : BuilderState,
      (∀ sel s, sel ≠ sel0 → b.styles sel = some s → s.Properties p = none) →
      (∀ r ∈ L, parseCSS r.RawCSS p = none) → (∃ r ∈ L, r.Selector = sel0) →
      ∀ sel s, (L.foldl loadStyle b).styles sel = some s → s.Properties p = none := by
  induction L with
  | nil =>
    intro b _ _ hex
    obtain ⟨r, hr, _⟩ := hex
    cases hr
  | cons r rest ih =>
    intro b hb hL hex
    rw [List.foldl_cons]
    have hr := hL r (List.mem_cons_self _ _)
    have hrest : ∀ x ∈ rest, parseCSS x.RawCSS p = none :=
      fun x hx => hL x (List.mem_cons_of_mem _ hx)
    by_cases he : r.Selector = sel0
    · refine foldl_loadStyle_undefined rest p _ ?_ hrest
      intro sel s hs
      by_cases h1 : sel = sel0
      · exact loadStyle_undefined b r p sel0 hb hr sel s (Or.inr he) hs
      · exact loadStyle_undefined b r p sel0 hb hr sel s (Or.inl h1) hs
    · refine ih _ ?_ hrest ?_
      · intro sel s h1 hs
        exact loadStyle_undefined b r p sel0 hb hr sel s (Or.inl h1) hs
      · obtain ⟨x, hx, hxs⟩ := hex
        rcases List.mem_cons.mp hx with h2 | h2
        · subst h2
          exact absurd hxs he
        · exact ⟨x, h2, hxs⟩

theorem computeStyle_none_of_undefined (b : Builder) (elem : Element) (p : Str)
    (hb : ∀ sel s, b.styles sel = some s → s.Properties p = none)
    (hin : parseCSS elem.Style p = none) : computeStyle b elem p = none := by
  cases hc : computeStyle b elem p with
  | none => rfl
  | some v =>
    exfalso
    have hs : (computeStyle b elem p).isSome = true := by rw [hc]; rfl
    rw [computeStyle_apply, orElse_isSome, applyIDStyles_isSome, foldl_applyToken_isSome] at hs
    rcases hs with h | ((h | ⟨t, _, s, h1, h2⟩) | ⟨_, s, h1, h2⟩)
    · rw [hin] at h
      cases h
    · cases h
    · rw [hb _ s h1] at h2
      cases h2
    · rw [hb _ s h1] at h2
      cases h2

/-- C29. When a layout holds two Style rules with the same selector and no
later rule has that selector, `LoadLayout` leaves under the selector the later
rule with the properties `parseCSS` gives for its body alone. A property that,
apart from the earlier rule, neither a rule of the builder nor another rule of
the layout defines is then absent from every entry of the registry, and from
`computeStyle` of every element whose inline style does not define it. -/
theorem LoadLayout_later_rule_wins (b : BuilderState) (layout : Layout)
    (pre mid post : List Style) (s1 s2 : Style)
    (hst : layout.Styles = pre ++ (s1 :: (mid ++ (s2 :: post))))
    (hsel : s2.Selector = s1.Selector) (hlast : ∀ r ∈ post, r.Selector ≠ s1.Selector) :
    (LoadLayout b (some layout)).1.styles s1.Selector =
        some ⟨s2.Selector, parseCSS s2.RawCSS, s2.RawCSS⟩ ∧
      ∀ p : Str, (∀ sel s, b.styles sel = some s → s.Properties p = none) →
        (∀ r ∈ pre ++ (mid ++ (s2 :: post)), parseCSS r.RawCSS p = none) →
        (∀ sel s, (LoadLayout b (some layout)).1.styles sel = some s →
          s.Properties p = none) ∧
        ∀ elem : Element, parseCSS elem.Style p = none →
          computeStyle (LoadLayout b (some layout)).1.toBuilder elem p = none := by
  have e : (LoadLayout b (some layout)).1 =
      post.foldl loadStyle (loadStyle (mid.foldl loadStyle
        (loadStyle (pre.foldl loadStyle b) s1)) s2) := by
    simp only [LoadLayout, hst, List.foldl_append, List.foldl_cons]
  refine ⟨?_, ?_⟩
  · rw [e, foldl_loadStyle_of_ne post s1.Selector _ hlast, ← hsel]
    exact loadStyle_styles_self _ s2
  · intro p hb hothers
    have hreg : ∀ sel s, (LoadLayout b (some layout)).1.styles sel = some s →
        s.Properties p = none := by
      have e2 : (LoadLayout b (some layout)).1 =
          (mid ++ (s2 :: post)).foldl loadStyle (loadStyle (pre.foldl loadStyle b) s1) := by
        simp only [LoadLayout, hst, List.foldl_append, List.foldl_cons]
      rw [e2]
      refine foldl_loadStyle_overwritten (mid ++ (s2 :: post)) p s1.Selector _ ?_ ?_ ?_
      · intro sel s hne hs
        rw [loadStyle_styles_ne _ s1 sel (Ne.symm hne)] at hs
        exact foldl_loadStyle_undefined pre p b hb
          (fun r hr => hothers r (List.mem_append_left _ hr)) sel s hs
      · exact fun r hr => hothers r (List.mem_append_right _ hr)
      · exact ⟨s2, List.mem_append_right _ (List.mem_cons_self _ _), hsel⟩
    exact ⟨hreg, fun elem hin => computeStyle_none_of_undefined _ elem p hreg hin⟩

theorem LoadLayout_later_rule_wins_witness :
    parseCSS "color: red; font-size: 20".toList "color".toList = some "red".toList ∧
      (LoadLayout NewBuilder (some twoRulesLayout)).1.styles ".title".toList =
        some ⟨".title".toList, parseCSS "font-size: 30".toList, "font-size: 30".toList⟩ ∧
      computeStyle (LoadLayout NewBuilder (some twoRulesLayout)).1.toBuilder titleElem
          "font-size".toList = some "30".toList ∧
      computeStyle (LoadLayout NewBuilder (some twoRulesLayout)).1.toBuilder titleElem
          "color".toList = none :=
  have h := LoadLayout_later_rule_wins NewBuilder twoRulesLayout []
    [⟨"#main".toList, GoMap.empty, "width: 10".toList⟩] []
    ⟨".title".toList, GoMap.empty, "color: red; font-size: 20".toList⟩
    ⟨".title".toList, GoMap.empty, "font-size: 30".toList⟩ rfl rfl
    (fun r hr => absurd hr (List.not_mem_nil r))
  ⟨by decide, h.1, by decide,
    (h.2 "color".toList (fun sel s hs => by cases hs)
      (fun r hr => by
        simp only [List.nil_append, List.cons_append, List.mem_cons, List.mem_singleton,
          List.not_mem_nil, or_false] at hr
        rcases hr with rfl | rfl <;> decide)).2 titleElem (by decide)⟩

end Rules
end Fylay
